import Mathlib

/-!
# Verification of the `thisbefine/analytics` event-delivery pipeline

This file gives a shallow embedding, in Lean 4, of the core logic of the
`thisbefine/analytics` client SDK, and proves (or refutes) a list of claims
about it.

Embedded components:

* the event `Queue` with circuit breaker, retry loop, offline handling and
  clock-offset estimation (source: the queue module with circuit breaker,
  `class Queue`);
* the earlier queue revision without a circuit breaker
  (source: `src/core/queue.ts`), named `QueueV1` here;
* the validation helpers (source: `src/core/validation.ts`);
* the consent loading of `Privacy` (source: `src/core/privacy.ts`);
* error-message normalization and fingerprinting (source: `src/core/errors.ts`).

Modelling conventions:

* JavaScript numbers are modelled as `ℚ` (the claims under study depend only
  on comparisons and on the textual arithmetic of the source, not on binary
  floating-point rounding); timestamps (`Date.now()`) are `ℤ` milliseconds.
* External effects are oracle parameters: the outcome of each `fetch` call,
  the result of `navigator.sendBeacon`, the wall clock, and the events pushed
  by the host application while a send is in flight (`arrivals`).
* The single-threaded async semantics of JS is modelled by explicit
  interleaving points: code between two `await`s runs atomically, and the
  only interleaving relevant to the claims (pushes arriving during an
  in-flight send) is passed explicitly.
-/

/-! ## Circuit breaker (queue module with circuit breaker)

`type CircuitState = "closed" | "open" | "half-open"` -/

inductive CircuitState where
  | closed
  | open
  | halfOpen
deriving DecidableEq, Repr

/-- The subset of `ResolvedConfig` that the queue logic reads. -/
structure ResolvedConfig where
  flushAt : Nat
  flushInterval : Int
  maxRetries : Nat
  circuitBreakerThreshold : Nat
  circuitBreakerResetTimeout : Int
deriving Repr

/-- The mutable fields of `class Queue` that the modelled operations touch.
`timer`, `flushPromise` and the event-listener bookkeeping are scheduling
state, not queue content, and are not represented; `E` is the type of
analytics events (the queue logic never inspects an event). -/
structure QueueState (E : Type) where
  items : List E
  circuitState : CircuitState
  consecutiveFailures : Nat
  circuitOpenedAt : Option Int
  clockOffset : ℚ
  isOnline : Bool

namespace Queue

/-- `canAttemptRequest` of the circuit-breaker queue.  Returns the boolean
result together with the updated state (the method mutates
`this.circuitState` on the open-to-half-open transition).  `now` is the
`Date.now()` reading. -/
def canAttemptRequest (cfg : ResolvedConfig) (now : Int) (s : QueueState E) :
    Bool × QueueState E :=
  if s.circuitState = .closed then
    (true, s)
  else
    match s.circuitState, s.circuitOpenedAt with
    | .open, some t =>
      let elapsed := now - t
      if elapsed ≥ cfg.circuitBreakerResetTimeout then
        (true, { s with circuitState := .halfOpen })
      else
        (false, s)
    | _, _ => (decide (s.circuitState = .halfOpen), s)

/-- `recordSuccess`: closes the circuit and resets the failure counter. -/
def recordSuccess (s : QueueState E) : QueueState E :=
  { s with
    consecutiveFailures := 0
    circuitState := .closed
    circuitOpenedAt := none }

/-- `recordFailure`: increments the consecutive-failure counter and opens the
circuit (recording the opening time `now`) once it reaches the threshold. -/
def recordFailure (cfg : ResolvedConfig) (now : Int) (s : QueueState E) :
    QueueState E :=
  let f := s.consecutiveFailures + 1
  if f ≥ cfg.circuitBreakerThreshold then
    { s with
      consecutiveFailures := f
      circuitState := .open
      circuitOpenedAt := some now }
  else
    { s with consecutiveFailures := f }

/-- One recorded event of the circuit-breaker lifecycle: a flush checking
`canAttemptRequest` at time `now`, a recorded success, or a recorded failure
at time `now`. -/
inductive CBEvent where
  | attempt (now : Int)
  | success
  | failure (now : Int)

/-- The effect of one `CBEvent` on the queue state. -/
def cbStep (cfg : ResolvedConfig) (s : QueueState E) : CBEvent → QueueState E
  | .attempt now => (canAttemptRequest cfg now s).2
  | .success => recordSuccess s
  | .failure now => recordFailure cfg now s

/-- The state after a sequence of circuit-breaker events, starting from
state `s`. -/
def cbRun (cfg : ResolvedConfig) (s : QueueState E) (tr : List CBEvent) :
    QueueState E :=
  tr.foldl (cbStep cfg) s

/-- The circuit breaker as constructed: `closed`, zero failures, no opening
time. -/
def cbInit (items : List E) (clockOffset : ℚ) (isOnline : Bool) :
    QueueState E :=
  { items := items
    circuitState := .closed
    consecutiveFailures := 0
    circuitOpenedAt := none
    clockOffset := clockOffset
    isOnline := isOnline }

end Queue

/-! ## Transport oracle and `sendWithRetry` (circuit-breaker queue) -/

/-- The outcome of one `fetch` call: either the fetch itself throws
(network/transport error), or an HTTP response arrives with the given status
code.  `serverTime` models the response's `Date` header: `none` when the
header is absent or does not parse to a valid time, `some t` for a parsed
server clock reading (ms). -/
inductive FetchOutcome where
  | netError
  | resp (status : Nat) (serverTime : Option ℚ)

/-- `Response.ok` per the fetch specification: status in 200..299. -/
def respOk (status : Nat) : Bool :=
  decide (200 ≤ status) && decide (status ≤ 299)

/-- Oracle for one retry loop: per attempt index, whether the browser reports
the network online at the start of the attempt, the fetch outcome, and the
`Date.now()` readings taken just before the fetch (`reqTime`) and when the
response arrives (`respTime`). -/
structure RetryEnv where
  online : Nat → Bool
  outcome : Nat → FetchOutcome
  reqTime : Nat → ℚ
  respTime : Nat → ℚ

/-- The error a send can surface (`throw` in the source). -/
inductive SendErr where
  | wentOffline
  | netErr
  | httpErr (status : Nat)
deriving DecidableEq, Repr

/-- Result of a (modelled) `sendWithRetry` run: the value or thrown error,
the clock offset after the run, the number of `fetch` calls performed, and
the number of backoff sleeps performed. -/
structure RetryResult where
  res : Except SendErr Unit
  clockOffset : ℚ
  fetches : Nat
  sleeps : Nat
deriving Repr

namespace Queue

/-- `updateClockOffset` of the circuit-breaker queue: from the parsed `Date`
header (`serverTime`, `none` when absent or `NaN`), the request time and the
response time, compute the instantaneous offset and, when its magnitude
exceeds 1000 ms, blend it into the stored offset with a 70/30 moving
average. -/
def updateClockOffset (co : ℚ) (serverTime : Option ℚ) (reqTime respTime : ℚ) :
    ℚ :=
  match serverTime with
  | none => co
  | some st =>
    let roundTripTime := respTime - reqTime
    let estimatedServerTime := st + roundTripTime / 2
    let clientTime := reqTime + roundTripTime / 2
    let newOffset := clientTime - estimatedServerTime
    if |newOffset| > 1000 then co * (7 / 10) + newOffset * (3 / 10) else co

/-- The retry loop of the circuit-breaker queue's `sendWithRetry`, from
attempt index `k` (the source iterates `attempt = 0 .. maxRetries`):

* offline at the start of an attempt → throw immediately;
* fetch throws → rethrow on the last attempt, else sleep and retry;
* `response.ok` → update the clock offset and return;
* status 4xx other than 429 → throw immediately;
* otherwise (429/5xx/other non-ok) → throw on the last attempt, else sleep
  and retry. -/
def retryFrom (cfg : ResolvedConfig) (env : RetryEnv) (co : ℚ) (k : Nat) :
    RetryResult :=
  if env.online k = false then
    ⟨.error .wentOffline, co, 0, 0⟩
  else
    match env.outcome k with
    | .netError =>
      if h : k < cfg.maxRetries then
        let r := retryFrom cfg env co (k + 1)
        ⟨r.res, r.clockOffset, r.fetches + 1, r.sleeps + 1⟩
      else
        ⟨.error .netErr, co, 1, 0⟩
    | .resp status serverTime =>
      if respOk status then
        ⟨.ok (), updateClockOffset co serverTime (env.reqTime k) (env.respTime k),
          1, 0⟩
      else if 400 ≤ status ∧ status < 500 ∧ status ≠ 429 then
        ⟨.error (.httpErr status), co, 1, 0⟩
      else if h : k < cfg.maxRetries then
        let r := retryFrom cfg env co (k + 1)
        ⟨r.res, r.clockOffset, r.fetches + 1, r.sleeps + 1⟩
      else
        ⟨.error (.httpErr status), co, 1, 0⟩
termination_by cfg.maxRetries - k

/-- `sendWithRetry` of the circuit-breaker queue: the retry loop started at
attempt 0. -/
def sendWithRetry (cfg : ResolvedConfig) (env : RetryEnv) (co : ℚ) :
    RetryResult :=
  retryFrom cfg env co 0

end Queue

/-! ## `flush` (circuit-breaker queue) -/

/-- A reason recorded in the `errors` field of a `FlushResult`. -/
inductive FlushErr where
  | maxDepthReached
  | networkOffline
  | circuitOpen
  | beaconFalse
  | send (e : SendErr)
deriving DecidableEq, Repr

/-- The `FlushResult` returned by `flush`. -/
structure FlushResult where
  success : Bool
  eventCount : Nat
  errors : List FlushErr
deriving DecidableEq, Repr

/-- Everything one modelled `flush` call produces: the queue state when the
returned promise resolves, the `FlushResult`, and the number of network
transmissions performed (fetch calls of the retry loop, or the one
beacon/keepalive transmission of the beacon path). -/
structure FlushOut (E : Type) where
  state : QueueState E
  result : FlushResult
  netCalls : Nat

namespace Queue

/-- `flush(useBeacon, depth)` of the circuit-breaker queue, for one flush
cycle with no other flush already in flight (`this.flushPromise === null`).

Oracle inputs: `now` is the `Date.now()` reading used by the circuit-breaker
check, `failNow` the reading used by `recordFailure` when the send fails,
`beaconOk` the result of `navigator.sendBeacon` (`true` as well when
`sendBeacon` is unavailable and the keepalive fallback is used, which the
source treats as success), `env` the transport oracle of the retry loop, and
`arrivals` the events pushed by the host application while the send was in
flight (the code between taking the batch and the continuation after
`await` runs without interleaving; pushes can only interleave during the
awaited send, and `push` appends).

Timer manipulation and queue persistence are not represented (they do not
change the in-memory queue content). -/
def flush (cfg : ResolvedConfig) (env : RetryEnv) (beaconOk : Bool)
    (now failNow : Int) (arrivals : List E)
    (useBeacon : Bool) (depth : Nat) (s : QueueState E) : FlushOut E :=
  if depth ≥ 3 then
    ⟨s, ⟨false, 0, [.maxDepthReached]⟩, 0⟩
  else if s.items.length = 0 then
    ⟨s, ⟨true, 0, []⟩, 0⟩
  else if s.isOnline = false ∧ useBeacon = false then
    ⟨s, ⟨false, 0, [.networkOffline]⟩, 0⟩
  else
    let chk := canAttemptRequest cfg now s
    if useBeacon = false ∧ chk.1 = false then
      ⟨chk.2, ⟨false, 0, [.circuitOpen]⟩, 0⟩
    else
      let s1 := if useBeacon then s else chk.2
      let batch := s1.items
      let batchCount := batch.length
      let s2 := { s1 with items := ([] : List E) }
      if useBeacon then
        if beaconOk = false then
          let s3 := recordFailure cfg failNow
            { s2 with items := batch ++ arrivals }
          ⟨s3, ⟨false, batchCount, [.beaconFalse]⟩, 1⟩
        else
          let s3 := recordSuccess { s2 with items := s2.items ++ arrivals }
          ⟨s3, ⟨true, batchCount, []⟩, 1⟩
      else
        let r := sendWithRetry cfg env s2.clockOffset
        match r.res with
        | .ok _ =>
          let s3 := recordSuccess
            { s2 with items := s2.items ++ arrivals, clockOffset := r.clockOffset }
          ⟨s3, ⟨true, batchCount, []⟩, r.fetches⟩
        | .error e =>
          let s3 := recordFailure cfg failNow
            { s2 with
              items := batch ++ (s2.items ++ arrivals)
              clockOffset := r.clockOffset }
          ⟨s3, ⟨false, batchCount, [.send e]⟩, r.fetches⟩

end Queue

/-! ## Batch payload envelope (circuit-breaker queue) -/

/-- `Math.round`: round half away from zero toward positive infinity
(`Math.round(0.5) = 1`, `Math.round(-0.5) = 0`, `Math.round(-1.5) = -1`). -/
def jsRound (q : ℚ) : Int :=
  ⌊q + 1 / 2⌋

/-- The envelope produced by `formatBatchPayload`.  The per-event flattening
of the `batch` array (the `switch` on the event type) renames fields inside
each event and is not observed by any claim; the batch is kept as the list of
events it flattens. -/
structure BatchPayload (E : Type) where
  sentAt : String
  clockOffset : Option Int
  apiKey : Option String
  batch : List E

namespace Queue

/-- `formatBatchPayload(batch, includeApiKey)` of the circuit-breaker queue:
the envelope contains `sentAt`, conditionally a rounded `clockOffset` (only
when the stored offset's magnitude exceeds 1000 ms), conditionally the API
key (beacon path), and the flattened batch. -/
def formatBatchPayload (apiKey sentAt : String) (co : ℚ) (batch : List E)
    (includeApiKey : Bool) : BatchPayload E :=
  { sentAt := sentAt
    clockOffset := if |co| > 1000 then some (jsRound co) else none
    apiKey := if includeApiKey then some apiKey else none
    batch := batch }

end Queue

/-! ## The earlier queue revision (`src/core/queue.ts`), `QueueV1`

This revision has no circuit breaker, no offline handling and no clock
offset; its retry loop differs from the circuit-breaker queue's in that the
`throw` for a non-429 4xx response happens inside the `try` block, so it is
caught by the surrounding `catch` and only rethrown on the last attempt. -/

namespace QueueV1

/-- Result of the `QueueV1` retry loop: value or thrown error, number of
`fetch` calls, number of backoff sleeps. -/
structure RetryResultV1 where
  res : Except SendErr Unit
  fetches : Nat
  sleeps : Nat
deriving Repr

/-- The retry loop of `QueueV1.sendWithRetry` from attempt `k`
(`attempt = 0 .. maxRetries` in the source):

* fetch throws → the `catch` rethrows on the last attempt, else sleep, retry;
* `response.ok` → return;
* status 4xx other than 429 → `throw` inside `try`, caught by the `catch`,
  which rethrows only on the last attempt (else sleep, retry);
* otherwise on the last attempt → throw; else sleep, retry. -/
def retryFrom (cfg : ResolvedConfig) (outcome : Nat → FetchOutcome) (k : Nat) :
    RetryResultV1 :=
  match outcome k with
  | .netError =>
    if h : k < cfg.maxRetries then
      let r := retryFrom cfg outcome (k + 1)
      ⟨r.res, r.fetches + 1, r.sleeps + 1⟩
    else
      ⟨.error .netErr, 1, 0⟩
  | .resp status _ =>
    if respOk status then
      ⟨.ok (), 1, 0⟩
    else if 400 ≤ status ∧ status < 500 ∧ status ≠ 429 then
      if h : k < cfg.maxRetries then
        let r := retryFrom cfg outcome (k + 1)
        ⟨r.res, r.fetches + 1, r.sleeps + 1⟩
      else
        ⟨.error (.httpErr status), 1, 0⟩
    else if h : k < cfg.maxRetries then
      let r := retryFrom cfg outcome (k + 1)
      ⟨r.res, r.fetches + 1, r.sleeps + 1⟩
    else
      ⟨.error (.httpErr status), 1, 0⟩
termination_by cfg.maxRetries - k

/-- `QueueV1.sendWithRetry`: the retry loop started at attempt 0. -/
def sendWithRetry (cfg : ResolvedConfig) (outcome : Nat → FetchOutcome) :
    RetryResultV1 :=
  retryFrom cfg outcome 0

/-- Output of one modelled `QueueV1.flush` cycle: the queue contents when the
flush completes, the number of network calls, and whether the send failed
(the `catch` branch that re-queues the batch ran; `QueueV1.flush` itself
returns `void` and swallows the error). -/
structure FlushOutV1 (E : Type) where
  items : List E
  netCalls : Nat
  failed : Bool

/-- `QueueV1.flush(useBeacon, depth)` for one flush cycle with no flush
already in flight.  `arrivals` are events pushed while the send was in
flight; in the beacon path `sendBeacon`'s boolean result is ignored, so the
batch is never re-queued there. -/
def flush (cfg : ResolvedConfig) (outcome : Nat → FetchOutcome)
    (arrivals : List E) (useBeacon : Bool) (depth : Nat) (items : List E) :
    FlushOutV1 E :=
  if depth ≥ 3 then
    ⟨items, 0, false⟩
  else if items.length = 0 then
    ⟨items, 0, false⟩
  else
    let batch := items
    if useBeacon then
      ⟨arrivals, 1, false⟩
    else
      let r := sendWithRetry cfg outcome
      match r.res with
      | .ok _ => ⟨arrivals, r.fetches, false⟩
      | .error _ => ⟨batch ++ arrivals, r.fetches, true⟩

end QueueV1

/-! ## Validation (`src/core/validation.ts`) -/

/-- The WhiteSpace and LineTerminator code points of ECMAScript, as used by
`String.prototype.trim`. -/
def jsIsWhite (c : Char) : Bool :=
  c = ' ' || c = '\t' || c = '\n' || c = '\r' ||
  decide (c.toNat = 0x0b) || decide (c.toNat = 0x0c) ||
  decide (c.toNat = 0xa0) || decide (c.toNat = 0xfeff) ||
  decide (c.toNat = 0x1680) ||
  (decide (0x2000 ≤ c.toNat) && decide (c.toNat ≤ 0x200a)) ||
  decide (c.toNat = 0x2028) || decide (c.toNat = 0x2029) ||
  decide (c.toNat = 0x202f) || decide (c.toNat = 0x205f) ||
  decide (c.toNat = 0x3000)

/-- `String.prototype.trim`: strip leading and trailing JS whitespace. -/
def jsTrim (s : String) : String :=
  String.mk (((s.data.dropWhile jsIsWhite).reverse.dropWhile jsIsWhite).reverse)

/-- JavaScript `string.length`: the number of UTF-16 code units. -/
def utf16Len (s : String) : Nat :=
  (s.data.map fun c => if c.toNat < 0x10000 then 1 else 2).sum

/-- `ValidationResult` of `src/core/validation.ts`. -/
structure ValidationResult where
  valid : Bool
  error : Option String
deriving DecidableEq, Repr

/-- `isNonEmptyString` restricted to string inputs (the claims under study
pass strings; for non-string inputs the source returns `false` from the
`typeof` check). -/
def isNonEmptyString (value : String) : Bool :=
  decide (0 < utf16Len (jsTrim value))

/-- `MAX_STRING_LENGTH` of `src/core/validation.ts`. -/
def MAX_STRING_LENGTH : Nat := 500

/-- `validateUserId` of `src/core/validation.ts`, on string inputs. -/
def validateUserId (userId : String) : ValidationResult :=
  if isNonEmptyString userId = false then
    ⟨false, some "User ID must be a non-empty string"⟩
  else if utf16Len userId > MAX_STRING_LENGTH then
    ⟨false, some "User ID exceeds 500 characters"⟩
  else if userId = "undefined" ∨ userId = "null" ∨ userId = "[object Object]"
  then
    ⟨false, some ("Invalid user ID: \x22" ++ userId ++ "\x22")⟩
  else
    ⟨true, none⟩

/-- `validateAccountId` of `src/core/validation.ts`, on string inputs. -/
def validateAccountId (accountId : String) : ValidationResult :=
  if isNonEmptyString accountId = false then
    ⟨false, some "Account ID must be a non-empty string"⟩
  else if utf16Len accountId > MAX_STRING_LENGTH then
    ⟨false, some "Account ID exceeds 500 characters"⟩
  else if accountId = "undefined" ∨ accountId = "null" ∨
      accountId = "[object Object]" then
    ⟨false, some ("Invalid account ID: \x22" ++ accountId ++ "\x22")⟩
  else
    ⟨true, none⟩

namespace AnalyticsImpl

/-- `AnalyticsImpl.identify(userId, traits)`, projected to the event it
queues: `none` when no event reaches the queue, `some userId` when an
`IdentifyEvent` carrying `userId` is queued.  `shouldTrack` is the privacy
gate's answer and `traitsValidation` the result of `validateProperties`
on the traits object (its input is an arbitrary JS value, passed here as
the already-computed result); session updates and envelope assembly are
not represented. -/
def identify (shouldTrack : Bool) (userId : String)
    (traitsValidation : ValidationResult) : Option String :=
  if shouldTrack = false then none
  else if (validateUserId userId).valid = false then none
  else if traitsValidation.valid = false then none
  else some userId

/-- `AnalyticsImpl.group(accountId, traits)`, projected to the event it
queues, as for `identify`. -/
def group (shouldTrack : Bool) (accountId : String)
    (traitsValidation : ValidationResult) : Option String :=
  if shouldTrack = false then none
  else if (validateAccountId accountId).valid = false then none
  else if traitsValidation.valid = false then none
  else some accountId

end AnalyticsImpl

/-! ## Privacy consent loading (`src/core/privacy.ts`) -/

/-- `ConsentCategory` of the SDK. -/
inductive ConsentCategory where
  | analytics
  | marketing
  | functional
deriving DecidableEq, Repr

/-- A JavaScript value as far as `loadConsentFromStorage` can observe one:
`JSON.parse` may produce an array, a string, or something else; array
elements are compared by `===` against the three category strings, so all
non-string values behave alike. -/
inductive JsVal where
  | str (s : String)
  | arr (elems : List JsVal)
  | other

/-- `ALL_CATEGORIES` of `src/core/privacy.ts`. -/
def ALL_CATEGORIES : List ConsentCategory :=
  [.analytics, .marketing, .functional]

/-- `ALL_CATEGORIES.includes(c)` on a parsed JSON element, giving the matched
category. -/
def categoryOfJs : JsVal → Option ConsentCategory
  | .str "analytics" => some .analytics
  | .str "marketing" => some .marketing
  | .str "functional" => some .functional
  | _ => none

/-- The `ConsentConfig` fields `loadConsentFromStorage` reads. -/
structure ConsentConfig where
  defaultConsent : Option Bool
  categories : Option (List ConsentCategory)

namespace Privacy

/-- `Privacy.loadConsentFromStorage`, the consent set computed at
construction.  `parse` models `JSON.parse` (`.error` when it throws, which
the `catch` converts to the empty set); `stored` is `storage.get(CONSENT_KEY)`
(`none` for `null`).  The `if (stored)` test in the source is JS string
truthiness, so the empty string falls through to the configured default just
like an absent value. -/
def loadConsentFromStorage (parse : String → Except Unit JsVal)
    (stored : Option String) (consentConfig : ConsentConfig) :
    Finset ConsentCategory :=
  let defaultPath :=
    if consentConfig.defaultConsent.getD true then
      (consentConfig.categories.getD ALL_CATEGORIES).toFinset
    else
      (∅ : Finset ConsentCategory)
  match stored with
  | none => defaultPath
  | some s =>
    if s = "" then defaultPath
    else
      match parse s with
      | .error _ => ∅
      | .ok (.arr l) => (l.filterMap categoryOfJs).toFinset
      | .ok _ => ∅

end Privacy

/-- Whether a `JSON.parse` result is corrupted in the sense of claim C8:
the parse throws, or yields a non-array value. -/
def consentParseCorrupt : Except Unit JsVal → Bool
  | .error _ => true
  | .ok (.arr _) => false
  | .ok _ => true

/-- A `JSON.parse` oracle that throws on every input it is applied to; real
`JSON.parse` throws a `SyntaxError` on the inputs this development applies
the stub to (the empty string and `"x"`). -/
def jsonParseThrows : String → Except Unit JsVal :=
  fun _ => .error ()

/-! ## Helper lemmas -/

/-- `canAttemptRequest` only ever touches `circuitState`; the queue contents,
clock offset, failure counter, opening time and online flag are unchanged. -/
theorem canAttemptRequest_sub (cfg : ResolvedConfig) (now : Int)
    (s : QueueState E) :
    ((Queue.canAttemptRequest cfg now s).2).items = s.items ∧
    ((Queue.canAttemptRequest cfg now s).2).clockOffset = s.clockOffset ∧
    ((Queue.canAttemptRequest cfg now s).2).consecutiveFailures =
      s.consecutiveFailures ∧
    ((Queue.canAttemptRequest cfg now s).2).isOnline = s.isOnline := by
  obtain ⟨items, cs, f, oa, co, onl⟩ := s
  cases cs <;> cases oa <;>
    simp only [Queue.canAttemptRequest] <;>
    split <;> simp_all <;> split <;> simp_all

/-- `recordFailure` only touches the circuit-breaker fields. -/
theorem recordFailure_sub (cfg : ResolvedConfig) (now : Int)
    (s : QueueState E) :
    (Queue.recordFailure cfg now s).items = s.items ∧
    (Queue.recordFailure cfg now s).clockOffset = s.clockOffset ∧
    (Queue.recordFailure cfg now s).isOnline = s.isOnline := by
  simp only [Queue.recordFailure]
  split <;> exact ⟨rfl, rfl, rfl⟩

/-- Invariant of the circuit-breaker lifecycle: a closed circuit has fewer
consecutive failures than the threshold, an open circuit records an opening
time and at least threshold-many failures, and a half-open circuit keeps at
least threshold-many failures. -/
def cbInv (cfg : ResolvedConfig) (s : QueueState E) : Prop :=
  (s.circuitState = .closed →
    s.consecutiveFailures < cfg.circuitBreakerThreshold) ∧
  (s.circuitState = .open →
    s.circuitOpenedAt ≠ none ∧
    cfg.circuitBreakerThreshold ≤ s.consecutiveFailures) ∧
  (s.circuitState = .halfOpen →
    cfg.circuitBreakerThreshold ≤ s.consecutiveFailures)

/-- The freshly constructed queue satisfies the circuit-breaker invariant
(for a positive threshold). -/
theorem cbInv_init (cfg : ResolvedConfig)
    (hth : 1 ≤ cfg.circuitBreakerThreshold) (items : List E) (co : ℚ)
    (onl : Bool) : cbInv cfg (Queue.cbInit items co onl) := by
  refine ⟨fun _ => ?_, fun h => ?_, fun h => ?_⟩ <;>
    simp_all [Queue.cbInit, cbInv] <;> omega

/-- Every circuit-breaker event preserves the invariant. -/
theorem cbInv_step (cfg : ResolvedConfig)
    (hth : 1 ≤ cfg.circuitBreakerThreshold) (s : QueueState E)
    (ev : Queue.CBEvent) (hinv : cbInv cfg s) :
    cbInv cfg (Queue.cbStep cfg s ev) := by
  obtain ⟨hc, ho, hh⟩ := hinv
  obtain ⟨items, cs, f, oa, co, onl⟩ := s
  cases ev with
  | attempt now =>
    cases cs <;> cases oa <;>
      simp_all [Queue.cbStep, Queue.canAttemptRequest, cbInv] <;>
      split <;> simp_all
  | success =>
    simp_all [Queue.cbStep, Queue.recordSuccess, cbInv]
    omega
  | failure now =>
    cases cs <;>
      simp_all [Queue.cbStep, Queue.recordFailure, cbInv] <;>
      split <;> simp_all <;> omega

/-- The invariant holds in every reachable circuit-breaker state. -/
theorem cbInv_run (cfg : ResolvedConfig)
    (hth : 1 ≤ cfg.circuitBreakerThreshold) (items : List E) (co : ℚ)
    (onl : Bool) (tr : List Queue.CBEvent) :
    cbInv cfg (Queue.cbRun cfg (Queue.cbInit items co onl) tr) := by
  suffices h : ∀ (s : QueueState E), cbInv cfg s →
      cbInv cfg (Queue.cbRun cfg s tr) from
    h _ (cbInv_init cfg hth items co onl)
  unfold Queue.cbRun
  induction tr with
  | nil => exact fun s hs => hs
  | cons ev tl ih =>
    exact fun s hs => ih _ (cbInv_step cfg hth s ev hs)

/-- A transport oracle used to instantiate witness theorems: always online,
every fetch throws a network error. -/
def envNetErr : RetryEnv :=
  ⟨fun _ => true, fun _ => .netError, fun _ => 0, fun _ => 0⟩

/-- A configuration used to instantiate witness theorems: threshold 1,
reset timeout 30 ms, 2 retries. -/
def cfgW : ResolvedConfig :=
  { flushAt := 20
    flushInterval := 10000
    maxRetries := 2
    circuitBreakerThreshold := 1
    circuitBreakerResetTimeout := 30 }

/-! ## Claims -/

/-- Claim C2: the circuit breaker follows the specified state machine on
every reachable state: from `closed`, a recorded failure opens the circuit
exactly when the consecutive-failure counter reaches the threshold; while
`open`, `canAttemptRequest` answers `false` until the reset timeout has
elapsed since opening and then answers `true` moving the state to
`half-open`; a recorded success returns any state to `closed` with the
counter reset to zero; a recorded failure in `half-open` reopens the circuit
with the timeout restarted at the failure's time. -/
theorem C2_circuit_breaker_state_machine (cfg : ResolvedConfig)
    (hth : 1 ≤ cfg.circuitBreakerThreshold) (items : List E) (co : ℚ)
    (onl : Bool) (tr : List Queue.CBEvent) (s : QueueState E)
    (hs : s = Queue.cbRun cfg (Queue.cbInit items co onl) tr) :
    (s.circuitState = .closed → ∀ now : Int,
      ((Queue.recordFailure cfg now s).circuitState = .open ↔
        s.consecutiveFailures + 1 = cfg.circuitBreakerThreshold)) ∧
    (∀ t : Int, s.circuitState = .open → s.circuitOpenedAt = some t →
      ∀ now : Int,
      (now - t < cfg.circuitBreakerResetTimeout →
        Queue.canAttemptRequest cfg now s = (false, s)) ∧
      (cfg.circuitBreakerResetTimeout ≤ now - t →
        Queue.canAttemptRequest cfg now s =
          (true, { s with circuitState := .halfOpen }))) ∧
    ((Queue.recordSuccess s).circuitState = .closed ∧
      (Queue.recordSuccess s).consecutiveFailures = 0 ∧
      (Queue.recordSuccess s).circuitOpenedAt = none) ∧
    (s.circuitState = .halfOpen → ∀ now : Int,
      (Queue.recordFailure cfg now s).circuitState = .open ∧
      (Queue.recordFailure cfg now s).circuitOpenedAt = some now) := by
  have hinv : cbInv cfg s := hs ▸ cbInv_run cfg hth items co onl tr
  obtain ⟨hc, ho, hh⟩ := hinv
  refine ⟨?_, ?_, ⟨rfl, rfl, rfl⟩, ?_⟩
  · intro hcl now
    have hlt := hc hcl
    by_cases hge :
        cfg.circuitBreakerThreshold ≤ s.consecutiveFailures + 1
    · simp [Queue.recordFailure, hge]
      omega
    · simp [Queue.recordFailure, hge, hcl]
      omega
  · intro t hop ht now
    constructor <;> intro helapsed
    · simp [Queue.canAttemptRequest, hop, ht]
      omega
    · simp [Queue.canAttemptRequest, hop, ht, helapsed]
  · intro hho now
    have hge := hh hho
    have hge1 : cfg.circuitBreakerThreshold ≤ s.consecutiveFailures + 1 :=
      Nat.le_succ_of_le hge
    simp [Queue.recordFailure, hge1]

/-- Witness for C2: with threshold 1, a single recorded failure at time 5
opens the circuit, and at time 6 (before the 30 ms reset timeout) the
circuit denies the attempt and leaves the state unchanged. -/
theorem C2_circuit_breaker_state_machine_witness :
    Queue.canAttemptRequest cfgW 6
        (Queue.cbRun cfgW (Queue.cbInit ([] : List Nat) 0 true)
          [Queue.CBEvent.failure 5]) =
      (false,
        Queue.cbRun cfgW (Queue.cbInit ([] : List Nat) 0 true)
          [Queue.CBEvent.failure 5]) :=
  ((C2_circuit_breaker_state_machine cfgW (by decide) [] 0 true
      [Queue.CBEvent.failure 5] _ rfl).2.1 5 (by decide) (by decide)
    6).1 (by decide)

/-- Claim C5: flushing an empty queue is a no-op: no network call, the state
is unchanged, and the result is success with `eventCount = 0`, whatever the
circuit-breaker and online state (and whether or not beacon mode is
requested). -/
theorem C5_empty_flush_noop (cfg : ResolvedConfig) (env : RetryEnv)
    (beaconOk : Bool) (now failNow : Int) (arrivals : List E)
    (useBeacon : Bool) (s : QueueState E) (hempty : s.items.length = 0) :
    Queue.flush cfg env beaconOk now failNow arrivals useBeacon 0 s =
      ⟨s, ⟨true, 0, []⟩, 0⟩ := by
  have h3 : ¬ ((0 : Nat) ≥ 3) := by omega
  simp [Queue.flush, h3, hempty]

/-- Witness for C5: a concrete empty queue whose circuit is open and which is
offline still flushes to an unchanged state, success, and zero network
calls. -/
theorem C5_empty_flush_noop_witness :
    Queue.flush cfgW
        ⟨fun _ => true, fun _ => .netError, fun _ => 0, fun _ => 0⟩
        false 100 100 [] false 0
        (⟨[], .open, 3, some 5, 0, false⟩ : QueueState Nat) =
      ⟨⟨[], .open, 3, some 5, 0, false⟩, ⟨true, 0, []⟩, 0⟩ :=
  C5_empty_flush_noop cfgW _ false 100 100 [] false _ rfl

/-- Claim C6: with the circuit open and the reset timeout not yet elapsed, a
non-beacon flush performs zero network calls, fails, and leaves the events
queued; a beacon-mode flush still attempts delivery (one beacon/keepalive
transmission) whatever the online flag — both the offline check and the
circuit-breaker check are guarded by `!useBeacon`. -/
theorem C6_circuit_open_skips_nonbeacon_but_not_beacon
    (cfg : ResolvedConfig) (env : RetryEnv) (beaconOk : Bool)
    (now failNow : Int) (arrivals : List E) (s : QueueState E) (t : Int)
    (hne : s.items.length ≠ 0) (hopen : s.circuitState = .open)
    (ht : s.circuitOpenedAt = some t)
    (helapsed : now - t < cfg.circuitBreakerResetTimeout) :
    ((Queue.flush cfg env beaconOk now failNow arrivals false 0 s).netCalls
        = 0 ∧
      (Queue.flush cfg env beaconOk now failNow arrivals false 0
        s).result.success = false ∧
      (Queue.flush cfg env beaconOk now failNow arrivals false 0
        s).state.items = s.items) ∧
    (Queue.flush cfg env beaconOk now failNow arrivals true 0 s).netCalls
      = 1 := by
  have h3 : ¬ ((0 : Nat) ≥ 3) := by omega
  have hchk : Queue.canAttemptRequest cfg now s = (false, s) := by
    simp [Queue.canAttemptRequest, hopen, ht]
    omega
  constructor
  · by_cases honl : s.isOnline = false <;>
      simp [Queue.flush, h3, hne, hchk, honl]
  · cases hbk : beaconOk <;>
      simp [Queue.flush, h3, hne, hbk]

/-- Witness for C6: a concrete queue with one item, circuit opened at time 5,
checked at time 6 with a 30 ms reset timeout: the non-beacon flush is
short-circuited (no network call) while the beacon flush transmits. -/
theorem C6_circuit_open_skips_nonbeacon_but_not_beacon_witness :
    ((Queue.flush cfgW
          ⟨fun _ => true, fun _ => .netError, fun _ => 0, fun _ => 0⟩
          true 6 6 [] false 0
          (⟨[7], .open, 1, some 5, 0, true⟩ : QueueState Nat)).netCalls
        = 0 ∧
      (Queue.flush cfgW
          ⟨fun _ => true, fun _ => .netError, fun _ => 0, fun _ => 0⟩
          true 6 6 [] false 0
          (⟨[7], .open, 1, some 5, 0, true⟩ : QueueState Nat)).result.success
        = false ∧
      (Queue.flush cfgW
          ⟨fun _ => true, fun _ => .netError, fun _ => 0, fun _ => 0⟩
          true 6 6 [] false 0
          (⟨[7], .open, 1, some 5, 0, true⟩ : QueueState Nat)).state.items
        = [7]) ∧
    (Queue.flush cfgW
        ⟨fun _ => true, fun _ => .netError, fun _ => 0, fun _ => 0⟩
        true 6 6 [] true 0
        (⟨[7], .open, 1, some 5, 0, true⟩ : QueueState Nat)).netCalls
      = 1 :=
  C6_circuit_open_skips_nonbeacon_but_not_beacon cfgW _ true 6 6 []
    _ 5 (by decide) rfl rfl (by decide)

/-- Claim C3: in the circuit-breaker queue's `sendWithRetry`, a response
with a status in 400..499 other than 429 makes the loop throw on that very
attempt: one fetch (the attempt's own), no backoff sleep, no further
attempt, whatever the attempt index. -/
theorem C3_4xx_throws_immediately (cfg : ResolvedConfig) (env : RetryEnv)
    (co : ℚ) (k : Nat) (status : Nat) (serverTime : Option ℚ)
    (honl : env.online k = true)
    (hout : env.outcome k = .resp status serverTime)
    (h4 : 400 ≤ status) (h5 : status < 500) (h429 : status ≠ 429) :
    Queue.retryFrom cfg env co k =
      ⟨.error (.httpErr status), co, 1, 0⟩ := by
  have hnotok : respOk status = false := by
    simp [respOk]
    omega
  rw [Queue.retryFrom]
  simp [honl, hout, hnotok, h4, h5, h429]

/-- Witness for C3: a transport answering 404 on every attempt makes
`sendWithRetry` (the loop at attempt 0) throw `HTTP 404` after exactly one
fetch and no sleep. -/
theorem C3_4xx_throws_immediately_witness :
    Queue.retryFrom cfgW
        ⟨fun _ => true, fun _ => .resp 404 none, fun _ => 0, fun _ => 0⟩
        0 0 =
      ⟨.error (.httpErr 404), 0, 1, 0⟩ :=
  C3_4xx_throws_immediately cfgW _ 0 0 404 none rfl rfl
    (by decide) (by decide) (by decide)

/-- Claim C1: when a non-beacon flush takes a batch and the send throws, the
batch is re-inserted ahead of every event pushed while the send was in
flight: the resulting queue is exactly the failed batch followed by the
newer items, both in push order; the flush reports failure with the batch's
event count and the thrown error. -/
theorem C1_failed_batch_requeued_in_order (cfg : ResolvedConfig)
    (env : RetryEnv) (beaconOk : Bool) (now failNow : Int)
    (arrivals : List E) (s : QueueState E) (e : SendErr)
    (hne : s.items.length ≠ 0) (honl : s.isOnline = true)
    (hchk : (Queue.canAttemptRequest cfg now s).1 = true)
    (hsend : (Queue.sendWithRetry cfg env s.clockOffset).res = .error e) :
    (Queue.flush cfg env beaconOk now failNow arrivals false 0
        s).state.items = s.items ++ arrivals ∧
    (Queue.flush cfg env beaconOk now failNow arrivals false 0 s).result =
      ⟨false, s.items.length, [.send e]⟩ := by
  have h3 : ¬ ((0 : Nat) ≥ 3) := by omega
  obtain ⟨hi, hco, -, -⟩ := canAttemptRequest_sub cfg now s
  have hchk2 : ¬ ((Queue.canAttemptRequest cfg now s).1 = false) := by
    simp [hchk]
  simp only [Queue.flush, ge_iff_le, if_neg (by omega : ¬ (3 ≤ (0 : Nat))),
    if_neg hne]
  rw [if_neg (by simp [honl])]
  rw [if_neg (by simp [hchk])]
  simp only [Bool.false_eq_true, if_false]
  rw [hco, hsend]
  constructor
  · simp [Queue.recordFailure, hi]
    split <;> simp
  · simp [hi]

/-- Witness for C1: a queue holding `[1, 2]` whose send fails with a network
error while `[3]` arrives ends up holding `[1, 2, 3]`, and the flush reports
failure for the two batched events. -/
theorem C1_failed_batch_requeued_in_order_witness :
    (Queue.flush cfgW envNetErr true 0 0 [3] false 0
        (⟨[1, 2], .closed, 0, none, 0, true⟩ : QueueState Nat)).state.items
      = [1, 2, 3] ∧
    (Queue.flush cfgW envNetErr true 0 0 [3] false 0
        (⟨[1, 2], .closed, 0, none, 0, true⟩ : QueueState Nat)).result =
      ⟨false, 2, [.send .netErr]⟩ := by
  have hsend :
      (Queue.sendWithRetry cfgW envNetErr
        ((⟨[1, 2], .closed, 0, none, 0, true⟩ :
          QueueState Nat)).clockOffset).res = .error .netErr := by
    simp [Queue.sendWithRetry, Queue.retryFrom, envNetErr, cfgW]
  exact C1_failed_batch_requeued_in_order cfgW envNetErr true 0 0 [3] _
    .netErr (by decide) rfl rfl hsend

/-- Claim C7: `updateClockOffset` leaves the stored offset unchanged when
the instantaneous offset's magnitude is at most 1000 ms and otherwise
replaces it by `0.7 * old + 0.3 * new`; independently, the batch envelope
carries a rounded `clockOffset` field exactly when the stored offset's
magnitude exceeds 1000 ms. -/
theorem C7_clock_offset_smoothing_and_payload_gate
    (co st reqTime respTime : ℚ) :
    ((|((reqTime + (respTime - reqTime) / 2) -
          (st + (respTime - reqTime) / 2))| ≤ 1000 →
        Queue.updateClockOffset co (some st) reqTime respTime = co) ∧
      (1000 < |((reqTime + (respTime - reqTime) / 2) -
          (st + (respTime - reqTime) / 2))| →
        Queue.updateClockOffset co (some st) reqTime respTime =
          co * (7 / 10) +
            ((reqTime + (respTime - reqTime) / 2) -
              (st + (respTime - reqTime) / 2)) * (3 / 10))) ∧
    (∀ (E : Type) (apiKey sentAt : String) (batch : List E) (inc : Bool),
      ((Queue.formatBatchPayload apiKey sentAt co batch inc).clockOffset
          ≠ none ↔ 1000 < |co|) ∧
      (∀ n : Int,
        (Queue.formatBatchPayload apiKey sentAt co batch inc).clockOffset
            = some n → n = jsRound co)) := by
  refine ⟨⟨?_, ?_⟩, ?_⟩
  · intro hle
    simp only [Queue.updateClockOffset]
    exact if_neg (not_lt.mpr hle)
  · intro hgt
    simp only [Queue.updateClockOffset]
    exact if_pos hgt
  · intro E apiKey sentAt batch inc
    constructor
    · by_cases hgt : 1000 < |co| <;>
        simp [Queue.formatBatchPayload, hgt]
    · intro n hn
      by_cases hgt : 1000 < |co| <;>
        simp [Queue.formatBatchPayload, hgt] at hn
      omega

/-- Witness for C7: with a stored offset of 0 and an instantaneous offset of
5000 ms (request sent at client time 5000 against server time 0), the
offset becomes `0 * 0.7 + 5000 * 0.3 = 1500`; an envelope formatted with a
stored offset of 1500 carries `clockOffset = 1500` and one formatted with
800 carries none. -/
theorem C7_clock_offset_smoothing_and_payload_gate_witness :
    Queue.updateClockOffset 0 (some 0) 5000 5000 = 1500 ∧
    (Queue.formatBatchPayload "k" "t" (1500 : ℚ) ([] : List Nat)
        false).clockOffset = some 1500 ∧
    (Queue.formatBatchPayload "k" "t" (800 : ℚ) ([] : List Nat)
        false).clockOffset = none := by
  refine ⟨?_, ?_, ?_⟩
  · have h :=
      (C7_clock_offset_smoothing_and_payload_gate 0 0 5000 5000).1.2
        (by norm_num)
    rw [h]
    norm_num
  · have h :=
      ((C7_clock_offset_smoothing_and_payload_gate 1500 0 0 0).2
        Nat "k" "t" [] false).1
    rcases hc : (Queue.formatBatchPayload "k" "t" (1500 : ℚ) ([] : List Nat)
        false).clockOffset with - | n
    · exact absurd (h.mpr (by norm_num)) (by simp [hc])
    · have hn := ((C7_clock_offset_smoothing_and_payload_gate 1500 0 0 0).2
        Nat "k" "t" [] false).2 n hc
      rw [hn]
      norm_num [jsRound]
  · have h :=
      ((C7_clock_offset_smoothing_and_payload_gate 800 0 0 0).2
        Nat "k" "t" [] false).1
    by_contra hne
    exact absurd (h.mp hne) (by norm_num)

/-- In the `QueueV1` retry loop, a transport that answers HTTP 400 on every
attempt produces `maxRetries - k + 1` fetches from attempt `k` and finally
throws `HTTP 400` (the 4xx `throw` sits inside the `try`, so the `catch`
swallows it until the last attempt). -/
theorem retryFromV1_const400 (cfg : ResolvedConfig)
    (outcome : Nat → FetchOutcome)
    (h400 : ∀ j, ∃ d, outcome j = .resp 400 d) :
    ∀ n k, cfg.maxRetries - k = n →
      QueueV1.retryFrom cfg outcome k =
        ⟨.error (.httpErr 400), n + 1, n⟩ := by
  intro n
  induction n with
  | zero =>
    intro k hk
    obtain ⟨d, hd⟩ := h400 k
    rw [QueueV1.retryFrom, hd]
    have hlast : ¬ (k < cfg.maxRetries) := by omega
    simp [respOk, hlast]
  | succ n ih =>
    intro k hk
    obtain ⟨d, hd⟩ := h400 k
    have hlt : k < cfg.maxRetries := by omega
    rw [QueueV1.retryFrom, hd]
    simp [respOk, hlt, ih (k + 1) (by omega)]

/-- Claim C4: with the `QueueV1` transport answering HTTP 400 on every
attempt, a flush performs exactly `maxRetries + 1` fetch calls before the
send fails, and afterwards the taken batch is back in the queue ahead of
any events that arrived meanwhile. -/
theorem C4_400_retried_then_requeued (cfg : ResolvedConfig)
    (outcome : Nat → FetchOutcome) (items arrivals : List E)
    (h400 : ∀ j, ∃ d, outcome j = .resp 400 d)
    (hne : items.length ≠ 0) :
    QueueV1.flush cfg outcome arrivals false 0 items =
      ⟨items ++ arrivals, cfg.maxRetries + 1, true⟩ := by
  have hr := retryFromV1_const400 cfg outcome h400 cfg.maxRetries 0
    (by omega)
  have h3 : ¬ ((0 : Nat) ≥ 3) := by omega
  simp [QueueV1.flush, h3, hne, QueueV1.sendWithRetry, hr]

/-- Witness for C4: one queued event, two retries configured, a transport
always answering 400: three fetches, and the event is back in the queue. -/
theorem C4_400_retried_then_requeued_witness :
    QueueV1.flush cfgW (fun _ => .resp 400 none) ([] : List Nat) false 0
        [7] =
      ⟨[7], 3, true⟩ :=
  C4_400_retried_then_requeued cfgW (fun _ => .resp 400 none) [7] []
    (fun j => ⟨none, rfl⟩) (by decide)

/-- Claim C8, amended: a present and *non-empty* stored consent value that
is corrupted (`JSON.parse` throws, or parses to a non-array) yields the
empty consent set whatever the configured default; the configured default
applies when the stored value is absent — or the empty string, which the
source's `if (stored)` truthiness test conflates with absence. -/
theorem C8_corrupted_consent_fails_safe
    (parse : String → Except Unit JsVal) (s : String) (cfg : ConsentConfig)
    (hne : s ≠ "") (hc : consentParseCorrupt (parse s) = true) :
    Privacy.loadConsentFromStorage parse (some s) cfg = ∅ := by
  simp only [Privacy.loadConsentFromStorage, if_neg hne]
  rcases hp : parse s with - | v
  · rfl
  · rcases v with - | l | -
    · rfl
    · rw [hp] at hc
      simp [consentParseCorrupt] at hc
    · rfl

/-- Witness for the amended C8: a non-empty corrupted stored value (the
string `"x"`, on which `JSON.parse` throws) yields the empty set despite a
permissive configured default. -/
theorem C8_corrupted_consent_fails_safe_witness :
    Privacy.loadConsentFromStorage jsonParseThrows (some "x")
        ⟨some true, some [.analytics]⟩ = ∅ :=
  C8_corrupted_consent_fails_safe jsonParseThrows "x"
    ⟨some true, some [.analytics]⟩ (by decide) rfl

/-- Counterexample to C8 as stated: the empty string is a present stored
consent value on which `JSON.parse` throws (`SyntaxError: Unexpected end of
JSON input`), yet `loadConsentFromStorage` applies the configured default
(here `{analytics}`) instead of the empty set, because the source's
`if (stored)` test treats the empty string as absent. -/
theorem C8_empty_string_consent_counterexample :
    consentParseCorrupt (jsonParseThrows "") = true ∧
    Privacy.loadConsentFromStorage jsonParseThrows (some "")
        ⟨some true, some [.analytics]⟩ = {ConsentCategory.analytics} ∧
    Privacy.loadConsentFromStorage jsonParseThrows (some "")
        ⟨some true, some [.analytics]⟩ ≠ (∅ : Finset ConsentCategory) := by
  refine ⟨rfl, by decide, by decide⟩

/-- Claim C10: the three stringified JavaScript sentinels are rejected by
`validateUserId` and `validateAccountId` although they are non-empty and
within the 500-unit length limit, and `identify`/`group` called with them
queue no event, whatever the privacy gate and traits validation say. -/
theorem C10_sentinel_ids_rejected :
    ∀ u ∈ (["undefined", "null", "[object Object]"] : List String),
      isNonEmptyString u = true ∧
      utf16Len u ≤ MAX_STRING_LENGTH ∧
      (validateUserId u).valid = false ∧
      (validateAccountId u).valid = false ∧
      (∀ (st : Bool) (tv : ValidationResult),
        AnalyticsImpl.identify st u tv = none) ∧
      (∀ (st : Bool) (tv : ValidationResult),
        AnalyticsImpl.group st u tv = none) := by
  intro u hu
  have huser : ∀ v ∈ (["undefined", "null", "[object Object]"] :
      List String), (validateUserId v).valid = false := by decide
  have hacct : ∀ v ∈ (["undefined", "null", "[object Object]"] :
      List String), (validateAccountId v).valid = false := by decide
  have hnonempty : ∀ v ∈ (["undefined", "null", "[object Object]"] :
      List String), isNonEmptyString v = true := by decide
  have hlen : ∀ v ∈ (["undefined", "null", "[object Object]"] :
      List String), utf16Len v ≤ MAX_STRING_LENGTH := by decide
  refine ⟨hnonempty u hu, hlen u hu, huser u hu, hacct u hu, ?_, ?_⟩
  · intro st tv
    cases st
    · rfl
    · simp [AnalyticsImpl.identify, huser u hu]
  · intro st tv
    cases st
    · rfl
    · simp [AnalyticsImpl.group, hacct u hu]

/-- Witness for C10: `identify` with userId `"undefined"` queues nothing
even with tracking allowed and valid traits. -/
theorem C10_sentinel_ids_rejected_witness :
    AnalyticsImpl.identify true "undefined" ⟨true, none⟩ = none :=
  ((C10_sentinel_ids_rejected "undefined" (by decide)).2.2.2.2.1
    true ⟨true, none⟩)

/-! ## Error fingerprinting (`src/core/errors.ts`)

`normalizeMessage` applies five global regex replacements in order:

1. `/[0-9a-f]{8}-[0-9a-f]{4}-[0-9a-f]{4}-[0-9a-f]{4}-[0-9a-f]{12}/gi`
   becomes `<uuid>`;
2. `/\x5cb\x5cd{5,}\x5cb/g` becomes `<id>`;
3. `/"[^"]*\x5cd+[^"]*"/g` becomes `"<dynamic>"`;
4. `/\x5cd{4}-\x5cd{2}-\x5cd{2}T\x5cd{2}:\x5cd{2}:\x5cd{2}/g` becomes
   `<timestamp>`;
5. `/\x5cs+/g` becomes a single space; then `.trim()`.

A global regex replacement scans left to right, at each position attempting
a match; on success the match is replaced and scanning resumes after the
matched source text (the replacement is not rescanned), on failure the
scanner advances one character.  Each pattern above is deterministic at a
given start position (fixed counts, or greedy runs whose backtracking can
never succeed), so each pass is modelled by a character scanner with a
per-position matcher. -/

/-- The regex word character class `[A-Za-z0-9_]` (ASCII, as JS regexes
without the unicode flag treat `\x5cb`). -/
def isWordChar (c : Char) : Bool :=
  c.isAlpha || c.isDigit || c = '_'

/-- The case-insensitive hex class `[0-9a-f]` with the `i` flag. -/
def isHexDigit (c : Char) : Bool :=
  c.isDigit || (decide ('a' ≤ c) && decide (c ≤ 'f')) ||
    (decide ('A' ≤ c) && decide (c ≤ 'F'))

/-- Consume exactly `n` characters of class `p`, returning the rest. -/
def chompPred (p : Char → Bool) : Nat → List Char → Option (List Char)
  | 0, s => some s
  | _ + 1, [] => none
  | n + 1, c :: cs => if p c then chompPred p n cs else none

/-- Consume exactly `n` hex digits, returning the rest. -/
def chompHex : Nat → List Char → Option (List Char) :=
  chompPred isHexDigit

/-- Consume exactly `n` decimal digits, returning the rest. -/
def chompDigits : Nat → List Char → Option (List Char) :=
  chompPred Char.isDigit

/-- Consume exactly the character `a`, returning the rest. -/
def chompChar (a : Char) : List Char → Option (List Char)
  | [] => none
  | c :: cs => if c = a then some cs else none

/-- A matcher: given the previous character (for `\x5cb`) and the text from
the current position, return `some (extra, repl)` when a match of length
`extra + 1` starts here, to be replaced by `repl`. -/
def Matcher : Type :=
  Option Char → List Char → Option (Nat × List Char)

/-- Consume the UUID shape 8-4-4-4-12 (hex, case-insensitive, dashes),
returning the rest. -/
def uuidChomp (s : List Char) : Option (List Char) :=
  (((((((((chompHex 8 s).bind (chompChar '-')).bind
    (chompHex 4)).bind (chompChar '-')).bind
    (chompHex 4)).bind (chompChar '-')).bind
    (chompHex 4)).bind (chompChar '-')).bind
    (chompHex 12))

/-- Pass 1 matcher: the UUID shape, 36 characters, no boundary
assertions. -/
def uuidTry : Matcher := fun _ s =>
  match uuidChomp s with
  | none => none
  | some _ => some (35, "<uuid>".data)

/-- Pass 2 matcher, `\x5cb\x5cd{5,}\x5cb`: a maximal run of at least five
digits whose neighbours are non-word (or the string ends).  Backtracking the
greedy run cannot help: shortening it makes the trailing `\x5cb` sit between
two digits. -/
def idTry : Matcher := fun prev s =>
  let prevOk := match prev with
    | none => true
    | some p => !isWordChar p
  if prevOk then
    let run := s.takeWhile Char.isDigit
    let rest := s.drop run.length
    let nextOk := match rest with
      | [] => true
      | c :: _ => !isWordChar c
    if 5 ≤ run.length && nextOk then
      some (run.length - 1, "<id>".data)
    else
      none
  else
    none

/-- Pass 3 matcher, a quote, quote-free content containing a digit, then
the next quote.  The greedy `[^"]*` cannot pass a quote, so the closing
quote is the next one; backtracking settles on any digit in between, so the
match succeeds exactly when the content up to the next quote contains a
digit. -/
def quotedTry : Matcher := fun _ s =>
  match s with
  | '"' :: rest =>
    let content := rest.takeWhile fun c => c ≠ '"'
    match rest.drop content.length with
    | '"' :: _ =>
      if content.any Char.isDigit then
        some (content.length + 1, "\x22<dynamic>\x22".data)
      else
        none
    | _ => none
  | _ => none

/-- Consume the 19-character ISO timestamp shape `dddd-dd-ddTdd:dd:dd`,
returning the rest. -/
def tsChomp (s : List Char) : Option (List Char) :=
  (((((((((((chompDigits 4 s).bind (chompChar '-')).bind
    (chompDigits 2)).bind (chompChar '-')).bind
    (chompDigits 2)).bind (chompChar 'T')).bind
    (chompDigits 2)).bind (chompChar ':')).bind
    (chompDigits 2)).bind (chompChar ':')).bind
    (chompDigits 2))

/-- Pass 4 matcher: the ISO timestamp shape, fixed counts, no boundary
assertions. -/
def timeTry : Matcher := fun _ s =>
  match tsChomp s with
  | none => none
  | some _ => some (18, "<timestamp>".data)

/-- Pass 5 matcher: a maximal nonempty whitespace run, replaced by one
space. -/
def wsTry : Matcher := fun _ s =>
  match s with
  | c :: _ =>
    if jsIsWhite c then
      some ((s.takeWhile jsIsWhite).length - 1, [' '])
    else
      none
  | [] => none

/-- Left-to-right global replacement: attempt the matcher at each position;
on a match emit the replacement, record the matched source text's last
character as the new `prev` (scanning resumes after the matched source, and
`\x5cb` looks at the source, not the replacement), and continue after it;
on failure copy one character.  `fuel` bounds the number of scan steps
(callers pass the input length, which suffices since every step consumes at
least one character). -/
def scanRepl (f : Matcher) : Nat → Option Char → List Char → List Char
  | 0, _, l => l
  | _ + 1, _, [] => []
  | fuel + 1, prev, c :: cs =>
    match f prev (c :: cs) with
    | some (extra, repl) =>
      repl ++ scanRepl f fuel (some ((c :: cs).getD extra c))
        (List.drop extra cs)
    | none => c :: scanRepl f fuel (some c) cs

/-- One whole replacement pass over a character list. -/
def runPass (f : Matcher) (s : List Char) : List Char :=
  scanRepl f s.length none s

/-- Trim JS whitespace from both ends of a character list
(`String.prototype.trim`). -/
def trimChars (l : List Char) : List Char :=
  ((l.dropWhile jsIsWhite).reverse.dropWhile jsIsWhite).reverse

/-- `normalizeMessage` of `src/core/errors.ts`: the five passes in source
order, then `trim()`. -/
def normalizeMessage (message : String) : String :=
  String.mk (trimChars (runPass wsTry (runPass timeTry (runPass quotedTry
    (runPass idTry (runPass uuidTry message.data))))))

/-- `split("\n")` on a character list. -/
def splitOnNl : List Char → List (List Char)
  | [] => [[]]
  | c :: cs =>
    if c = '\n' then
      [] :: splitOnNl cs
    else
      match splitOnNl cs with
      | [] => [[c]]
      | h :: t => (c :: h) :: t

/-- Character-list prefix test (`String.prototype.startsWith`). -/
def isPrefixChars : List Char → List Char → Bool
  | [], _ => true
  | _ :: _, [] => false
  | p :: ps, c :: cs => p = c && isPrefixChars ps cs

/-- `extractTopFrame`: first line of the stack whose trimmed form starts
with `at `, trimmed; empty string for a missing stack or no such line. -/
def extractTopFrame (stack : Option String) : String :=
  match stack with
  | none => ""
  | some st =>
    let lines := splitOnNl st.data
    let filtered := lines.filter fun l => isPrefixChars "at ".data (trimChars l)
    match filtered with
    | [] => ""
    | l :: _ => String.mk (trimChars l)

/-- The UTF-16 code units of a string (`charCodeAt` sequence). -/
def utf16Units (s : String) : List Nat :=
  s.data.flatMap fun c =>
    if c.toNat < 0x10000 then
      [c.toNat]
    else
      [0xd800 + (c.toNat - 0x10000) / 0x400,
       0xdc00 + (c.toNat - 0x10000) % 0x400]

/-- `Math.imul` on 32-bit patterns: the low 32 bits of the product. -/
def imul32 (a b : Nat) : Nat :=
  a * b % 4294967296

/-- The cyrb53 hash of `src/core/errors.ts`.  JS int32 values are carried
as their unsigned 32-bit patterns: `^` is bitwise xor of patterns,
`Math.imul` is multiplication mod `2^32`, `x >>> n` is a right shift of the
pattern; the final value `4294967296 * (2097151 & h2) + (h1 >>> 0)` is below
`2^53` and exact. -/
def cyrb53 (s : String) (seed : Nat) : Nat :=
  let h0 : Nat × Nat := (Nat.xor 0xdeadbeef seed, Nat.xor 0x41c6ce57 seed)
  let hs := (utf16Units s).foldl
    (fun (h : Nat × Nat) (ch : Nat) =>
      (imul32 (Nat.xor h.1 ch) 2654435761, imul32 (Nat.xor h.2 ch) 1597334677))
    h0
  let h1a := imul32 (Nat.xor hs.1 (hs.1 >>> 16)) 2246822507
  let h1b := Nat.xor h1a (imul32 (Nat.xor hs.2 (hs.2 >>> 13)) 3266489909)
  let h2a := imul32 (Nat.xor hs.2 (hs.2 >>> 16)) 2246822507
  let h2b := Nat.xor h2a (imul32 (Nat.xor h1b (h1b >>> 13)) 3266489909)
  4294967296 * (2097151 &&& h2b) + h1b

/-- One lowercase hex digit. -/
def hexDigitChar (n : Nat) : Char :=
  if n < 10 then Char.ofNat (48 + n) else Char.ofNat (87 + n)

/-- Hex digits of `n`, least significant first (64 division steps suffice
for every value below `2^53`). -/
def hexDigitsRev : Nat → Nat → List Char
  | 0, _ => []
  | fuel + 1, n =>
    if n = 0 then [] else hexDigitChar (n % 16) :: hexDigitsRev fuel (n / 16)

/-- `n.toString(16)` for a nonnegative integer below `2^53`. -/
def hexRepr (n : Nat) : List Char :=
  if n = 0 then ['0'] else (hexDigitsRev 64 n).reverse

/-- `padStart(14, "0")`. -/
def padStart14 (l : List Char) : List Char :=
  List.replicate (14 - l.length) '0' ++ l

/-- `hashString`: cyrb53 with seeds 0 and 1, each rendered as
zero-padded hex and concatenated. -/
def hashString (s : String) : String :=
  String.mk (padStart14 (hexRepr (cyrb53 s 0)) ++
    padStart14 (hexRepr (cyrb53 s 1)))

/-- `generateFingerprint(type, message, stack)`. -/
def generateFingerprint (type : Option String) (message : String)
    (stack : Option String) : String :=
  hashString ((type.getD "Error") ++ ":" ++ normalizeMessage message ++ ":" ++
    extractTopFrame stack)

/-! ## The fingerprint-stability relation of claim C9

Claim C9 speaks of two messages that "differ only in embedded UUIDs,
numeric runs of 5 or more digits, quoted strings containing digits, ISO
timestamps, or whitespace runs".  This is formalised by a common
segmentation: both messages decompose into the same alternation of shared
literal text and dynamic segments of those five categories, where the two
messages may carry different payloads of the same category at each dynamic
position. -/

/-- One segment of a common segmentation of two messages: shared literal
text, or a dynamic segment carrying the two messages' payloads. -/
inductive Seg2 where
  | lit (l : List Char)
  | uuid (u1 u2 : List Char)
  | idrun (d1 d2 : List Char)
  | quoted (q1 q2 : List Char)
  | tstamp (t1 t2 : List Char)
  | ws (w1 w2 : List Char)

/-- The first message's text of a segment (quoted payloads render inside
their double quotes). -/
def Seg2.render1 : Seg2 → List Char
  | .lit l => l
  | .uuid u _ => u
  | .idrun d _ => d
  | .quoted q _ => '"' :: (q ++ ['"'])
  | .tstamp t _ => t
  | .ws w _ => w

/-- The second message's text of a segment. -/
def Seg2.render2 : Seg2 → List Char
  | .lit l => l
  | .uuid _ u => u
  | .idrun _ d => d
  | .quoted _ q => '"' :: (q ++ ['"'])
  | .tstamp _ t => t
  | .ws _ w => w

/-- The first message of a segmentation. -/
def renderMsg1 (segs : List Seg2) : List Char :=
  segs.flatMap Seg2.render1

/-- The second message of a segmentation. -/
def renderMsg2 (segs : List Seg2) : List Char :=
  segs.flatMap Seg2.render2

/-- The UUID shape: 8-4-4-4-12 hex with dashes, 36 characters. -/
def uuidShape (u : List Char) : Bool :=
  uuidChomp u = some []

/-- A numeric run of five or more digits. -/
def idrunShape (d : List Char) : Bool :=
  d.all Char.isDigit && decide (5 ≤ d.length)

/-- The ISO timestamp shape `dddd-dd-ddTdd:dd:dd`. -/
def tsShape (t : List Char) : Bool :=
  tsChomp t = some []

/-- A quoted string's content containing a digit (and no quote, so that the
quotes around it delimit it). -/
def quotedShapeWeak (q : List Char) : Bool :=
  q.all (fun c => c ≠ '"') && q.any Char.isDigit

/-- A nonempty whitespace run. -/
def wsShape (w : List Char) : Bool :=
  !w.isEmpty && w.all jsIsWhite

/-- Category validity of a segment, as claim C9 states it (both payloads
belong to the same stated category). -/
def Seg2.validWeak : Seg2 → Bool
  | .lit _ => true
  | .uuid u1 u2 => uuidShape u1 && uuidShape u2
  | .idrun d1 d2 => idrunShape d1 && idrunShape d2
  | .quoted q1 q2 => quotedShapeWeak q1 && quotedShapeWeak q2
  | .tstamp t1 t2 => tsShape t1 && tsShape t2
  | .ws w1 w2 => wsShape w1 && wsShape w2

/-- Two messages differ only in embedded dynamic values (claim C9's
hypothesis, as stated): some common segmentation renders them, with every
dynamic segment carrying same-category payloads in both. -/
def DifferOnlyInDynamic (m1 m2 : List Char) : Prop :=
  ∃ segs : List Seg2, segs.all Seg2.validWeak = true ∧
    m1 = renderMsg1 segs ∧ m2 = renderMsg2 segs

/-! ### Character classes and separators -/

/-- A separator character: not a word character, not a hyphen, not a colon.
Such a character can occur in no match of the UUID, numeric-run or
timestamp patterns, so it insulates the text on its two sides from each
other for those passes. -/
def sepChar (c : Char) : Bool :=
  !isWordChar c && !(c = '-') && !(c = ':')

/-- `sepChar` lifted to the optional boundary character (`none` at the ends
of the message). -/
def sepOpt : Option Char → Bool
  | none => true
  | some c => sepChar c

/-- Non-whitespace, lifted to the optional boundary character. -/
def nonWsOpt : Option Char → Bool
  | none => true
  | some c => !jsIsWhite c

theorem uint32_le_iff (a b : UInt32) : a ≤ b ↔ a.toNat ≤ b.toNat := Iff.rfl

theorem char_toNat_val (c : Char) : c.toNat = c.val.toNat := rfl

theorem char_eq_iff (a c : Char) : c = a ↔ c.val.toNat = a.val.toNat := by
  constructor
  · rintro rfl; rfl
  · intro h
    exact Char.ext (UInt32.ext h)

theorem isHexDigit_of_isDigit (c : Char) (h : c.isDigit = true) :
    isHexDigit c = true := by
  simp [isHexDigit, h]

theorem isWordChar_of_isHexDigit (c : Char) (h : isHexDigit c = true) :
    isWordChar c = true := by
  simp only [isHexDigit, Bool.or_eq_true, Bool.and_eq_true,
    decide_eq_true_eq] at h
  simp only [isWordChar, Bool.or_eq_true, Bool.and_eq_true]
  rcases h with (h | h) | h
  · simp [h]
  · left; left
    simp only [Char.isDigit, Char.isAlpha, Char.isUpper, Char.isLower,
      Bool.and_eq_true, Bool.or_eq_true, decide_eq_true_eq, Char.le_def,
      uint32_le_iff,
      show UInt32.toNat 48 = 48 from rfl,
      show UInt32.toNat 57 = 57 from rfl,
      show UInt32.toNat 65 = 65 from rfl,
      show UInt32.toNat 70 = 70 from rfl,
      show UInt32.toNat 90 = 90 from rfl,
      show UInt32.toNat 95 = 95 from rfl,
      show UInt32.toNat 97 = 97 from rfl,
      show UInt32.toNat 102 = 102 from rfl,
      show UInt32.toNat 122 = 122 from rfl,
      show ('a' : Char).val.toNat = 97 from rfl,
      show ('f' : Char).val.toNat = 102 from rfl,
      show ('A' : Char).val.toNat = 65 from rfl,
      show ('Z' : Char).val.toNat = 90 from rfl,
      show ('z' : Char).val.toNat = 122 from rfl] at h ⊢
    omega
  · left; left
    simp only [Char.isDigit, Char.isAlpha, Char.isUpper, Char.isLower,
      Bool.and_eq_true, Bool.or_eq_true, decide_eq_true_eq, Char.le_def,
      uint32_le_iff,
      show UInt32.toNat 48 = 48 from rfl,
      show UInt32.toNat 57 = 57 from rfl,
      show UInt32.toNat 65 = 65 from rfl,
      show UInt32.toNat 70 = 70 from rfl,
      show UInt32.toNat 90 = 90 from rfl,
      show UInt32.toNat 95 = 95 from rfl,
      show UInt32.toNat 97 = 97 from rfl,
      show UInt32.toNat 102 = 102 from rfl,
      show UInt32.toNat 122 = 122 from rfl,
      show ('A' : Char).val.toNat = 65 from rfl,
      show ('F' : Char).val.toNat = 70 from rfl,
      show ('Z' : Char).val.toNat = 90 from rfl,
      show UInt32.toNat 48 = 48 from rfl,
      show UInt32.toNat 57 = 57 from rfl,
      show UInt32.toNat 65 = 65 from rfl,
      show UInt32.toNat 70 = 70 from rfl,
      show UInt32.toNat 90 = 90 from rfl,
      show UInt32.toNat 95 = 95 from rfl,
      show UInt32.toNat 97 = 97 from rfl,
      show UInt32.toNat 102 = 102 from rfl,
      show UInt32.toNat 122 = 122 from rfl,
      show ('a' : Char).val.toNat = 97 from rfl,
      show ('z' : Char).val.toNat = 122 from rfl] at h ⊢
    omega

theorem isWordChar_of_isDigit (c : Char) (h : c.isDigit = true) :
    isWordChar c = true :=
  isWordChar_of_isHexDigit c (isHexDigit_of_isDigit c h)

theorem sep_not_word (c : Char) (h : sepChar c = true) :
    isWordChar c = false := by
  simp only [sepChar, Bool.and_eq_true, Bool.not_eq_true'] at h
  exact h.1.1

theorem sep_not_hex (c : Char) (h : sepChar c = true) :
    isHexDigit c = false := by
  by_contra hh
  have hh2 : isHexDigit c = true := by simpa using hh
  have hw := isWordChar_of_isHexDigit c hh2
  rw [sep_not_word c h] at hw
  exact Bool.false_ne_true hw

theorem sep_not_digit (c : Char) (h : sepChar c = true) :
    c.isDigit = false := by
  by_contra hd
  have hd2 : c.isDigit = true := by simpa using hd
  have := isHexDigit_of_isDigit c hd2
  rw [sep_not_hex c h] at this
  exact Bool.false_ne_true this

theorem sep_ne_dash (c : Char) (h : sepChar c = true) : c ≠ '-' := by
  simp only [sepChar, Bool.and_eq_true, Bool.not_eq_true',
    decide_eq_false_iff_not] at h
  exact h.1.2

theorem sep_ne_colon (c : Char) (h : sepChar c = true) : c ≠ ':' := by
  simp only [sepChar, Bool.and_eq_true, Bool.not_eq_true',
    decide_eq_false_iff_not] at h
  exact h.2

theorem sep_ne_T (c : Char) (h : sepChar c = true) : c ≠ 'T' := by
  rintro rfl
  have hw : isWordChar 'T' = true := by decide
  rw [sep_not_word 'T' h] at hw
  exact Bool.false_ne_true hw

theorem white_toNat_facts (c : Char) (h : jsIsWhite c = true) :
    c.val.toNat = 32 ∨ c.val.toNat = 9 ∨ c.val.toNat = 10 ∨
    c.val.toNat = 13 ∨ c.val.toNat = 0x0b ∨ c.val.toNat = 0x0c ∨
    160 ≤ c.val.toNat := by
  simp only [jsIsWhite, Bool.or_eq_true, Bool.and_eq_true,
    decide_eq_true_eq, char_eq_iff, char_toNat_val,
    show (' ' : Char).val.toNat = 32 from rfl,
    show ('\t' : Char).val.toNat = 9 from rfl,
    show ('\n' : Char).val.toNat = 10 from rfl,
    show ('\r' : Char).val.toNat = 13 from rfl] at h
  omega

theorem white_not_hex (c : Char) (h : jsIsWhite c = true) :
    isHexDigit c = false := by
  have hf := white_toNat_facts c h
  simp only [isHexDigit, Bool.or_eq_false_iff, Bool.and_eq_false_iff,
    Char.isDigit, decide_eq_false_iff_not, Char.le_def, uint32_le_iff,
    not_le,
    show UInt32.toNat 48 = 48 from rfl,
    show UInt32.toNat 57 = 57 from rfl,
    show UInt32.toNat 65 = 65 from rfl,
    show UInt32.toNat 70 = 70 from rfl,
    show UInt32.toNat 90 = 90 from rfl,
    show UInt32.toNat 95 = 95 from rfl,
    show UInt32.toNat 97 = 97 from rfl,
    show UInt32.toNat 102 = 102 from rfl,
    show UInt32.toNat 122 = 122 from rfl,
    show ('0' : Char).val.toNat = 48 from rfl,
    show ('9' : Char).val.toNat = 57 from rfl,
    show ('a' : Char).val.toNat = 97 from rfl,
    show ('f' : Char).val.toNat = 102 from rfl,
    show ('A' : Char).val.toNat = 65 from rfl,
    show ('F' : Char).val.toNat = 70 from rfl]
  omega

theorem white_not_digit (c : Char) (h : jsIsWhite c = true) :
    c.isDigit = false := by
  by_contra hd
  have hd2 : c.isDigit = true := by simpa using hd
  have := isHexDigit_of_isDigit c hd2
  rw [white_not_hex c h] at this
  exact Bool.false_ne_true this

theorem white_not_word (c : Char) (h : jsIsWhite c = true) :
    isWordChar c = false := by
  have hf := white_toNat_facts c h
  simp only [isWordChar, Char.isAlpha, Char.isUpper, Char.isLower,
    Char.isDigit, Bool.or_eq_false_iff, Bool.and_eq_false_iff,
    decide_eq_false_iff_not, Char.le_def, uint32_le_iff, not_le,
    char_eq_iff,
    show UInt32.toNat 48 = 48 from rfl,
    show UInt32.toNat 57 = 57 from rfl,
    show UInt32.toNat 65 = 65 from rfl,
    show UInt32.toNat 70 = 70 from rfl,
    show UInt32.toNat 90 = 90 from rfl,
    show UInt32.toNat 95 = 95 from rfl,
    show UInt32.toNat 97 = 97 from rfl,
    show UInt32.toNat 102 = 102 from rfl,
    show UInt32.toNat 122 = 122 from rfl,
    show ('0' : Char).val.toNat = 48 from rfl,
    show ('9' : Char).val.toNat = 57 from rfl,
    show ('a' : Char).val.toNat = 97 from rfl,
    show ('z' : Char).val.toNat = 122 from rfl,
    show ('A' : Char).val.toNat = 65 from rfl,
    show ('Z' : Char).val.toNat = 90 from rfl,
    show ('_' : Char).val.toNat = 95 from rfl]
  omega

theorem white_is_sep (c : Char) (h : jsIsWhite c = true) :
    sepChar c = true := by
  have hf := white_toNat_facts c h
  simp only [sepChar, Bool.and_eq_true, Bool.not_eq_true',
    decide_eq_false_iff_not]
  refine ⟨⟨white_not_word c h, ?_⟩, ?_⟩ <;>
  · intro he
    rw [char_eq_iff] at he
    simp only [show ('-' : Char).val.toNat = 45 from rfl,
      show (':' : Char).val.toNat = 58 from rfl] at he
    omega

/-! ### Chomp lemmas -/

theorem chompChar_some_iff (a : Char) (s r : List Char) :
    chompChar a s = some r ↔ s = a :: r := by
  cases s with
  | nil => simp [chompChar]
  | cons c cs =>
    by_cases hc : c = a
    · subst hc
      simp [chompChar]
    · simp [chompChar, hc, List.cons.injEq]

theorem getLast?_cons_ne_nil (c z : Char) (cs : List Char) (hcs : cs ≠ [])
    (hz : (c :: cs).getLast? = some z) : cs.getLast? = some z := by
  rw [List.getLast?_cons] at hz
  cases hl : cs.getLast? with
  | none => exact absurd (List.getLast?_eq_none.mp hl) hcs
  | some d =>
    rw [hl] at hz
    have hdz : d = z := by simpa using hz
    rw [hdz]

theorem chompPred_some_drop (p : Char → Bool) :
    ∀ (k : Nat) (s r : List Char), chompPred p k s = some r →
      r = s.drop k ∧ k ≤ s.length ∧ ∀ c ∈ s.take k, p c = true := by
  intro k
  induction k with
  | zero => intro s r h; simp [chompPred] at h; simp [h.symm]
  | succ n ih =>
    intro s r h
    cases s with
    | nil => simp [chompPred] at h
    | cons c cs =>
      simp only [chompPred] at h
      by_cases hc : p c
      · simp only [hc, if_true] at h
        obtain ⟨h1, h2, h3⟩ := ih cs r h
        refine ⟨h1, by simpa using h2, ?_⟩
        intro d hd
        simp only [List.take_succ_cons, List.mem_cons] at hd
        rcases hd with rfl | hd
        · exact hc
        · exact h3 d hd
      · simp [hc] at h

theorem chompPred_append_success (p : Char → Bool) :
    ∀ (k : Nat) (X Y R : List Char), chompPred p k X = some Y →
      chompPred p k (X ++ R) = some (Y ++ R) := by
  intro k
  induction k with
  | zero => intro X Y R h; simp [chompPred] at h ⊢; simp [h.symm]
  | succ n ih =>
    intro X Y R h
    cases X with
    | nil => simp [chompPred] at h
    | cons c cs =>
      simp only [chompPred, List.cons_append] at h ⊢
      by_cases hc : p c
      · simp only [hc, if_true] at h ⊢
        exact ih cs Y R h
      · simp [hc] at h

theorem chompChar_append_success (a : Char) (X Y R : List Char)
    (h : chompChar a X = some Y) :
    chompChar a (X ++ R) = some (Y ++ R) := by
  rw [chompChar_some_iff] at h
  subst h
  rw [chompChar_some_iff]
  rfl

theorem chompPred_sentinel (p : Char → Bool) :
    ∀ (k : Nat) (X R : List Char) (z : Char), X.getLast? = some z →
      p z = false →
      chompPred p k (X ++ R) = (chompPred p k X).map (· ++ R) ∧
      (∀ Y, chompPred p k X = some Y → Y.getLast? = some z) := by
  intro k
  induction k with
  | zero =>
    intro X R z hz _
    simp only [chompPred, Option.map_some]
    exact ⟨rfl, fun Y hY => by
      have hXY : X = Y := by simpa using hY
      exact hXY ▸ hz⟩
  | succ n ih =>
    intro X R z hz hzp
    cases X with
    | nil => simp at hz
    | cons c cs =>
      by_cases hcs : cs = []
      · subst hcs
        have hcz : c = z := by simpa using hz
        subst hcz
        simp [chompPred, hzp]
      · have hz2 : cs.getLast? = some z := getLast?_cons_ne_nil c z cs hcs hz
        simp only [List.cons_append, chompPred]
        by_cases hc : p c
        · simp only [hc, if_true]
          exact ih cs R z hz2 hzp
        · simp [hc]

theorem chompChar_sentinel (a : Char) (X R : List Char) (z : Char)
    (hz : X.getLast? = some z) (hza : z ≠ a) :
    chompChar a (X ++ R) = (chompChar a X).map (· ++ R) ∧
    (∀ Y, chompChar a X = some Y → Y.getLast? = some z) := by
  cases X with
  | nil => simp at hz
  | cons c cs =>
    constructor
    · simp only [List.cons_append, chompChar]
      by_cases hc : c = a
      · simp [hc]
      · simp [hc]
    · intro Y hY
      rw [chompChar_some_iff] at hY
      injection hY with h1 h2
      subst h2
      by_cases hcs : cs = []
      · subst hcs
        have hcz : c = z := by simpa using hz
        exact absurd (h1 ▸ hcz.symm) hza
      · exact getLast?_cons_ne_nil c z cs hcs hz

/-! ### Composed chomp lemmas for the UUID and timestamp shapes -/

theorem chompPred_all_of (p : Char → Bool) :
    ∀ (t R : List Char), (∀ c ∈ t, p c = true) →
      chompPred p t.length (t ++ R) = some R := by
  intro t
  induction t with
  | nil => intro R _; simp [chompPred]
  | cons c cs ih =>
    intro R h
    simp only [List.length_cons, List.cons_append, chompPred,
      h c (by simp), if_true]
    exact ih R fun d hd => h d (by simp [hd])

theorem uuidChomp_append_success (X Y R : List Char)
    (h : uuidChomp X = some Y) : uuidChomp (X ++ R) = some (Y ++ R) := by
  simp only [uuidChomp, chompHex] at h ⊢
  rcases h1 : chompPred isHexDigit 8 X with - | Y1
  · rw [h1] at h; simp at h
  · rw [h1] at h
    rw [chompPred_append_success _ _ _ _ _ h1]
    simp only [Option.some_bind] at h ⊢
    rcases h2 : chompChar '-' Y1 with - | Y2
    · rw [h2] at h; simp at h
    · rw [h2] at h
      rw [chompChar_append_success _ _ _ _ h2]
      simp only [Option.some_bind] at h ⊢
      rcases h3 : chompPred isHexDigit 4 Y2 with - | Y3
      · rw [h3] at h; simp at h
      · rw [h3] at h
        rw [chompPred_append_success _ _ _ _ _ h3]
        simp only [Option.some_bind] at h ⊢
        rcases h4 : chompChar '-' Y3 with - | Y4
        · rw [h4] at h; simp at h
        · rw [h4] at h
          rw [chompChar_append_success _ _ _ _ h4]
          simp only [Option.some_bind] at h ⊢
          rcases h5 : chompPred isHexDigit 4 Y4 with - | Y5
          · rw [h5] at h; simp at h
          · rw [h5] at h
            rw [chompPred_append_success _ _ _ _ _ h5]
            simp only [Option.some_bind] at h ⊢
            rcases h6 : chompChar '-' Y5 with - | Y6
            · rw [h6] at h; simp at h
            · rw [h6] at h
              rw [chompChar_append_success _ _ _ _ h6]
              simp only [Option.some_bind] at h ⊢
              rcases h7 : chompPred isHexDigit 4 Y6 with - | Y7
              · rw [h7] at h; simp at h
              · rw [h7] at h
                rw [chompPred_append_success _ _ _ _ _ h7]
                simp only [Option.some_bind] at h ⊢
                rcases h8 : chompChar '-' Y7 with - | Y8
                · rw [h8] at h; simp at h
                · rw [h8] at h
                  rw [chompChar_append_success _ _ _ _ h8]
                  simp only [Option.some_bind] at h ⊢
                  exact chompPred_append_success _ _ _ _ _ h

theorem uuidChomp_sentinel (X R : List Char) (z : Char)
    (hz : X.getLast? = some z) (hzh : isHexDigit z = false)
    (hzd : z ≠ '-') :
    uuidChomp (X ++ R) = (uuidChomp X).map (· ++ R) := by
  simp only [uuidChomp, chompHex]
  obtain ⟨e1, k1⟩ := chompPred_sentinel isHexDigit 8 X R z hz hzh
  rw [e1]
  rcases h1 : chompPred isHexDigit 8 X with - | Y1
  · simp
  · simp only [Option.map_some', Option.some_bind]
    obtain ⟨e2, k2⟩ := chompChar_sentinel '-' Y1 R z (k1 _ h1) hzd
    rw [e2]
    rcases h2 : chompChar '-' Y1 with - | Y2
    · simp
    · simp only [Option.map_some', Option.some_bind]
      obtain ⟨e3, k3⟩ := chompPred_sentinel isHexDigit 4 Y2 R z (k2 _ h2) hzh
      rw [e3]
      rcases h3 : chompPred isHexDigit 4 Y2 with - | Y3
      · simp
      · simp only [Option.map_some', Option.some_bind]
        obtain ⟨e4, k4⟩ := chompChar_sentinel '-' Y3 R z (k3 _ h3) hzd
        rw [e4]
        rcases h4 : chompChar '-' Y3 with - | Y4
        · simp
        · simp only [Option.map_some', Option.some_bind]
          obtain ⟨e5, k5⟩ := chompPred_sentinel isHexDigit 4 Y4 R z (k4 _ h4) hzh
          rw [e5]
          rcases h5 : chompPred isHexDigit 4 Y4 with - | Y5
          · simp
          · simp only [Option.map_some', Option.some_bind]
            obtain ⟨e6, k6⟩ := chompChar_sentinel '-' Y5 R z (k5 _ h5) hzd
            rw [e6]
            rcases h6 : chompChar '-' Y5 with - | Y6
            · simp
            · simp only [Option.map_some', Option.some_bind]
              obtain ⟨e7, k7⟩ :=
                chompPred_sentinel isHexDigit 4 Y6 R z (k6 _ h6) hzh
              rw [e7]
              rcases h7 : chompPred isHexDigit 4 Y6 with - | Y7
              · simp
              · simp only [Option.map_some', Option.some_bind]
                obtain ⟨e8, k8⟩ :=
                  chompChar_sentinel '-' Y7 R z (k7 _ h7) hzd
                rw [e8]
                rcases h8 : chompChar '-' Y7 with - | Y8
                · simp
                · simp only [Option.map_some', Option.some_bind]
                  obtain ⟨e9, _⟩ :=
                    chompPred_sentinel isHexDigit 12 Y8 R z (k8 _ h8) hzh
                  rw [e9]

theorem tsChomp_append_success (X Y R : List Char)
    (h : tsChomp X = some Y) : tsChomp (X ++ R) = some (Y ++ R) := by
  simp only [tsChomp, chompDigits] at h ⊢
  rcases h1 : chompPred Char.isDigit 4 X with - | Y1
  · rw [h1] at h; simp at h
  · rw [h1] at h
    rw [chompPred_append_success _ _ _ _ _ h1]
    simp only [Option.some_bind] at h ⊢
    rcases h2 : chompChar '-' Y1 with - | Y2
    · rw [h2] at h; simp at h
    · rw [h2] at h
      rw [chompChar_append_success _ _ _ _ h2]
      simp only [Option.some_bind] at h ⊢
      rcases h3 : chompPred Char.isDigit 2 Y2 with - | Y3
      · rw [h3] at h; simp at h
      · rw [h3] at h
        rw [chompPred_append_success _ _ _ _ _ h3]
        simp only [Option.some_bind] at h ⊢
        rcases h4 : chompChar '-' Y3 with - | Y4
        · rw [h4] at h; simp at h
        · rw [h4] at h
          rw [chompChar_append_success _ _ _ _ h4]
          simp only [Option.some_bind] at h ⊢
          rcases h5 : chompPred Char.isDigit 2 Y4 with - | Y5
          · rw [h5] at h; simp at h
          · rw [h5] at h
            rw [chompPred_append_success _ _ _ _ _ h5]
            simp only [Option.some_bind] at h ⊢
            rcases h6 : chompChar 'T' Y5 with - | Y6
            · rw [h6] at h; simp at h
            · rw [h6] at h
              rw [chompChar_append_success _ _ _ _ h6]
              simp only [Option.some_bind] at h ⊢
              rcases h7 : chompPred Char.isDigit 2 Y6 with - | Y7
              · rw [h7] at h; simp at h
              · rw [h7] at h
                rw [chompPred_append_success _ _ _ _ _ h7]
                simp only [Option.some_bind] at h ⊢
                rcases h8 : chompChar ':' Y7 with - | Y8
                · rw [h8] at h; simp at h
                · rw [h8] at h
                  rw [chompChar_append_success _ _ _ _ h8]
                  simp only [Option.some_bind] at h ⊢
                  rcases h9 : chompPred Char.isDigit 2 Y8 with - | Y9
                  · rw [h9] at h; simp at h
                  · rw [h9] at h
                    rw [chompPred_append_success _ _ _ _ _ h9]
                    simp only [Option.some_bind] at h ⊢
                    rcases h10 : chompChar ':' Y9 with - | Y10
                    · rw [h10] at h; simp at h
                    · rw [h10] at h
                      rw [chompChar_append_success _ _ _ _ h10]
                      simp only [Option.some_bind] at h ⊢
                      exact chompPred_append_success _ _ _ _ _ h

theorem tsChomp_sentinel (X R : List Char) (z : Char)
    (hz : X.getLast? = some z) (hzd : z.isDigit = false)
    (hdash : z ≠ '-') (hcolon : z ≠ ':') (hT : z ≠ 'T') :
    tsChomp (X ++ R) = (tsChomp X).map (· ++ R) := by
  simp only [tsChomp, chompDigits]
  obtain ⟨e1, k1⟩ := chompPred_sentinel Char.isDigit 4 X R z hz hzd
  rw [e1]
  rcases h1 : chompPred Char.isDigit 4 X with - | Y1
  · simp
  · simp only [Option.map_some', Option.some_bind]
    obtain ⟨e2, k2⟩ := chompChar_sentinel '-' Y1 R z (k1 _ h1) hdash
    rw [e2]
    rcases h2 : chompChar '-' Y1 with - | Y2
    · simp
    · simp only [Option.map_some', Option.some_bind]
      obtain ⟨e3, k3⟩ := chompPred_sentinel Char.isDigit 2 Y2 R z (k2 _ h2) hzd
      rw [e3]
      rcases h3 : chompPred Char.isDigit 2 Y2 with - | Y3
      · simp
      · simp only [Option.map_some', Option.some_bind]
        obtain ⟨e4, k4⟩ := chompChar_sentinel '-' Y3 R z (k3 _ h3) hdash
        rw [e4]
        rcases h4 : chompChar '-' Y3 with - | Y4
        · simp
        · simp only [Option.map_some', Option.some_bind]
          obtain ⟨e5, k5⟩ :=
            chompPred_sentinel Char.isDigit 2 Y4 R z (k4 _ h4) hzd
          rw [e5]
          rcases h5 : chompPred Char.isDigit 2 Y4 with - | Y5
          · simp
          · simp only [Option.map_some', Option.some_bind]
            obtain ⟨e6, k6⟩ := chompChar_sentinel 'T' Y5 R z (k5 _ h5) hT
            rw [e6]
            rcases h6 : chompChar 'T' Y5 with - | Y6
            · simp
            · simp only [Option.map_some', Option.some_bind]
              obtain ⟨e7, k7⟩ :=
                chompPred_sentinel Char.isDigit 2 Y6 R z (k6 _ h6) hzd
              rw [e7]
              rcases h7 : chompPred Char.isDigit 2 Y6 with - | Y7
              · simp
              · simp only [Option.map_some', Option.some_bind]
                obtain ⟨e8, k8⟩ := chompChar_sentinel ':' Y7 R z (k7 _ h7) hcolon
                rw [e8]
                rcases h8 : chompChar ':' Y7 with - | Y8
                · simp
                · simp only [Option.map_some', Option.some_bind]
                  obtain ⟨e9, k9⟩ :=
                    chompPred_sentinel Char.isDigit 2 Y8 R z (k8 _ h8) hzd
                  rw [e9]
                  rcases h9 : chompPred Char.isDigit 2 Y8 with - | Y9
                  · simp
                  · simp only [Option.map_some', Option.some_bind]
                    obtain ⟨e10, k10⟩ :=
                      chompChar_sentinel ':' Y9 R z (k9 _ h9) hcolon
                    rw [e10]
                    rcases h10 : chompChar ':' Y9 with - | Y10
                    · simp
                    · simp only [Option.map_some', Option.some_bind]
                      obtain ⟨e11, _⟩ :=
                        chompPred_sentinel Char.isDigit 2 Y10 R z (k10 _ h10) hzd
                      rw [e11]

theorem uuidChomp_bound (s r : List Char) (h : uuidChomp s = some r) :
    r = s.drop 36 ∧ 36 ≤ s.length := by
  simp only [uuidChomp, chompHex] at h
  rcases h1 : chompPred isHexDigit 8 s with - | Y1 <;> rw [h1] at h
  · simp at h
  simp only [Option.some_bind] at h
  rcases h2 : chompChar '-' Y1 with - | Y2 <;> rw [h2] at h
  · simp at h
  simp only [Option.some_bind] at h
  rcases h3 : chompPred isHexDigit 4 Y2 with - | Y3 <;> rw [h3] at h
  · simp at h
  simp only [Option.some_bind] at h
  rcases h4 : chompChar '-' Y3 with - | Y4 <;> rw [h4] at h
  · simp at h
  simp only [Option.some_bind] at h
  rcases h5 : chompPred isHexDigit 4 Y4 with - | Y5 <;> rw [h5] at h
  · simp at h
  simp only [Option.some_bind] at h
  rcases h6 : chompChar '-' Y5 with - | Y6 <;> rw [h6] at h
  · simp at h
  simp only [Option.some_bind] at h
  rcases h7 : chompPred isHexDigit 4 Y6 with - | Y7 <;> rw [h7] at h
  · simp at h
  simp only [Option.some_bind] at h
  rcases h8 : chompChar '-' Y7 with - | Y8 <;> rw [h8] at h
  · simp at h
  simp only [Option.some_bind] at h
  obtain ⟨d1, -, -⟩ := chompPred_some_drop _ _ _ _ h1
  rw [chompChar_some_iff] at h2 h4 h6 h8
  obtain ⟨d3, -, -⟩ := chompPred_some_drop _ _ _ _ h3
  obtain ⟨d5, -, -⟩ := chompPred_some_drop _ _ _ _ h5
  obtain ⟨d7, -, -⟩ := chompPred_some_drop _ _ _ _ h7
  obtain ⟨d9, l9, -⟩ := chompPred_some_drop _ _ _ _ h
  have e2 : Y2 = Y1.drop 1 := by simp [h2]
  have e4 : Y4 = Y3.drop 1 := by simp [h4]
  have e6 : Y6 = Y5.drop 1 := by simp [h6]
  have e8 : Y8 = Y7.drop 1 := by simp [h8]
  have D8 : Y8 = s.drop 24 := by
    rw [e8, d7, e6, d5, e4, d3, e2, d1]
    simp only [List.drop_drop]
  rw [D8] at d9 l9
  refine ⟨?_, ?_⟩
  · rw [d9, List.drop_drop]
  · simp only [List.length_drop] at l9; omega

theorem tsChomp_bound (s r : List Char) (h : tsChomp s = some r) :
    r = s.drop 19 ∧ 19 ≤ s.length := by
  simp only [tsChomp, chompDigits] at h
  rcases h1 : chompPred Char.isDigit 4 s with - | Y1 <;> rw [h1] at h
  · simp at h
  simp only [Option.some_bind] at h
  rcases h2 : chompChar '-' Y1 with - | Y2 <;> rw [h2] at h
  · simp at h
  simp only [Option.some_bind] at h
  rcases h3 : chompPred Char.isDigit 2 Y2 with - | Y3 <;> rw [h3] at h
  · simp at h
  simp only [Option.some_bind] at h
  rcases h4 : chompChar '-' Y3 with - | Y4 <;> rw [h4] at h
  · simp at h
  simp only [Option.some_bind] at h
  rcases h5 : chompPred Char.isDigit 2 Y4 with - | Y5 <;> rw [h5] at h
  · simp at h
  simp only [Option.some_bind] at h
  rcases h6 : chompChar 'T' Y5 with - | Y6 <;> rw [h6] at h
  · simp at h
  simp only [Option.some_bind] at h
  rcases h7 : chompPred Char.isDigit 2 Y6 with - | Y7 <;> rw [h7] at h
  · simp at h
  simp only [Option.some_bind] at h
  rcases h8 : chompChar ':' Y7 with - | Y8 <;> rw [h8] at h
  · simp at h
  simp only [Option.some_bind] at h
  rcases h9 : chompPred Char.isDigit 2 Y8 with - | Y9 <;> rw [h9] at h
  · simp at h
  simp only [Option.some_bind] at h
  rcases h10 : chompChar ':' Y9 with - | Y10 <;> rw [h10] at h
  · simp at h
  simp only [Option.some_bind] at h
  obtain ⟨d1, -, -⟩ := chompPred_some_drop _ _ _ _ h1
  rw [chompChar_some_iff] at h2 h4 h6 h8 h10
  obtain ⟨d3, -, -⟩ := chompPred_some_drop _ _ _ _ h3
  obtain ⟨d5, -, -⟩ := chompPred_some_drop _ _ _ _ h5
  obtain ⟨d7, -, -⟩ := chompPred_some_drop _ _ _ _ h7
  obtain ⟨d9, -, -⟩ := chompPred_some_drop _ _ _ _ h9
  obtain ⟨d11, l11, -⟩ := chompPred_some_drop _ _ _ _ h
  have e2 : Y2 = Y1.drop 1 := by simp [h2]
  have e4 : Y4 = Y3.drop 1 := by simp [h4]
  have e6 : Y6 = Y5.drop 1 := by simp [h6]
  have e8 : Y8 = Y7.drop 1 := by simp [h8]
  have e10 : Y10 = Y9.drop 1 := by simp [h10]
  have D10 : Y10 = s.drop 17 := by
    rw [e10, d9, e8, d7, e6, d5, e4, d3, e2, d1]
    simp only [List.drop_drop]
  rw [D10] at d11 l11
  refine ⟨?_, ?_⟩
  · rw [d11, List.drop_drop]
  · simp only [List.length_drop] at l11; omega

/-- A scan over the whole input, with fuel set to the input length. -/
def scanRun (f : Matcher) (prev : Option Char) (s : List Char) : List Char :=
  scanRepl f s.length prev s

/-- The previous-character value after text `l` has been consumed. -/
def prevAfter (l : List Char) (prev : Option Char) : Option Char :=
  match l.getLast? with
  | some c => some c
  | none => prev

/-- Whether the character before the current position is a word character
(`false` at the start of the input); `\x5cb` sees `prev` only through
this. -/
def optWord : Option Char → Bool
  | none => false
  | some c => isWordChar c

/-- A matcher never matches more text than is present. -/
def MatchLenLe (f : Matcher) : Prop :=
  ∀ p s extra repl, f p s = some (extra, repl) → extra + 1 ≤ s.length

theorem prevAfter_nil (prev : Option Char) : prevAfter [] prev = prev := rfl

theorem prevAfter_cons (c : Char) (l : List Char) (prev : Option Char) :
    prevAfter (c :: l) prev = prevAfter l (some c) := by
  cases h : l.getLast? with
  | none =>
    have : l = [] := by
      cases l with
      | nil => rfl
      | cons a t => simp [List.getLast?_cons] at h
    subst this
    simp [prevAfter]
  | some d =>
    simp [prevAfter, List.getLast?_cons, h]

theorem scanRepl_congrFuel (f : Matcher) (hb : MatchLenLe f) :
    ∀ fuel1 fuel2 (prev : Option Char) (s : List Char),
      s.length ≤ fuel1 → s.length ≤ fuel2 →
      scanRepl f fuel1 prev s = scanRepl f fuel2 prev s := by
  intro fuel1
  induction fuel1 with
  | zero =>
    intro fuel2 prev s h1 _
    have : s = [] := by
      cases s with
      | nil => rfl
      | cons a t => simp at h1
    subst this
    cases fuel2 <;> rfl
  | succ n ih =>
    intro fuel2 prev s h1 h2
    cases s with
    | nil => cases fuel2 <;> rfl
    | cons c cs =>
      cases fuel2 with
      | zero => simp at h2
      | succ m =>
        simp only [scanRepl]
        cases hm : f prev (c :: cs) with
        | none =>
          simp only []
          rw [ih m (some c) cs (by simpa using h1) (by simpa using h2)]
        | some er =>
          obtain ⟨extra, repl⟩ := er
          have hle : extra + 1 ≤ cs.length + 1 := by
            have := hb _ _ _ _ hm
            simpa using this
          simp only [List.length_cons] at h1 h2
          simp only []
          rw [ih m _ (List.drop extra cs)
            (by simp only [List.length_drop]; omega)
            (by simp only [List.length_drop]; omega)]

theorem scanRun_nil (f : Matcher) (prev : Option Char) :
    scanRun f prev [] = [] := rfl

theorem scanRun_cons_none (f : Matcher) (prev : Option Char) (c : Char)
    (cs : List Char) (h : f prev (c :: cs) = none) :
    scanRun f prev (c :: cs) = c :: scanRun f (some c) cs := by
  simp only [scanRun, List.length_cons, scanRepl, h]

theorem scanRun_match (f : Matcher) (hb : MatchLenLe f) (prev : Option Char)
    (c : Char) (cs : List Char) (extra : Nat) (repl : List Char)
    (h : f prev (c :: cs) = some (extra, repl)) :
    scanRun f prev (c :: cs) =
      repl ++ scanRun f (some ((c :: cs).getD extra c)) (List.drop extra cs)
      := by
  have hle : extra + 1 ≤ cs.length + 1 := by
    have := hb _ _ _ _ h
    simpa using this
  unfold scanRun
  simp only [List.length_cons, scanRepl, h]
  exact congrArg (repl ++ .) (scanRepl_congrFuel f hb cs.length
    (List.drop extra cs).length _ _ (by simp only [List.length_drop]; omega)
    (by simp only [List.length_drop]; omega))

theorem getD_append_last (c : Char) (D2 B : List Char) :
    ((c :: D2) ++ B).getD D2.length c = (c :: D2).getLastD c := by
  rw [List.getD_append _ _ _ _ (by simp)]
  rw [List.getD_eq_getElem _ _ (by simp)]
  rw [List.getLastD_eq_getLast?, List.getLast?_eq_getElem?]
  simp

/-- Scanning an inert block (the matcher fails at every position of `A`,
whatever the previous character) copies it verbatim. -/
theorem scanRun_inert_block (f : Matcher) :
    ∀ (A B : List Char)
      (h : ∀ i p, i < A.length → f p (List.drop i A ++ B) = none)
      (prev : Option Char),
      scanRun f prev (A ++ B) = A ++ scanRun f (prevAfter A prev) B := by
  intro A
  induction A with
  | nil => intro B _ prev; simp [prevAfter]
  | cons c A2 ih =>
    intro B h prev
    have h0 : f prev ((c :: A2) ++ B) = none := by
      have := h 0 prev (by simp)
      simpa using this
    rw [List.cons_append, scanRun_cons_none f prev c (A2 ++ B) h0]
    rw [ih B (fun i p hi => by
      simpa using h (i + 1) p (by simp only [List.length_cons]; omega))
      (some c)]
    rw [prevAfter_cons]
    simp

/-- Scanning from a match that consumes exactly the block `D` emits the
replacement and resumes after `D`. -/
theorem scanRun_match_block (f : Matcher) (hb : MatchLenLe f)
    (D B repl : List Char) (prev : Option Char) (hD : D ≠ [])
    (h : f prev (D ++ B) = some (D.length - 1, repl)) :
    scanRun f prev (D ++ B) = repl ++ scanRun f (prevAfter D prev) B := by
  cases D with
  | nil => exact absurd rfl hD
  | cons c D2 =>
    rw [List.cons_append,
      scanRun_match f hb prev c (D2 ++ B) ((c :: D2).length - 1) repl
        (by simpa using h)]
    have h1 : List.drop ((c :: D2).length - 1) (D2 ++ B) = B := by
      simp
    have h2 : (c :: (D2 ++ B)).getD ((c :: D2).length - 1) c =
        (c :: D2).getLastD c := by
      have := getD_append_last c D2 B
      simpa using this
    have h3 : prevAfter (c :: D2) prev = some ((c :: D2).getLastD c) := by
      simp [prevAfter, List.getLastD_eq_getLast?]
      cases hl : (c :: D2).getLast? with
      | none => simp [List.getLast?_cons] at hl
      | some d => simp
    rw [h1, h2, h3]

set_option maxRecDepth 2000 in
/-- Counterexample to C9 as stated: `x12345y` and `x99999y` have equal type
and equal top stack frame and differ only in an embedded five-digit numeric
run, yet their fingerprints differ — the `\x5cb` word boundaries in the
numeric-run regex prevent normalization of a digit run embedded between
word characters, so the two messages keep distinct normalized forms. -/
theorem C9_embedded_digit_run_counterexample :
    DifferOnlyInDynamic "x12345y".data "x99999y".data ∧
    generateFingerprint (some "TypeError") "x12345y"
        (some "boom\n   at foo (bar.js:1:2)") ≠
      generateFingerprint (some "TypeError") "x99999y"
        (some "boom\n   at foo (bar.js:1:2)") := by
  constructor
  · exact ⟨[.lit "x".data, .idrun "12345".data "99999".data, .lit "y".data],
      by decide, by decide, by decide⟩
  · decide


/-! ### List helpers for the scan analysis -/

theorem getLast?_drop_of_lt :
    ∀ (l : List Char) (i : Nat), i < l.length →
      (List.drop i l).getLast? = l.getLast? := by
  intro l
  induction l with
  | nil => intro i h; simp at h
  | cons c cs ih =>
    intro i h
    cases i with
    | zero => rfl
    | succ j =>
      simp only [List.length_cons] at h
      have hj : j < cs.length := by omega
      cases cs with
      | nil => simp at hj
      | cons d ds =>
        rw [List.drop_succ_cons, ih j hj, List.getLast?_cons_cons]

theorem drop_head_mem (A : List Char) :
    ∀ (i : Nat), i < A.length →
      ∃ c cs, List.drop i A = c :: cs ∧ c ∈ A := by
  induction A with
  | nil => intro i h; simp at h
  | cons a as ih =>
    intro i h
    cases i with
    | zero => exact ⟨a, as, rfl, by simp⟩
    | succ j =>
      simp only [List.length_cons] at h
      obtain ⟨c, cs, hd, hm⟩ := ih j (by omega)
      exact ⟨c, cs, by simpa using hd, by simp [hm]⟩

theorem takeWhile_append_all (p : Char → Bool) :
    ∀ (Z W : List Char), (∀ c ∈ Z, p c = true) →
      List.takeWhile p (Z ++ W) = Z ++ List.takeWhile p W := by
  intro Z
  induction Z with
  | nil => intro W _; simp
  | cons c cs ih =>
    intro W h
    simp only [List.cons_append, List.takeWhile_cons, h c (by simp), if_true]
    rw [ih W fun d hd => h d (by simp [hd])]

theorem takeWhile_local (p : Char → Bool) :
    ∀ (Z W : List Char), (∃ c ∈ Z, p c = false) →
      List.takeWhile p (Z ++ W) = List.takeWhile p Z := by
  intro Z
  induction Z with
  | nil => intro W h; simp at h
  | cons c cs ih =>
    intro W h
    simp only [List.cons_append, List.takeWhile_cons]
    cases hc : p c with
    | false => simp
    | true =>
      simp only [if_true]
      obtain ⟨d, hd, hdp⟩ := h
      rcases List.mem_cons.mp hd with h1 | h1
      · subst h1; rw [hc] at hdp; simp at hdp
      · rw [ih W ⟨d, h1, hdp⟩]

theorem mem_take_getD (d : Char) :
    ∀ (l : List Char) (i n : Nat), i < n → i < l.length →
      l.getD i d ∈ l.take n := by
  intro l
  induction l with
  | nil => intro i n _ h; simp at h
  | cons c cs ih =>
    intro i n hn h
    cases n with
    | zero => omega
    | succ m =>
      cases i with
      | zero => simp
      | succ j =>
        simp only [List.length_cons] at h
        have := ih j m (by omega) (by omega)
        simp only [List.take_succ_cons, List.getD_cons_succ]
        exact List.mem_cons_of_mem _ this

theorem drop_append_of_le (l m : List Char) (n : Nat) (h : n ≤ l.length) :
    (l ++ m).drop n = l.drop n ++ m := by
  rw [List.drop_append_eq_append_drop]
  simp [Nat.sub_eq_zero_of_le h]

theorem take_append_of_le (l m : List Char) (n : Nat) (h : n ≤ l.length) :
    (l ++ m).take n = l.take n := by
  rw [List.take_append_eq_append_take]
  simp [Nat.sub_eq_zero_of_le h]

theorem head?_append_of_ne_nil (l m : List Char) (h : l ≠ []) :
    (l ++ m).head? = l.head? := by
  cases l with
  | nil => exact absurd rfl h
  | cons c cs => simp

theorem getLast?_cons_of_ne_nil (c : Char) (t : List Char) (h : t ≠ []) :
    (c :: t).getLast? = t.getLast? := by
  cases t with
  | nil => exact absurd rfl h
  | cons d ds => rw [List.getLast?_cons_cons]

theorem getD_last (l : List Char) (d : Char) (h : l ≠ []) :
    l.getD (l.length - 1) d = l.getLastD d := by
  have hlen : 0 < l.length := List.length_pos.mpr h
  rw [List.getD_eq_getElem _ _ (by omega)]
  rw [List.getLastD_eq_getLast?, List.getLast?_eq_getElem?]
  simp [List.getElem?_eq_getElem (by omega : l.length - 1 < l.length)]

theorem prevAfter_ne_nil (l : List Char) (p : Option Char) (h : l ≠ []) :
    prevAfter l p = l.getLast? := by
  unfold prevAfter
  cases hl : l.getLast? with
  | none => exact absurd (List.getLast?_eq_none.mp hl) h
  | some c => rfl

theorem prevAfter_after_match (c : Char) (cs : List Char) (e : Nat)
    (he : e ≤ cs.length) :
    prevAfter (List.drop e cs) (some ((c :: cs).getD e c)) =
      (c :: cs).getLast? := by
  rcases Nat.lt_or_ge e cs.length with h | h
  · have hne : List.drop e cs ≠ [] := by
      intro hnil
      have := congrArg List.length hnil
      simp only [List.length_drop, List.length_nil] at this
      omega
    rw [prevAfter_ne_nil _ _ hne, getLast?_drop_of_lt cs e h]
    cases cs with
    | nil => simp at h
    | cons d ds => rw [List.getLast?_cons_cons]
  · have he' : e = cs.length := by omega
    subst he'
    rw [List.drop_length, prevAfter_nil]
    have hgd : (c :: cs).getD cs.length c = (c :: cs).getLastD c := by
      have := getD_last (c :: cs) c (by simp)
      simpa using this
    rw [hgd, List.getLastD_eq_getLast?]
    cases hl : (c :: cs).getLast? with
    | none => exact absurd (List.getLast?_eq_none.mp hl) (by simp)
    | some x => rfl

/-! ### Scan lemmas: congruence, locality, boundary preservation -/

theorem scanRun_congr (f : Matcher)
    (hf : ∀ p q s, optWord p = optWord q → f p s = f q s)
    (p q : Option Char) (s : List Char) (hpq : optWord p = optWord q) :
    scanRun f p s = scanRun f q s := by
  cases s with
  | nil => rfl
  | cons c cs =>
    unfold scanRun
    simp only [List.length_cons, scanRepl]
    rw [hf p q _ hpq]

theorem scanRun_ne_nil (f : Matcher)
    (hr : ∀ p s e r, f p s = some (e, r) → r ≠ [])
    (p : Option Char) (s : List Char) (h : s ≠ []) : scanRun f p s ≠ [] := by
  cases s with
  | nil => exact absurd rfl h
  | cons c cs =>
    unfold scanRun
    simp only [List.length_cons, scanRepl]
    cases hm : f p (c :: cs) with
    | none => simp
    | some er =>
      obtain ⟨e, r⟩ := er
      have hrne := hr _ _ _ _ hm
      simp only [ne_eq, List.append_eq_nil]
      intro hc
      exact hrne hc.1

theorem scanRun_head_copy (f : Matcher) (p : Option Char) (c : Char)
    (cs : List Char) (h : f p (c :: cs) = none) :
    (scanRun f p (c :: cs)).head? = some c := by
  rw [scanRun_cons_none f p c cs h]
  rfl

theorem scanRun_append_local (f : Matcher) (hb : MatchLenLe f) :
    ∀ (n : Nat) (l R : List Char), l.length ≤ n →
      (∀ i q, i < l.length → f q (List.drop i l ++ R) = f q (List.drop i l)) →
      ∀ p, scanRun f p (l ++ R) =
        scanRun f p l ++ scanRun f (prevAfter l p) R := by
  intro n
  induction n with
  | zero =>
    intro l R hl _ p
    have hnil : l = [] := List.length_eq_zero.mp (by omega)
    subst hnil
    simp [scanRun_nil, prevAfter_nil]
  | succ m ih =>
    intro l R hl hloc p
    cases l with
    | nil => simp [scanRun_nil, prevAfter_nil]
    | cons c cs =>
      have h0 := hloc 0 p (by simp)
      simp only [List.drop_zero] at h0
      cases hm : f p (c :: cs) with
      | none =>
        have hmA : f p ((c :: cs) ++ R) = none := by rw [h0, hm]
        rw [List.cons_append] at hmA
        rw [List.cons_append, scanRun_cons_none f p c (cs ++ R) hmA,
          scanRun_cons_none f p c cs hm]
        rw [ih cs R (by simp only [List.length_cons] at hl; omega)
          (fun i q hi => by
            have := hloc (i + 1) q (by simp only [List.length_cons]; omega)
            simpa using this) (some c)]
        rw [prevAfter_cons]
        simp
      | some er =>
        obtain ⟨e, r⟩ := er
        have hmA : f p ((c :: cs) ++ R) = some (e, r) := by rw [h0, hm]
        rw [List.cons_append] at hmA
        have hlen : e + 1 ≤ cs.length + 1 := by
          have := hb _ _ _ _ hm
          simpa using this
        have hle : e ≤ cs.length := by omega
        rw [List.cons_append, scanRun_match f hb p c (cs ++ R) e r hmA,
          scanRun_match f hb p c cs e r hm]
        have hgd : (c :: (cs ++ R)).getD e c = (c :: cs).getD e c := by
          have : (c :: (cs ++ R)) = (c :: cs) ++ R := by simp
          rw [this, List.getD_append _ _ _ _ (by simp only [List.length_cons]; omega)]
        have hdr : List.drop e (cs ++ R) = List.drop e cs ++ R :=
          drop_append_of_le cs R e hle
        rw [hgd, hdr]
        rw [ih (List.drop e cs) R
          (by simp only [List.length_drop]; simp only [List.length_cons] at hl; omega)
          (fun i q hi => by
            have hi' : e + 1 + i < (c :: cs).length := by
              simp only [List.length_drop] at hi
              simp only [List.length_cons]
              omega
            have := hloc (e + 1 + i) q hi'
            have hdd : List.drop (e + 1 + i) (c :: cs) =
                List.drop i (List.drop e cs) := by
              rw [List.drop_drop]
              have h1 : e + 1 + i = (i + e) + 1 := by omega
              rw [h1, List.drop_succ_cons]
              congr 1
              omega
            rw [hdd] at this
            exact this)
          (some ((c :: cs).getD e c))]
        rw [prevAfter_after_match c cs e hle,
          prevAfter_ne_nil (c :: cs) p (by simp)]
        simp

theorem scanRun_last (f : Matcher) (hb : MatchLenLe f) (z : Char)
    (hr : ∀ p s e r, f p s = some (e, r) → r ≠ [])
    (hstart : ∀ q x, f q (z :: x) = none)
    (hend : ∀ q s e r, f q s = some (e, r) → s.getD e 'A' ≠ z) :
    ∀ (n : Nat) (l : List Char), l.length ≤ n → l.getLast? = some z →
      ∀ p, (scanRun f p l).getLast? = some z := by
  intro n
  induction n with
  | zero =>
    intro l hl hz p
    have hnil : l = [] := List.length_eq_zero.mp (by omega)
    subst hnil
    simp at hz
  | succ m ih =>
    intro l hl hz p
    cases l with
    | nil => simp at hz
    | cons c cs =>
      cases hm : f p (c :: cs) with
      | none =>
        rw [scanRun_cons_none f p c cs hm]
        cases hcs : cs.isEmpty with
        | true =>
          have hcnil : cs = [] := by simpa [List.isEmpty_iff] using hcs
          subst hcnil
          rw [scanRun_nil]
          simpa using hz
        | false =>
          have hne : cs ≠ [] := by simpa [List.isEmpty_iff] using hcs
          have hz' : cs.getLast? = some z := getLast?_cons_ne_nil c z cs hne hz
          have hrec := ih cs (by simp only [List.length_cons] at hl; omega)
            hz' (some c)
          rw [getLast?_cons_of_ne_nil _ _
            (scanRun_ne_nil f hr (some c) cs hne)]
          exact hrec
      | some er =>
        obtain ⟨e, r⟩ := er
        have hlen : e + 1 ≤ cs.length + 1 := by
          have := hb _ _ _ _ hm
          simpa using this
        rcases Nat.lt_or_ge e cs.length with hel | hel
        · rw [scanRun_match f hb p c cs e r hm]
          have hdne : List.drop e cs ≠ [] := by
            intro hnil
            have := congrArg List.length hnil
            simp only [List.length_drop, List.length_nil] at this
            omega
          have hz' : (List.drop e cs).getLast? = some z := by
            have h1 : cs ≠ [] := by
              intro hx; subst hx; simp at hel
            rw [getLast?_drop_of_lt cs e hel]
            exact getLast?_cons_ne_nil c z cs h1 hz
          have hrec := ih (List.drop e cs)
            (by simp only [List.length_drop]
                simp only [List.length_cons] at hl
                omega)
            hz' (some ((c :: cs).getD e c))
          rw [List.getLast?_append_of_ne_nil r
            (scanRun_ne_nil f hr _ _ hdne)]
          exact hrec
        · have hee : e = cs.length := by omega
          exfalso
          have hgd : (c :: cs).getD e 'A' = z := by
            have h1 := getD_last (c :: cs) 'A' (by simp)
            simp only [List.length_cons, Nat.add_sub_cancel] at h1
            rw [hee, h1, List.getLastD_eq_getLast?, hz]
            rfl
          exact hend p (c :: cs) e r hm hgd

theorem scanRun_all (f : Matcher) (hb : MatchLenLe f) (P : Char → Bool)
    (hrP : ∀ p s e r, f p s = some (e, r) → ∀ c ∈ r, P c = true) :
    ∀ (n : Nat) (l : List Char), l.length ≤ n → (∀ c ∈ l, P c = true) →
      ∀ p c, c ∈ scanRun f p l → P c = true := by
  intro n
  induction n with
  | zero =>
    intro l hl _ p c hc
    have hnil : l = [] := List.length_eq_zero.mp (by omega)
    subst hnil
    simp [scanRun_nil] at hc
  | succ m ih =>
    intro l hl hP p c hc
    cases l with
    | nil => simp [scanRun_nil] at hc
    | cons a cs =>
      cases hm : f p (a :: cs) with
      | none =>
        rw [scanRun_cons_none f p a cs hm] at hc
        rcases List.mem_cons.mp hc with h1 | h1
        · exact h1 ▸ hP a (by simp)
        · exact ih cs (by simp only [List.length_cons] at hl; omega)
            (fun d hd => hP d (by simp [hd])) (some a) c h1
      | some er =>
        obtain ⟨e, r⟩ := er
        rw [scanRun_match f hb p a cs e r hm] at hc
        rcases List.mem_append.mp hc with h1 | h1
        · exact hrP _ _ _ _ hm c h1
        · have hlen : e + 1 ≤ cs.length + 1 := by
            have := hb _ _ _ _ hm
            simpa using this
          refine ih (List.drop e cs)
            (by simp only [List.length_drop]
                simp only [List.length_cons] at hl
                omega)
            (fun d hd => hP d (by
              simp only [List.mem_cons]
              exact Or.inr (List.mem_of_mem_drop hd))) _ c h1

/-! ### Structural facts about successful UUID and timestamp chomps -/

theorem uuidChomp_facts (s r : List Char) (h : uuidChomp s = some r) :
    (∀ c ∈ s.take 8, isHexDigit c = true) ∧
    (∃ Y, s.drop 8 = '-' :: Y) ∧
    (∀ c ∈ (s.drop 24).take 12, isHexDigit c = true) := by
  simp only [uuidChomp, chompHex] at h
  rcases h1 : chompPred isHexDigit 8 s with - | Y1 <;> rw [h1] at h
  · simp at h
  simp only [Option.some_bind] at h
  rcases h2 : chompChar '-' Y1 with - | Y2 <;> rw [h2] at h
  · simp at h
  simp only [Option.some_bind] at h
  rcases h3 : chompPred isHexDigit 4 Y2 with - | Y3 <;> rw [h3] at h
  · simp at h
  simp only [Option.some_bind] at h
  rcases h4 : chompChar '-' Y3 with - | Y4 <;> rw [h4] at h
  · simp at h
  simp only [Option.some_bind] at h
  rcases h5 : chompPred isHexDigit 4 Y4 with - | Y5 <;> rw [h5] at h
  · simp at h
  simp only [Option.some_bind] at h
  rcases h6 : chompChar '-' Y5 with - | Y6 <;> rw [h6] at h
  · simp at h
  simp only [Option.some_bind] at h
  rcases h7 : chompPred isHexDigit 4 Y6 with - | Y7 <;> rw [h7] at h
  · simp at h
  simp only [Option.some_bind] at h
  rcases h8 : chompChar '-' Y7 with - | Y8 <;> rw [h8] at h
  · simp at h
  simp only [Option.some_bind] at h
  obtain ⟨d1, -, t1⟩ := chompPred_some_drop _ _ _ _ h1
  rw [chompChar_some_iff] at h2 h4 h6 h8
  obtain ⟨d3, -, -⟩ := chompPred_some_drop _ _ _ _ h3
  obtain ⟨d5, -, -⟩ := chompPred_some_drop _ _ _ _ h5
  obtain ⟨d7, -, -⟩ := chompPred_some_drop _ _ _ _ h7
  obtain ⟨-, -, t9⟩ := chompPred_some_drop _ _ _ _ h
  have e2 : Y2 = Y1.drop 1 := by simp [h2]
  have e4 : Y4 = Y3.drop 1 := by simp [h4]
  have e6 : Y6 = Y5.drop 1 := by simp [h6]
  have e8 : Y8 = Y7.drop 1 := by simp [h8]
  have D8 : Y8 = s.drop 24 := by
    rw [e8, d7, e6, d5, e4, d3, e2, d1]
    simp only [List.drop_drop]
  refine ⟨t1, ⟨Y2, by rw [← d1, h2]⟩, ?_⟩
  rw [← D8]
  exact t9

theorem uuidChomp_none_of_no_dash (X : List Char)
    (hnd : ∀ c ∈ X, c ≠ '-') : uuidChomp X = none := by
  cases h : uuidChomp X with
  | none => rfl
  | some r =>
    obtain ⟨-, ⟨Y, hY⟩, -⟩ := uuidChomp_facts X r h
    have : '-' ∈ X := List.mem_of_mem_drop (n := 8) (by rw [hY]; simp)
    exact absurd rfl (hnd '-' this)

theorem tsChomp_last2 (s r : List Char) (h : tsChomp s = some r) :
    ∀ c ∈ (s.drop 17).take 2, c.isDigit = true := by
  simp only [tsChomp, chompDigits] at h
  rcases h1 : chompPred Char.isDigit 4 s with - | Y1 <;> rw [h1] at h
  · simp at h
  simp only [Option.some_bind] at h
  rcases h2 : chompChar '-' Y1 with - | Y2 <;> rw [h2] at h
  · simp at h
  simp only [Option.some_bind] at h
  rcases h3 : chompPred Char.isDigit 2 Y2 with - | Y3 <;> rw [h3] at h
  · simp at h
  simp only [Option.some_bind] at h
  rcases h4 : chompChar '-' Y3 with - | Y4 <;> rw [h4] at h
  · simp at h
  simp only [Option.some_bind] at h
  rcases h5 : chompPred Char.isDigit 2 Y4 with - | Y5 <;> rw [h5] at h
  · simp at h
  simp only [Option.some_bind] at h
  rcases h6 : chompChar 'T' Y5 with - | Y6 <;> rw [h6] at h
  · simp at h
  simp only [Option.some_bind] at h
  rcases h7 : chompPred Char.isDigit 2 Y6 with - | Y7 <;> rw [h7] at h
  · simp at h
  simp only [Option.some_bind] at h
  rcases h8 : chompChar ':' Y7 with - | Y8 <;> rw [h8] at h
  · simp at h
  simp only [Option.some_bind] at h
  rcases h9 : chompPred Char.isDigit 2 Y8 with - | Y9 <;> rw [h9] at h
  · simp at h
  simp only [Option.some_bind] at h
  rcases h10 : chompChar ':' Y9 with - | Y10 <;> rw [h10] at h
  · simp at h
  simp only [Option.some_bind] at h
  obtain ⟨d1, -, -⟩ := chompPred_some_drop _ _ _ _ h1
  rw [chompChar_some_iff] at h2 h4 h6 h8 h10
  obtain ⟨d3, -, -⟩ := chompPred_some_drop _ _ _ _ h3
  obtain ⟨d5, -, -⟩ := chompPred_some_drop _ _ _ _ h5
  obtain ⟨d7, -, -⟩ := chompPred_some_drop _ _ _ _ h7
  obtain ⟨d9, -, -⟩ := chompPred_some_drop _ _ _ _ h9
  obtain ⟨-, -, t11⟩ := chompPred_some_drop _ _ _ _ h
  have e2 : Y2 = Y1.drop 1 := by simp [h2]
  have e4 : Y4 = Y3.drop 1 := by simp [h4]
  have e6 : Y6 = Y5.drop 1 := by simp [h6]
  have e8 : Y8 = Y7.drop 1 := by simp [h8]
  have e10 : Y10 = Y9.drop 1 := by simp [h10]
  have D10 : Y10 = s.drop 17 := by
    rw [e10, d9, e8, d7, e6, d5, e4, d3, e2, d1]
    simp only [List.drop_drop]
  rw [← D10]
  exact t11

theorem uuidShape_length (u : List Char) (h : uuidShape u = true) :
    u.length = 36 := by
  have h' : uuidChomp u = some [] := by
    simpa [uuidShape] using h
  obtain ⟨hd, hl⟩ := uuidChomp_bound u [] h'
  have : u.length ≤ 36 := List.drop_eq_nil_iff.mp hd.symm
  omega

theorem uuidShape_last_word (u : List Char) (h : uuidShape u = true) :
    ∃ c, u.getLast? = some c ∧ isWordChar c = true := by
  have h' : uuidChomp u = some [] := by
    simpa [uuidShape] using h
  have hlen := uuidShape_length u h
  obtain ⟨-, -, t9⟩ := uuidChomp_facts u [] h'
  have hdlen : (u.drop 24).length = 12 := by
    simp [List.length_drop, hlen]
  have hne : u.drop 24 ≠ [] := by
    intro hx
    rw [hx] at hdlen
    simp at hdlen
  cases hl : (u.drop 24).getLast? with
  | none => exact absurd (List.getLast?_eq_none.mp hl) hne
  | some c =>
    refine ⟨c, ?_, ?_⟩
    · rw [← getLast?_drop_of_lt u 24 (by omega)]
      exact hl
    · have hmem : c ∈ u.drop 24 := List.mem_of_mem_getLast? hl
      have : c ∈ (u.drop 24).take 12 := by
        rw [List.take_of_length_le (by omega)]
        exact hmem
      exact isWordChar_of_isHexDigit c (t9 c this)

/-! ### Matcher-level lemmas -/

/-- The boundary test `\x5cb` applied after a digit run (true when the next
character is absent or not a word character). -/
def nonWordOpt : Option Char → Bool
  | none => true
  | some c => !isWordChar c

theorem idTry_eq (p : Option Char) (s : List Char) :
    idTry p s =
      if (!optWord p) = true then
        if (5 ≤ (s.takeWhile Char.isDigit).length &&
            nonWordOpt (s.drop (s.takeWhile Char.isDigit).length).head?) = true
            then
          some ((s.takeWhile Char.isDigit).length - 1, "<id>".data)
        else none
      else none := by
  cases p with
  | none =>
    show idTry none s = _
    unfold idTry optWord
    cases hrest : (s.drop (s.takeWhile Char.isDigit).length) with
    | nil => simp [hrest, nonWordOpt]
    | cons c cs => simp [hrest, nonWordOpt]
  | some c =>
    show idTry (some c) s = _
    unfold idTry optWord
    cases hrest : (s.drop (s.takeWhile Char.isDigit).length) with
    | nil => simp [hrest, nonWordOpt]
    | cons d ds => simp [hrest, nonWordOpt]

theorem quotedTry_cons_quote (p : Option Char) (rest : List Char) :
    quotedTry p ('"' :: rest) =
      match rest.drop ((rest.takeWhile fun c => c ≠ '"').length) with
      | '"' :: _ =>
        if (rest.takeWhile fun c => c ≠ '"').any Char.isDigit then
          some ((rest.takeWhile fun c => c ≠ '"').length + 1,
            "\x22<dynamic>\x22".data)
        else none
      | _ => none := rfl

theorem quotedTry_none_head (p : Option Char) (c : Char) (x : List Char)
    (hc : c ≠ '"') : quotedTry p (c :: x) = none := by
  unfold quotedTry
  split
  · rename_i heq
    injection heq with h1 h2
    exact absurd h1 hc
  · rfl

theorem wsTry_cons (p : Option Char) (c : Char) (x : List Char) :
    wsTry p (c :: x) =
      if jsIsWhite c then
        some (((c :: x).takeWhile jsIsWhite).length - 1, [' '])
      else none := rfl

theorem uuidTry_none_head (p : Option Char) (c : Char) (x : List Char)
    (hc : isHexDigit c = false) : uuidTry p (c :: x) = none := by
  unfold uuidTry
  have : uuidChomp (c :: x) = none := by
    simp [uuidChomp, chompHex, chompPred, hc]
  rw [this]

theorem idTry_none_head (p : Option Char) (c : Char) (x : List Char)
    (hc : c.isDigit = false) : idTry p (c :: x) = none := by
  rw [idTry_eq]
  have : ((c :: x).takeWhile Char.isDigit).length = 0 := by
    simp [List.takeWhile_cons, hc]
  rw [this]
  simp

theorem timeTry_none_head (p : Option Char) (c : Char) (x : List Char)
    (hc : c.isDigit = false) : timeTry p (c :: x) = none := by
  unfold timeTry
  have : tsChomp (c :: x) = none := by
    simp [tsChomp, chompDigits, chompPred, hc]
  rw [this]

theorem wsTry_none_head (p : Option Char) (c : Char) (x : List Char)
    (hc : jsIsWhite c = false) : wsTry p (c :: x) = none := by
  rw [wsTry_cons, hc]
  simp

theorem getD_drop (l : List Char) (n i : Nat) :
    (l.drop n).getD i 'A' = l.getD (n + i) 'A' := by
  simp [List.getD, List.getElem?_drop]

theorem uuidTry_len : MatchLenLe uuidTry := by
  intro p s extra repl h
  unfold uuidTry at h
  cases hu : uuidChomp s with
  | none => rw [hu] at h; simp at h
  | some Y =>
    rw [hu] at h
    obtain ⟨-, hl⟩ := uuidChomp_bound s Y hu
    have h' : (some (35, "<uuid>".data) : Option (Nat × List Char)) =
        some (extra, repl) := h
    injection h' with h3
    injection h3 with h4 h5
    omega

theorem idTry_len : MatchLenLe idTry := by
  intro p s extra repl h
  rw [idTry_eq] at h
  by_cases h1 : (!optWord p) = true
  · rw [if_pos h1] at h
    by_cases h2 : (5 ≤ (s.takeWhile Char.isDigit).length &&
        nonWordOpt (s.drop (s.takeWhile Char.isDigit).length).head?) = true
    · rw [if_pos h2] at h
      injection h with h3
      injection h3 with h4 h5
      have h6 : 5 ≤ (s.takeWhile Char.isDigit).length := by
        simp only [Bool.and_eq_true, decide_eq_true_eq] at h2
        exact h2.1
      have h7 : (s.takeWhile Char.isDigit).length ≤ s.length :=
        (List.takeWhile_prefix Char.isDigit).length_le
      omega
    · rw [if_neg h2] at h; simp at h
  · rw [if_neg h1] at h; simp at h

theorem quotedTry_len : MatchLenLe quotedTry := by
  intro p s extra repl h
  cases s with
  | nil => simp [quotedTry] at h
  | cons c rest =>
    by_cases hc : c = '"'
    · subst hc
      rw [quotedTry_cons_quote] at h
      set content := rest.takeWhile fun ch => ch ≠ '"' with hcdef
      cases hd : rest.drop content.length with
      | nil => rw [hd] at h; simp at h
      | cons d ds =>
        rw [hd] at h
        by_cases hdq : d = '"'
        · subst hdq
          simp only at h
          by_cases hany : content.any Char.isDigit = true
          · rw [if_pos hany] at h
            injection h with h3
            injection h3 with h4 h5
            have hlt : content.length < rest.length := by
              by_contra hge
              have : rest.drop content.length = [] :=
                List.drop_eq_nil_iff.mpr (by omega)
              rw [this] at hd
              simp at hd
            simp only [List.length_cons]
            omega
          · rw [if_neg hany] at h; simp at h
        · exfalso
          revert h
          split
          · rename_i heq
            injection heq with h1 h2
            exact fun h => hdq h1
          · intro h; simp at h
    · rw [quotedTry_none_head p c rest hc] at h
      simp at h

theorem timeTry_len : MatchLenLe timeTry := by
  intro p s extra repl h
  unfold timeTry at h
  cases hu : tsChomp s with
  | none => rw [hu] at h; simp at h
  | some Y =>
    rw [hu] at h
    obtain ⟨-, hl⟩ := tsChomp_bound s Y hu
    have h' : (some (18, "<timestamp>".data) : Option (Nat × List Char)) =
        some (extra, repl) := h
    injection h' with h3
    injection h3 with h4 h5
    omega

theorem wsTry_len : MatchLenLe wsTry := by
  intro p s extra repl h
  cases s with
  | nil => simp [wsTry] at h
  | cons c x =>
    rw [wsTry_cons] at h
    by_cases hc : jsIsWhite c = true
    · rw [if_pos hc] at h
      injection h with h3
      injection h3 with h4 h5
      have h6 : 1 ≤ ((c :: x).takeWhile jsIsWhite).length := by
        simp [List.takeWhile_cons, hc]
      have h7 : ((c :: x).takeWhile jsIsWhite).length ≤ (c :: x).length :=
        (List.takeWhile_prefix jsIsWhite).length_le
      omega
    · rw [if_neg hc] at h; simp at h

theorem uuidTry_repl (p : Option Char) (s : List Char) (e : Nat)
    (r : List Char) (h : uuidTry p s = some (e, r)) :
    e = 35 ∧ r = "<uuid>".data := by
  unfold uuidTry at h
  cases hu : uuidChomp s with
  | none => rw [hu] at h; simp at h
  | some Y =>
    rw [hu] at h
    have h' : (some (35, "<uuid>".data) : Option (Nat × List Char)) =
        some (e, r) := h
    injection h' with h3
    injection h3 with h4 h5
    exact ⟨h4.symm, h5.symm⟩

theorem idTry_repl (p : Option Char) (s : List Char) (e : Nat)
    (r : List Char) (h : idTry p s = some (e, r)) :
    e = (s.takeWhile Char.isDigit).length - 1 ∧
    5 ≤ (s.takeWhile Char.isDigit).length ∧ r = "<id>".data := by
  rw [idTry_eq] at h
  by_cases h1 : (!optWord p) = true
  · rw [if_pos h1] at h
    by_cases h2 : (5 ≤ (s.takeWhile Char.isDigit).length &&
        nonWordOpt (s.drop (s.takeWhile Char.isDigit).length).head?) = true
    · rw [if_pos h2] at h
      injection h with h3
      injection h3 with h4 h5
      simp only [Bool.and_eq_true, decide_eq_true_eq] at h2
      exact ⟨h4.symm, h2.1, h5.symm⟩
    · rw [if_neg h2] at h; simp at h
  · rw [if_neg h1] at h; simp at h

theorem quotedTry_repl (p : Option Char) (s : List Char) (e : Nat)
    (r : List Char) (h : quotedTry p s = some (e, r)) :
    r = "\x22<dynamic>\x22".data := by
  cases s with
  | nil => simp [quotedTry] at h
  | cons c rest =>
    by_cases hc : c = '"'
    · subst hc
      rw [quotedTry_cons_quote] at h
      cases hd : rest.drop ((rest.takeWhile fun ch => ch ≠ '"').length) with
      | nil => rw [hd] at h; simp at h
      | cons d ds =>
        rw [hd] at h
        revert h
        split
        · intro h
          by_cases hany :
              (rest.takeWhile fun ch => ch ≠ '"').any Char.isDigit = true
          · rw [if_pos hany] at h
            injection h with h3
            injection h3 with h4 h5
            exact h5.symm
          · rw [if_neg hany] at h; simp at h
        · intro h; simp at h
    · rw [quotedTry_none_head p c rest hc] at h
      simp at h

theorem timeTry_repl (p : Option Char) (s : List Char) (e : Nat)
    (r : List Char) (h : timeTry p s = some (e, r)) :
    e = 18 ∧ r = "<timestamp>".data := by
  unfold timeTry at h
  cases hu : tsChomp s with
  | none => rw [hu] at h; simp at h
  | some Y =>
    rw [hu] at h
    have h' : (some (18, "<timestamp>".data) : Option (Nat × List Char)) =
        some (e, r) := h
    injection h' with h3
    injection h3 with h4 h5
    exact ⟨h4.symm, h5.symm⟩

theorem wsTry_repl (p : Option Char) (s : List Char) (e : Nat)
    (r : List Char) (h : wsTry p s = some (e, r)) :
    e = (s.takeWhile jsIsWhite).length - 1 ∧
    1 ≤ (s.takeWhile jsIsWhite).length ∧ r = [' '] := by
  cases s with
  | nil => simp [wsTry] at h
  | cons c x =>
    rw [wsTry_cons] at h
    by_cases hc : jsIsWhite c = true
    · rw [if_pos hc] at h
      injection h with h3
      injection h3 with h4 h5
      refine ⟨h4.symm, ?_, h5.symm⟩
      simp [List.takeWhile_cons, hc]
    · rw [if_neg hc] at h; simp at h

theorem getD_mem (l : List Char) (i : Nat) (d : Char) (h : i < l.length) :
    l.getD i d ∈ l := by
  rw [List.getD_eq_getElem l d h]
  exact List.getElem_mem h

theorem uuidTry_congr (p q : Option Char) (s : List Char) :
    uuidTry p s = uuidTry q s := rfl

theorem quotedTry_congr (p q : Option Char) (s : List Char) :
    quotedTry p s = quotedTry q s := rfl

theorem timeTry_congr (p q : Option Char) (s : List Char) :
    timeTry p s = timeTry q s := rfl

theorem wsTry_congr (p q : Option Char) (s : List Char) :
    wsTry p s = wsTry q s := rfl

theorem idTry_congr (p q : Option Char) (s : List Char)
    (h : optWord p = optWord q) : idTry p s = idTry q s := by
  rw [idTry_eq, idTry_eq, h]

theorem uuidTry_end (q : Option Char) (s : List Char) (e : Nat)
    (r : List Char) (h : uuidTry q s = some (e, r)) :
    isHexDigit (s.getD e 'A') = true := by
  obtain ⟨he, -⟩ := uuidTry_repl q s e r h
  subst he
  unfold uuidTry at h
  cases hu : uuidChomp s with
  | none => rw [hu] at h; simp at h
  | some Y =>
    obtain ⟨-, hl⟩ := uuidChomp_bound s Y hu
    obtain ⟨-, -, t9⟩ := uuidChomp_facts s Y hu
    have h35 : s.getD 35 'A' = (s.drop 24).getD 11 'A' := by
      rw [getD_drop]
    rw [h35]
    refine t9 _ (mem_take_getD 'A' (s.drop 24) 11 12 (by omega) ?_)
    simp only [List.length_drop]
    omega

theorem idTry_end (q : Option Char) (s : List Char) (e : Nat)
    (r : List Char) (h : idTry q s = some (e, r)) :
    (s.getD e 'A').isDigit = true := by
  obtain ⟨he, h5, -⟩ := idTry_repl q s e r h
  subst he
  set run := s.takeWhile Char.isDigit with hrun
  have hsplit : s = run ++ s.drop run.length := by
    have h1 : run = s.take run.length :=
      List.prefix_iff_eq_take.mp (List.takeWhile_prefix Char.isDigit)
    conv_lhs => rw [← List.take_append_drop run.length s, ← h1]
  have hget : s.getD (run.length - 1) 'A' = run.getD (run.length - 1) 'A' := by
    conv_lhs => rw [hsplit]
    exact List.getD_append _ _ _ _ (by omega)
  rw [hget]
  exact List.mem_takeWhile_imp (getD_mem run (run.length - 1) 'A' (by omega))

theorem timeTry_end (q : Option Char) (s : List Char) (e : Nat)
    (r : List Char) (h : timeTry q s = some (e, r)) :
    (s.getD e 'A').isDigit = true := by
  obtain ⟨he, -⟩ := timeTry_repl q s e r h
  subst he
  unfold timeTry at h
  cases hu : tsChomp s with
  | none => rw [hu] at h; simp at h
  | some Y =>
    obtain ⟨-, hl⟩ := tsChomp_bound s Y hu
    have t2 := tsChomp_last2 s Y hu
    have h18 : s.getD 18 'A' = (s.drop 17).getD 1 'A' := by
      rw [getD_drop]
    rw [h18]
    refine t2 _ (mem_take_getD 'A' (s.drop 17) 1 2 (by omega) ?_)
    simp only [List.length_drop]
    omega

theorem wsTry_end (q : Option Char) (s : List Char) (e : Nat)
    (r : List Char) (h : wsTry q s = some (e, r)) :
    jsIsWhite (s.getD e 'A') = true := by
  obtain ⟨he, h1, -⟩ := wsTry_repl q s e r h
  subst he
  set run := s.takeWhile jsIsWhite with hrun
  have hsplit : s = run ++ s.drop run.length := by
    have h2 : run = s.take run.length :=
      List.prefix_iff_eq_take.mp (List.takeWhile_prefix jsIsWhite)
    conv_lhs => rw [← List.take_append_drop run.length s, ← h2]
  have hget : s.getD (run.length - 1) 'A' = run.getD (run.length - 1) 'A' := by
    conv_lhs => rw [hsplit]
    exact List.getD_append _ _ _ _ (by omega)
  rw [hget]
  exact List.mem_takeWhile_imp (getD_mem run (run.length - 1) 'A' (by omega))

theorem uuidTry_local (u R : List Char) (z : Char)
    (hz : u.getLast? = some z) (hzh : isHexDigit z = false) (hzd : z ≠ '-')
    (p : Option Char) : uuidTry p (u ++ R) = uuidTry p u := by
  unfold uuidTry
  rw [uuidChomp_sentinel u R z hz hzh hzd]
  cases uuidChomp u <;> rfl

theorem timeTry_local (u R : List Char) (z : Char)
    (hz : u.getLast? = some z) (hzd : z.isDigit = false)
    (hdash : z ≠ '-') (hcolon : z ≠ ':') (hT : z ≠ 'T')
    (p : Option Char) : timeTry p (u ++ R) = timeTry p u := by
  unfold timeTry
  rw [tsChomp_sentinel u R z hz hzd hdash hcolon hT]
  cases tsChomp u <;> rfl

theorem idTry_local (u R : List Char) (z : Char)
    (hz : u.getLast? = some z) (hzd : z.isDigit = false)
    (p : Option Char) : idTry p (u ++ R) = idTry p u := by
  have hmem : z ∈ u := List.mem_of_mem_getLast? hz
  have htw : (u ++ R).takeWhile Char.isDigit = u.takeWhile Char.isDigit :=
    takeWhile_local Char.isDigit u R ⟨z, hmem, hzd⟩
  have hle : (u.takeWhile Char.isDigit).length ≤ u.length :=
    (List.takeWhile_prefix Char.isDigit).length_le
  have hlt : (u.takeWhile Char.isDigit).length < u.length := by
    rcases Nat.lt_or_ge (u.takeWhile Char.isDigit).length u.length with h | h
    · exact h
    · exfalso
      have heq : (u.takeWhile Char.isDigit).length = u.length := by omega
      have := (List.takeWhile_prefix Char.isDigit).eq_of_length heq
      rw [← this] at hmem
      exact absurd (List.mem_takeWhile_imp hmem) (by rw [hzd]; simp)
  rw [idTry_eq, idTry_eq, htw,
    drop_append_of_le u R (u.takeWhile Char.isDigit).length hle]
  obtain ⟨c0, cs0, hd0, -⟩ :=
    drop_head_mem u (u.takeWhile Char.isDigit).length hlt
  rw [hd0]
  rfl

theorem wsTry_local (u R : List Char) (z : Char)
    (hz : u.getLast? = some z) (hzw : jsIsWhite z = false)
    (p : Option Char) : wsTry p (u ++ R) = wsTry p u := by
  cases u with
  | nil => simp at hz
  | cons c cs =>
    have hmem : z ∈ c :: cs := List.mem_of_mem_getLast? hz
    rw [List.cons_append, wsTry_cons, wsTry_cons]
    cases hc : jsIsWhite c with
    | false => rfl
    | true =>
      have htw : ((c :: cs) ++ R).takeWhile jsIsWhite =
          (c :: cs).takeWhile jsIsWhite :=
        takeWhile_local jsIsWhite (c :: cs) R ⟨z, hmem, hzw⟩
      rw [List.cons_append] at htw
      rw [htw]

theorem uuidTry_match (u B : List Char) (h : uuidShape u = true)
    (p : Option Char) :
    uuidTry p (u ++ B) = some (u.length - 1, "<uuid>".data) := by
  have h' : uuidChomp u = some [] := by
    simpa [uuidShape] using h
  have hc : uuidChomp (u ++ B) = some B := by
    have := uuidChomp_append_success u [] B h'
    simpa using this
  unfold uuidTry
  rw [hc, uuidShape_length u h]

theorem idTry_match (d B : List Char) (hall : ∀ c ∈ d, c.isDigit = true)
    (hlen : 5 ≤ d.length) (hB : nonWordOpt B.head? = true)
    (p : Option Char) (hp : optWord p = false) :
    idTry p (d ++ B) = some (d.length - 1, "<id>".data) := by
  have htwB : B.takeWhile Char.isDigit = [] := by
    cases B with
    | nil => rfl
    | cons b bs =>
      have hw : isWordChar b = false := by
        simp only [nonWordOpt, List.head?_cons, Bool.not_eq_true'] at hB
        exact hB
      have hbd : b.isDigit = false := by
        cases hd : b.isDigit with
        | false => rfl
        | true => rw [isWordChar_of_isDigit b hd] at hw; simp at hw
      simp [List.takeWhile_cons, hbd]
  have htw : (d ++ B).takeWhile Char.isDigit = d := by
    rw [takeWhile_append_all Char.isDigit d B hall, htwB]
    simp
  rw [idTry_eq, hp, htw]
  simp only [Bool.not_false, if_true, List.drop_left]
  rw [if_pos]
  simp only [Bool.and_eq_true, decide_eq_true_eq]
  exact ⟨hlen, hB⟩

theorem quotedTry_match (q B : List Char) (hq : ∀ c ∈ q, c ≠ '"')
    (hd : q.any Char.isDigit = true) (p : Option Char) :
    quotedTry p (('"' :: (q ++ ['"'])) ++ B) =
      some (q.length + 1, "\x22<dynamic>\x22".data) := by
  have hshape : ('"' :: (q ++ ['"'])) ++ B = '"' :: (q ++ ('"' :: B)) := by
    simp
  rw [hshape, quotedTry_cons_quote]
  have htw : (q ++ ('"' :: B)).takeWhile (fun c => c ≠ '"') = q := by
    rw [takeWhile_append_all _ q ('"' :: B)
      (fun c hc => by simp [hq c hc])]
    simp [List.takeWhile_cons]
  rw [htw, List.drop_left]
  simp [hd]

theorem wsTry_match (w B : List Char) (hall : ∀ c ∈ w, jsIsWhite c = true)
    (hne : w ≠ []) (hB : nonWsOpt B.head? = true) (p : Option Char) :
    wsTry p (w ++ B) = some (w.length - 1, [' ']) := by
  have htwB : B.takeWhile jsIsWhite = [] := by
    cases B with
    | nil => rfl
    | cons b bs =>
      have hw : jsIsWhite b = false := by
        simp only [nonWsOpt, List.head?_cons, Bool.not_eq_true'] at hB
        exact hB
      simp [List.takeWhile_cons, hw]
  have htw : (w ++ B).takeWhile jsIsWhite = w := by
    rw [takeWhile_append_all jsIsWhite w B hall, htwB]
    simp
  cases w with
  | nil => exact absurd rfl hne
  | cons c cs =>
    rw [List.cons_append, wsTry_cons, if_pos (hall c (by simp))]
    rw [← List.cons_append, htw]

/-! ### Strengthened payload shapes for the amended claim -/

/-- Every maximal digit run is at most four digits long (so pass 2 cannot
match inside). -/
def digitRunsShort : List Char → Bool
  | [] => true
  | c :: cs =>
    (((c :: cs).takeWhile Char.isDigit).length ≤ 4) && digitRunsShort cs

/-- A quoted payload for the amended claim: no quote (so the surrounding
quotes delimit it), no hyphen (so no UUID shape can appear inside), at
least one digit (so pass 3 matches it), and no five-digit run (so pass 2
leaves it alone). -/
def quotedShape (q : List Char) : Bool :=
  q.all (fun c => !(c = '"') && !(c = '-')) && q.any Char.isDigit &&
    digitRunsShort q

/-- The exact 19-character ISO timestamp shape `dddd-dd-ddTdd:dd:dd`. -/
def tsStructb : List Char → Bool
  | [c0, c1, c2, c3, d4, c5, c6, d7, c8, c9, t10, c11, c12, e13, c14, c15,
     e16, c17, c18] =>
    c0.isDigit && (c1.isDigit && (c2.isDigit && (c3.isDigit && (d4 = '-' &&
    (c5.isDigit && (c6.isDigit && (d7 = '-' && (c8.isDigit && (c9.isDigit &&
    (t10 = 'T' && (c11.isDigit && (c12.isDigit && (e13 = ':' &&
    (c14.isDigit && (c15.isDigit && (e16 = ':' && (c17.isDigit &&
    c18.isDigit)))))))))))))))))
  | _ => false

theorem digitRunsShort_drop (q : List Char) (h : digitRunsShort q = true) :
    ∀ j, ((q.drop j).takeWhile Char.isDigit).length ≤ 4 := by
  induction q with
  | nil => intro j; simp
  | cons c cs ih =>
    intro j
    simp only [digitRunsShort, Bool.and_eq_true, decide_eq_true_eq] at h
    cases j with
    | zero => exact h.1
    | succ m =>
      rw [List.drop_succ_cons]
      exact ih h.2 m

theorem tsStructb_inv (t : List Char) (h : tsStructb t = true) :
    ∃ c0 c1 c2 c3 c5 c6 c8 c9 c11 c12 c14 c15 c17 c18 : Char,
      t = [c0, c1, c2, c3, '-', c5, c6, '-', c8, c9, 'T', c11, c12, ':',
        c14, c15, ':', c17, c18] ∧
      c0.isDigit = true ∧ c1.isDigit = true ∧ c2.isDigit = true ∧
      c3.isDigit = true ∧ c5.isDigit = true ∧ c6.isDigit = true ∧
      c8.isDigit = true ∧ c9.isDigit = true ∧ c11.isDigit = true ∧
      c12.isDigit = true ∧ c14.isDigit = true ∧ c15.isDigit = true ∧
      c17.isDigit = true ∧ c18.isDigit = true := by
  rcases t with - | ⟨c0, - | ⟨c1, - | ⟨c2, - | ⟨c3, - | ⟨d4, - | ⟨c5, - |
    ⟨c6, - | ⟨d7, - | ⟨c8, - | ⟨c9, - | ⟨t10, - | ⟨c11, - | ⟨c12, - |
    ⟨e13, - | ⟨c14, - | ⟨c15, - | ⟨e16, - | ⟨c17, - | ⟨c18, - |
    ⟨c19, t⟩⟩⟩⟩⟩⟩⟩⟩⟩⟩⟩⟩⟩⟩⟩⟩⟩⟩⟩⟩ <;>
    simp only [tsStructb, Bool.and_eq_true, decide_eq_true_eq] at h
  all_goals try exact (Bool.false_ne_true h).elim
  obtain ⟨h0, h1, h2, h3, hd4, h5, h6, hd7, h8, h9, ht10, h11, h12, he13,
    h14, h15, he16, h17, h18⟩ := h
  subst hd4
  subst hd7
  subst ht10
  subst he13
  subst he16
  exact ⟨c0, c1, c2, c3, c5, c6, c8, c9, c11, c12, c14, c15, c17, c18,
    rfl, h0, h1, h2, h3, h5, h6, h8, h9, h11, h12, h14, h15, h17, h18⟩

theorem headInert (f : Matcher) (P : Char → Bool)
    (hP : ∀ (q : Option Char) (c : Char) (x : List Char), P c = true →
      f q (c :: x) = none)
    (A B : List Char) (hA : ∀ c ∈ A, P c = true) :
    ∀ i, i < A.length → ∀ q, f q (A.drop i ++ B) = none := by
  intro i hi q
  obtain ⟨c, cs, hd, hm⟩ := drop_head_mem A i hi
  rw [hd, List.cons_append]
  exact hP q c _ (hA c hm)

theorem timeTry_match_t (t B : List Char) (h : tsStructb t = true)
    (p : Option Char) :
    timeTry p (t ++ B) = some (t.length - 1, "<timestamp>".data) := by
  obtain ⟨c0, c1, c2, c3, c5, c6, c8, c9, c11, c12, c14, c15, c17, c18,
    ht, h0, h1, h2, h3, h5, h6, h8, h9, h11, h12, h14, h15, h17, h18⟩ :=
    tsStructb_inv t h
  subst ht
  have hch : tsChomp ([c0, c1, c2, c3, '-', c5, c6, '-', c8, c9, 'T', c11,
      c12, ':', c14, c15, ':', c17, c18] ++ B) = some B := by
    simp [tsChomp, chompDigits, chompPred, chompChar,
      h0, h1, h2, h3, h5, h6, h8, h9, h11, h12, h14, h15, h17, h18]
  unfold timeTry
  rw [hch]
  simp

theorem tsInert_uuid (t B : List Char) (h : tsStructb t = true)
    (hB : sepOpt B.head? = true) :
    ∀ i, i < t.length → ∀ p, uuidTry p (t.drop i ++ B) = none := by
  obtain ⟨c0, c1, c2, c3, c5, c6, c8, c9, c11, c12, c14, c15, c17, c18,
    ht, h0, h1, h2, h3, h5, h6, h8, h9, h11, h12, h14, h15, h17, h18⟩ :=
    tsStructb_inv t h
  subst ht
  intro i hi p
  have x0 : isHexDigit c0 = true := isHexDigit_of_isDigit _ h0
  have x1 : isHexDigit c1 = true := isHexDigit_of_isDigit _ h1
  have x2 : isHexDigit c2 = true := isHexDigit_of_isDigit _ h2
  have x3 : isHexDigit c3 = true := isHexDigit_of_isDigit _ h3
  have x5 : isHexDigit c5 = true := isHexDigit_of_isDigit _ h5
  have x6 : isHexDigit c6 = true := isHexDigit_of_isDigit _ h6
  have x8 : isHexDigit c8 = true := isHexDigit_of_isDigit _ h8
  have x9 : isHexDigit c9 = true := isHexDigit_of_isDigit _ h9
  have x11 : isHexDigit c11 = true := isHexDigit_of_isDigit _ h11
  have x12 : isHexDigit c12 = true := isHexDigit_of_isDigit _ h12
  have x14 : isHexDigit c14 = true := isHexDigit_of_isDigit _ h14
  have x15 : isHexDigit c15 = true := isHexDigit_of_isDigit _ h15
  have x17 : isHexDigit c17 = true := isHexDigit_of_isDigit _ h17
  have x18 : isHexDigit c18 = true := isHexDigit_of_isDigit _ h18
  have hdh : isHexDigit '-' = false := by decide
  have hth : isHexDigit 'T' = false := by decide
  have hch : isHexDigit ':' = false := by decide
  have hi' : i < 19 := by simpa using hi
  rcases B with - | ⟨b, bs⟩
  · interval_cases i <;>
      simp [uuidTry, uuidChomp, chompHex, chompPred, chompChar, List.drop,
        x0, x1, x2, x3, x5, x6, x8, x9, x11, x12, x14, x15, x17, x18, hdh, hth, hch]
  · have hbh : isHexDigit b = false := by
      refine sep_not_hex b ?_
      simpa [sepOpt] using hB
    interval_cases i <;>
      simp [uuidTry, uuidChomp, chompHex, chompPred, chompChar, List.drop,
        x0, x1, x2, x3, x5, x6, x8, x9, x11, x12, x14, x15, x17, x18, hdh, hth, hch, hbh]

theorem tsInert_id (t B : List Char) (h : tsStructb t = true)
    (hB : sepOpt B.head? = true) :
    ∀ i, i < t.length → ∀ p, idTry p (t.drop i ++ B) = none := by
  obtain ⟨c0, c1, c2, c3, c5, c6, c8, c9, c11, c12, c14, c15, c17, c18,
    ht, h0, h1, h2, h3, h5, h6, h8, h9, h11, h12, h14, h15, h17, h18⟩ :=
    tsStructb_inv t h
  subst ht
  intro i hi p
  have hdd : ('-').isDigit = false := by decide
  have htd : ('T').isDigit = false := by decide
  have hcd : (':').isDigit = false := by decide
  have hi' : i < 19 := by simpa using hi
  rcases B with - | ⟨b, bs⟩
  · interval_cases i <;>
      simp [idTry_eq, List.takeWhile, List.drop,
        h0, h1, h2, h3, h5, h6, h8, h9, h11, h12, h14, h15, h17, h18, hdd, htd, hcd]
  · have hbd : b.isDigit = false := by
      refine sep_not_digit b ?_
      simpa [sepOpt] using hB
    interval_cases i <;>
      simp [idTry_eq, List.takeWhile, List.drop,
        h0, h1, h2, h3, h5, h6, h8, h9, h11, h12, h14, h15, h17, h18, hdd, htd, hcd, hbd]

theorem tsStructb_noquote (t : List Char) (h : tsStructb t = true) :
    ∀ c ∈ t, c ≠ '"' := by
  obtain ⟨c0, c1, c2, c3, c5, c6, c8, c9, c11, c12, c14, c15, c17, c18,
    ht, h0, h1, h2, h3, h5, h6, h8, h9, h11, h12, h14, h15, h17, h18⟩ :=
    tsStructb_inv t h
  subst ht
  intro c hc heq
  subst heq
  simp only [List.mem_cons, List.not_mem_nil, or_false] at hc
  rcases hc with h | h | h | h | h | h | h | h | h | h | h | h | h | h | h |
    h | h | h | h
  all_goals first
    | exact absurd h (by decide)
    | (subst h; simp_all)

theorem tsStructb_last (t : List Char) (h : tsStructb t = true) :
    ∃ c, t.getLast? = some c ∧ c.isDigit = true := by
  obtain ⟨c0, c1, c2, c3, c5, c6, c8, c9, c11, c12, c14, c15, c17, c18,
    ht, h0, h1, h2, h3, h5, h6, h8, h9, h11, h12, h14, h15, h17, h18⟩ :=
    tsStructb_inv t h
  subst ht
  exact ⟨c18, rfl, h18⟩

theorem takeWhile_all_eq (p : Char → Bool) :
    ∀ (X : List Char), (∀ c ∈ X, p c = true) → X.takeWhile p = X := by
  intro X
  induction X with
  | nil => intro _; rfl
  | cons c cs ih =>
    intro h
    rw [List.takeWhile_cons, if_pos (h c (by simp)), ih fun d hd => h d (by simp [hd])]

theorem takeWhile_append_neg (p : Char → Bool) (X : List Char) (a : Char)
    (ha : p a = false) : (X ++ [a]).takeWhile p = X.takeWhile p := by
  by_cases hall : ∀ c ∈ X, p c = true
  · rw [takeWhile_append_all p X [a] hall, takeWhile_all_eq p X hall]
    simp [List.takeWhile_cons, ha]
  · push_neg at hall
    obtain ⟨c, hc, hcp⟩ := hall
    exact takeWhile_local p X [a] ⟨c, hc, by simpa using hcp⟩

theorem idTry_none_short (s : List Char)
    (hl : (s.takeWhile Char.isDigit).length < 5) (p : Option Char) :
    idTry p s = none := by
  rw [idTry_eq]
  have h5 : (5 ≤ (s.takeWhile Char.isDigit).length) = False :=
    eq_false (by omega)
  simp [h5]

theorem uuidInert_digits (d B : List Char)
    (hall : ∀ c ∈ d, c.isDigit = true) (hB : sepOpt B.head? = true) :
    ∀ i, i < d.length → ∀ p, uuidTry p (d.drop i ++ B) = none := by
  intro i hi p
  unfold uuidTry
  cases hu : uuidChomp (d.drop i ++ B) with
  | none => rfl
  | some Y =>
    exfalso
    obtain ⟨hex8, ⟨Y2, hdrop8⟩, -⟩ := uuidChomp_facts _ _ hu
    obtain ⟨-, hlen⟩ := uuidChomp_bound _ _ hu
    have hk : (d.drop i).length = d.length - i := by simp
    rcases Nat.lt_or_ge 8 (d.drop i).length with h8 | h8
    · have hi8 : i + 8 < d.length := by omega
      obtain ⟨c, cs, hd8, hm⟩ := drop_head_mem d (i + 8) hi8
      have hdd : (d.drop i ++ B).drop 8 = d.drop (i + 8) ++ B := by
        rw [drop_append_of_le _ _ 8 (by omega), List.drop_drop]
      rw [hdd, hd8, List.cons_append] at hdrop8
      injection hdrop8 with hc1 hc2
      rw [hc1] at hm
      have := hall '-' hm
      simp at this
    · rcases Nat.lt_or_ge (d.drop i).length 8 with h8' | h8'
      · cases hBc : B with
        | nil =>
          rw [hBc] at hu
          have : (d.drop i ++ ([] : List Char)).length < 8 := by
            simpa using h8'
          have h36 : 36 ≤ (d.drop i ++ ([] : List Char)).length := by
            rw [hBc] at hlen
            exact hlen
          omega
        | cons b bs =>
          have hbsep : sepChar b = true := by
            rw [hBc] at hB
            simpa [sepOpt] using hB
          have hbmem : b ∈ (d.drop i ++ B).take 8 := by
            rw [hBc, List.take_append_eq_append_take,
              List.take_of_length_le (by omega)]
            refine List.mem_append_right _ ?_
            have : 1 ≤ 8 - (d.drop i).length := by omega
            cases h88 : 8 - (d.drop i).length with
            | zero => omega
            | succ m => simp
          exact absurd (hex8 b hbmem) (by simp [sep_not_hex b hbsep])
      · have hk8 : (d.drop i).length = 8 := by omega
        have hdd : (d.drop i ++ B).drop 8 = B := by
          rw [← hk8, List.drop_left]
        rw [hdd] at hdrop8
        rw [hdrop8] at hB
        simp only [List.head?_cons, sepOpt] at hB
        exact absurd hB (by decide)

theorem uuidInert_quoted (q B : List Char) (hnd : ∀ c ∈ q, c ≠ '-') :
    ∀ i, i < ('"' :: (q ++ ['"'])).length → ∀ p,
      uuidTry p (('"' :: (q ++ ['"'])).drop i ++ B) = none := by
  intro i hi p
  cases i with
  | zero =>
    rw [List.drop_zero, List.cons_append]
    exact uuidTry_none_head p '"' _ (by decide)
  | succ j =>
    simp only [List.length_cons, List.length_append, List.length_cons,
      List.length_nil] at hi
    have hj : j ≤ q.length := by omega
    rw [List.drop_succ_cons, drop_append_of_le q ['"'] j hj]
    have hlast : (q.drop j ++ ['"']).getLast? = some '"' :=
      List.getLast?_concat _
    rw [uuidTry_local (q.drop j ++ ['"']) B '"' hlast (by decide) (by decide)]
    unfold uuidTry
    have hch : uuidChomp (q.drop j ++ ['"']) = none := by
      refine uuidChomp_none_of_no_dash _ ?_
      intro c hc
      rcases List.mem_append.mp hc with h1 | h1
      · exact hnd c (List.mem_of_mem_drop h1)
      · have : c = '"' := by simpa using h1
        subst this
        decide
    rw [hch]

theorem idInert_quoted (q B : List Char) (hshort : digitRunsShort q = true) :
    ∀ i, i < ('"' :: (q ++ ['"'])).length → ∀ p,
      idTry p (('"' :: (q ++ ['"'])).drop i ++ B) = none := by
  intro i hi p
  cases i with
  | zero =>
    rw [List.drop_zero, List.cons_append]
    exact idTry_none_head p '"' _ (by decide)
  | succ j =>
    simp only [List.length_cons, List.length_append, List.length_cons,
      List.length_nil] at hi
    have hj : j ≤ q.length := by omega
    rw [List.drop_succ_cons, drop_append_of_le q ['"'] j hj]
    have hlast : (q.drop j ++ ['"']).getLast? = some '"' :=
      List.getLast?_concat _
    rw [idTry_local (q.drop j ++ ['"']) B '"' hlast (by decide)]
    refine idTry_none_short _ ?_ p
    rw [takeWhile_append_neg Char.isDigit (q.drop j) '"' (by decide)]
    have := digitRunsShort_drop q hshort j
    omega

/-! ### Validity of a segmentation for the amended claim -/

/-- Whether a segment is shared literal text. -/
def Seg2.isLitB : Seg2 → Bool
  | .lit _ => true
  | _ => false

/-- Per-segment category validity.  The flags record which dynamic
categories are still present (they are switched off as the passes replace
them); literal text must be nonempty, and quote-free while the quoted pass
is still pending. -/
def segOKb (aU aI aQ aT : Bool) : Seg2 → Bool
  | .lit l => !l.isEmpty && (!aQ || l.all fun c => !(c = '"'))
  | .uuid u1 u2 => aU && uuidShape u1 && uuidShape u2
  | .idrun d1 d2 => aI && idrunShape d1 && idrunShape d2
  | .quoted q1 q2 => aQ && quotedShape q1 && quotedShape q2
  | .tstamp t1 t2 => aT && tsStructb t1 && tsStructb t2
  | .ws w1 w2 => wsShape w1 && wsShape w2

/-- The delimitation a segment demands of the character next to it (on
either side): nothing for literal text; a separator for a dynamic segment;
for a whitespace segment additionally a non-whitespace character. -/
def needsb : Seg2 → Option Char → Bool
  | .lit _, _ => true
  | .ws _ _, p => sepOpt p && nonWsOpt p
  | _, p => sepOpt p

/-- Delimitation between two adjacent segments, in both messages. -/
def boundOKb (a b : Seg2) : Bool :=
  needsb b a.render1.getLast? && needsb b a.render2.getLast? &&
  needsb a b.render1.head? && needsb a b.render2.head?

/-- A boolean chain over adjacent pairs. -/
def chainB (R : Seg2 → Seg2 → Bool) : List Seg2 → Bool
  | [] => true
  | [_] => true
  | a :: b :: rest => R a b && chainB R (b :: rest)

/-- A valid segmentation: every segment well formed, and every adjacent
pair properly delimited. -/
def SegsOK (aU aI aQ aT : Bool) (segs : List Seg2) : Bool :=
  segs.all (segOKb aU aI aQ aT) && chainB boundOKb segs

def noTwoLitsR (a b : Seg2) : Bool := !(a.isLitB && b.isLitB)

/-- No two adjacent literal segments (they are merged between passes). -/
def noTwoLits (segs : List Seg2) : Bool := chainB noTwoLitsR segs

/-- The delimitation the first segment demands of the character before
it. -/
def needsFirst : List Seg2 → Option Char → Bool
  | [], _ => true
  | s :: _, p => needsb s p

/-- A separator that is also non-whitespace satisfies every `needsb`. -/
def strongSepOpt (o : Option Char) : Bool := sepOpt o && nonWsOpt o

/-- Merge adjacent literal segments. -/
def mergeLits : List Seg2 → List Seg2
  | [] => []
  | .lit l :: rest =>
    match mergeLits rest with
    | .lit l2 :: rest2 => .lit (l ++ l2) :: rest2
    | r => .lit l :: r
  | .uuid u1 u2 :: rest => .uuid u1 u2 :: mergeLits rest
  | .idrun d1 d2 :: rest => .idrun d1 d2 :: mergeLits rest
  | .quoted q1 q2 :: rest => .quoted q1 q2 :: mergeLits rest
  | .tstamp t1 t2 :: rest => .tstamp t1 t2 :: mergeLits rest
  | .ws w1 w2 :: rest => .ws w1 w2 :: mergeLits rest

theorem renderMsg1_nil : renderMsg1 [] = [] := rfl

theorem renderMsg2_nil : renderMsg2 [] = [] := rfl

theorem renderMsg1_cons (s : Seg2) (segs : List Seg2) :
    renderMsg1 (s :: segs) = s.render1 ++ renderMsg1 segs := by
  simp [renderMsg1]

theorem renderMsg2_cons (s : Seg2) (segs : List Seg2) :
    renderMsg2 (s :: segs) = s.render2 ++ renderMsg2 segs := by
  simp [renderMsg2]

def chainHead (R : Seg2 → Seg2 → Bool) (a : Seg2) : List Seg2 → Bool
  | [] => true
  | b :: _ => R a b

theorem chainB_cons (R : Seg2 → Seg2 → Bool) (a : Seg2) (rest : List Seg2) :
    chainB R (a :: rest) = (chainHead R a rest && chainB R rest) := by
  cases rest with
  | nil => rfl
  | cons b r => rfl

theorem SegsOK_cons (aU aI aQ aT : Bool) (s : Seg2) (rest : List Seg2) :
    SegsOK aU aI aQ aT (s :: rest) = true ↔
      segOKb aU aI aQ aT s = true ∧ chainHead boundOKb s rest = true ∧
      SegsOK aU aI aQ aT rest = true := by
  simp only [SegsOK, List.all_cons, chainB_cons, Bool.and_eq_true]
  tauto

theorem noTwoLits_cons (s : Seg2) (rest : List Seg2) :
    noTwoLits (s :: rest) = true ↔
      chainHead noTwoLitsR s rest = true ∧ noTwoLits rest = true := by
  simp only [noTwoLits, chainB_cons, Bool.and_eq_true]

theorem segRender1_ne_nil (aU aI aQ aT : Bool) (s : Seg2)
    (h : segOKb aU aI aQ aT s = true) : s.render1 ≠ [] := by
  cases s with
  | lit l =>
    intro heq
    simp only [Seg2.render1] at heq
    subst heq
    simp [segOKb] at h
  | uuid u1 u2 =>
    intro heq
    simp only [Seg2.render1] at heq
    subst heq
    simp only [segOKb, Bool.and_eq_true] at h
    exact absurd h.1.2 (by decide)
  | idrun d1 d2 =>
    intro heq
    simp only [Seg2.render1] at heq
    subst heq
    simp only [segOKb, Bool.and_eq_true] at h
    exact absurd h.1.2 (by decide)
  | quoted q1 q2 => simp [Seg2.render1]
  | tstamp t1 t2 =>
    intro heq
    simp only [Seg2.render1] at heq
    subst heq
    simp only [segOKb, Bool.and_eq_true] at h
    exact absurd h.1.2 (by decide)
  | ws w1 w2 =>
    intro heq
    simp only [Seg2.render1] at heq
    subst heq
    simp [segOKb, wsShape] at h

theorem segRender2_ne_nil (aU aI aQ aT : Bool) (s : Seg2)
    (h : segOKb aU aI aQ aT s = true) : s.render2 ≠ [] := by
  cases s with
  | lit l =>
    intro heq
    simp only [Seg2.render2] at heq
    subst heq
    simp [segOKb] at h
  | uuid u1 u2 =>
    intro heq
    simp only [Seg2.render2] at heq
    subst heq
    simp only [segOKb, Bool.and_eq_true] at h
    exact absurd h.2 (by decide)
  | idrun d1 d2 =>
    intro heq
    simp only [Seg2.render2] at heq
    subst heq
    simp only [segOKb, Bool.and_eq_true] at h
    exact absurd h.2 (by decide)
  | quoted q1 q2 => simp [Seg2.render2]
  | tstamp t1 t2 =>
    intro heq
    simp only [Seg2.render2] at heq
    subst heq
    simp only [segOKb, Bool.and_eq_true] at h
    exact absurd h.2 (by decide)
  | ws w1 w2 =>
    intro heq
    simp only [Seg2.render2] at heq
    subst heq
    simp [segOKb, wsShape] at h

theorem needsb_strongSep (s : Seg2) (o : Option Char)
    (h : strongSepOpt o = true) : needsb s o = true := by
  simp only [strongSepOpt, Bool.and_eq_true] at h
  cases s <;> simp [needsb, h.1, h.2]

theorem mergeLits_render1 :
    ∀ segs, renderMsg1 (mergeLits segs) = renderMsg1 segs := by
  intro segs
  induction segs with
  | nil => rfl
  | cons s rest ih =>
    cases s with
    | lit l =>
      simp only [mergeLits]
      cases hm : mergeLits rest with
      | nil =>
        rw [hm] at ih
        simp only [renderMsg1_nil] at ih
        simp [renderMsg1_cons, renderMsg1_nil, ← ih]
      | cons s2 rest2 =>
        rw [hm] at ih
        cases s2 with
        | lit l2 =>
          simp only [renderMsg1_cons, Seg2.render1] at ih ⊢
          rw [← ih, List.append_assoc]
        | uuid u1 u2 => simp only [renderMsg1_cons, Seg2.render1] at ih ⊢; rw [ih]
        | idrun d1 d2 => simp only [renderMsg1_cons, Seg2.render1] at ih ⊢; rw [ih]
        | quoted q1 q2 => simp only [renderMsg1_cons, Seg2.render1] at ih ⊢; rw [ih]
        | tstamp t1 t2 => simp only [renderMsg1_cons, Seg2.render1] at ih ⊢; rw [ih]
        | ws w1 w2 => simp only [renderMsg1_cons, Seg2.render1] at ih ⊢; rw [ih]
    | uuid u1 u2 => simp only [mergeLits, renderMsg1_cons]; rw [ih]
    | idrun d1 d2 => simp only [mergeLits, renderMsg1_cons]; rw [ih]
    | quoted q1 q2 => simp only [mergeLits, renderMsg1_cons]; rw [ih]
    | tstamp t1 t2 => simp only [mergeLits, renderMsg1_cons]; rw [ih]
    | ws w1 w2 => simp only [mergeLits, renderMsg1_cons]; rw [ih]

theorem mergeLits_render2 :
    ∀ segs, renderMsg2 (mergeLits segs) = renderMsg2 segs := by
  intro segs
  induction segs with
  | nil => rfl
  | cons s rest ih =>
    cases s with
    | lit l =>
      simp only [mergeLits]
      cases hm : mergeLits rest with
      | nil =>
        rw [hm] at ih
        simp only [renderMsg2_nil] at ih
        simp [renderMsg2_cons, renderMsg2_nil, ← ih]
      | cons s2 rest2 =>
        rw [hm] at ih
        cases s2 with
        | lit l2 =>
          simp only [renderMsg2_cons, Seg2.render2] at ih ⊢
          rw [← ih, List.append_assoc]
        | uuid u1 u2 => simp only [renderMsg2_cons, Seg2.render2] at ih ⊢; rw [ih]
        | idrun d1 d2 => simp only [renderMsg2_cons, Seg2.render2] at ih ⊢; rw [ih]
        | quoted q1 q2 => simp only [renderMsg2_cons, Seg2.render2] at ih ⊢; rw [ih]
        | tstamp t1 t2 => simp only [renderMsg2_cons, Seg2.render2] at ih ⊢; rw [ih]
        | ws w1 w2 => simp only [renderMsg2_cons, Seg2.render2] at ih ⊢; rw [ih]
    | uuid u1 u2 => simp only [mergeLits, renderMsg2_cons]; rw [ih]
    | idrun d1 d2 => simp only [mergeLits, renderMsg2_cons]; rw [ih]
    | quoted q1 q2 => simp only [mergeLits, renderMsg2_cons]; rw [ih]
    | tstamp t1 t2 => simp only [mergeLits, renderMsg2_cons]; rw [ih]
    | ws w1 w2 => simp only [mergeLits, renderMsg2_cons]; rw [ih]

theorem mergeLits_head_shape (s : Seg2) (rest : List Seg2) :
    (∃ rest2, mergeLits (s :: rest) = s :: rest2) ∨
    (∃ l l2 rest2, s = .lit l ∧
      mergeLits (s :: rest) = .lit (l ++ l2) :: rest2 ∧
      mergeLits rest = .lit l2 :: rest2) := by
  cases s with
  | lit l =>
    cases hm : mergeLits rest with
    | nil => exact Or.inl ⟨[], by simp [mergeLits, hm]⟩
    | cons s2 rest2 =>
      cases s2 with
      | lit l2 =>
        exact Or.inr ⟨l, l2, rest2, rfl, by simp [mergeLits, hm], rfl⟩
      | uuid u1 u2 => exact Or.inl ⟨Seg2.uuid u1 u2 :: rest2, by simp [mergeLits, hm]⟩
      | idrun d1 d2 => exact Or.inl ⟨Seg2.idrun d1 d2 :: rest2, by simp [mergeLits, hm]⟩
      | quoted q1 q2 => exact Or.inl ⟨Seg2.quoted q1 q2 :: rest2, by simp [mergeLits, hm]⟩
      | tstamp t1 t2 => exact Or.inl ⟨Seg2.tstamp t1 t2 :: rest2, by simp [mergeLits, hm]⟩
      | ws w1 w2 => exact Or.inl ⟨Seg2.ws w1 w2 :: rest2, by simp [mergeLits, hm]⟩
  | uuid u1 u2 => exact Or.inl ⟨mergeLits rest, rfl⟩
  | idrun d1 d2 => exact Or.inl ⟨mergeLits rest, rfl⟩
  | quoted q1 q2 => exact Or.inl ⟨mergeLits rest, rfl⟩
  | tstamp t1 t2 => exact Or.inl ⟨mergeLits rest, rfl⟩
  | ws w1 w2 => exact Or.inl ⟨mergeLits rest, rfl⟩

theorem mergeLits_needsFirst (segs : List Seg2) (p : Option Char)
    (h : needsFirst segs p = true) : needsFirst (mergeLits segs) p = true := by
  cases segs with
  | nil => rfl
  | cons s rest =>
    rcases mergeLits_head_shape s rest with ⟨rest2, hm⟩ | ⟨l, l2, rest2, hl, hm, -⟩
    · rw [hm]
      exact h
    · rw [hm]
      rfl

theorem boundOKb_eq (a b : Seg2) : boundOKb a b = true ↔
    needsb b a.render1.getLast? = true ∧ needsb b a.render2.getLast? = true ∧
    needsb a b.render1.head? = true ∧ needsb a b.render2.head? = true := by
  simp only [boundOKb, Bool.and_eq_true]
  tauto

theorem mergeLits_ok_step_nonlit (aU aI aQ aT : Bool) (s : Seg2)
    (rest : List Seg2) (hslit : s.isLitB = false)
    (hmerge : mergeLits (s :: rest) = s :: mergeLits rest)
    (hs : segOKb aU aI aQ aT s = true)
    (hch : chainHead boundOKb s rest = true)
    (hrest : SegsOK aU aI aQ aT rest = true)
    (hOK2 : SegsOK aU aI aQ aT (mergeLits rest) = true)
    (hNT2 : noTwoLits (mergeLits rest) = true) :
    SegsOK aU aI aQ aT (mergeLits (s :: rest)) = true ∧
      noTwoLits (mergeLits (s :: rest)) = true := by
  rw [hmerge]
  constructor
  · rw [SegsOK_cons]
    refine ⟨hs, ?_, hOK2⟩
    cases hr : rest with
    | nil =>
      have : mergeLits ([] : List Seg2) = [] := rfl
      rw [this]
      rfl
    | cons t r2 =>
      rw [hr] at hch
      have hcht : boundOKb s t = true := hch
      have htOK : segOKb aU aI aQ aT t = true := by
        rw [hr] at hrest
        exact ((SegsOK_cons _ _ _ _ _ _).mp hrest).1
      rcases mergeLits_head_shape t r2 with ⟨rest2, hm⟩ |
        ⟨lt, l2, rest2, hlt, hm, -⟩
      · rw [hm]
        exact hcht
      · rw [hm]
        subst hlt
        obtain ⟨-, -, hh1, hh2⟩ := (boundOKb_eq s (Seg2.lit lt)).mp hcht
        have hlt_ne : lt ≠ [] := by
          intro hx
          subst hx
          simp [segOKb] at htOK
        show boundOKb s (Seg2.lit (lt ++ l2)) = true
        rw [boundOKb_eq]
        refine ⟨rfl, rfl, ?_, ?_⟩
        · show needsb s ((lt ++ l2).head?) = true
          rw [head?_append_of_ne_nil lt l2 hlt_ne]
          exact hh1
        · show needsb s ((lt ++ l2).head?) = true
          rw [head?_append_of_ne_nil lt l2 hlt_ne]
          exact hh2
  · rw [noTwoLits_cons]
    refine ⟨?_, hNT2⟩
    cases mergeLits rest with
    | nil => rfl
    | cons x xs =>
      show noTwoLitsR s x = true
      simp [noTwoLitsR, hslit]

theorem mergeLits_ok (aU aI aQ aT : Bool) :
    ∀ segs, SegsOK aU aI aQ aT segs = true →
      SegsOK aU aI aQ aT (mergeLits segs) = true ∧
      noTwoLits (mergeLits segs) = true := by
  intro segs
  induction segs with
  | nil => intro _; exact ⟨rfl, rfl⟩
  | cons s rest ih =>
    intro h
    obtain ⟨hs, hch, hrest⟩ := (SegsOK_cons _ _ _ _ _ _).mp h
    obtain ⟨hOK2, hNT2⟩ := ih hrest
    cases s with
    | uuid u1 u2 =>
      exact mergeLits_ok_step_nonlit _ _ _ _ _ _ rfl rfl hs hch hrest hOK2 hNT2
    | idrun d1 d2 =>
      exact mergeLits_ok_step_nonlit _ _ _ _ _ _ rfl rfl hs hch hrest hOK2 hNT2
    | quoted q1 q2 =>
      exact mergeLits_ok_step_nonlit _ _ _ _ _ _ rfl rfl hs hch hrest hOK2 hNT2
    | tstamp t1 t2 =>
      exact mergeLits_ok_step_nonlit _ _ _ _ _ _ rfl rfl hs hch hrest hOK2 hNT2
    | ws w1 w2 =>
      exact mergeLits_ok_step_nonlit _ _ _ _ _ _ rfl rfl hs hch hrest hOK2 hNT2
    | lit l =>
      cases hm : mergeLits rest with
      | nil =>
        have hres : mergeLits (Seg2.lit l :: rest) = [Seg2.lit l] := by
          simp [mergeLits, hm]
        rw [hres]
        constructor
        · rw [SegsOK_cons]
          exact ⟨hs, rfl, rfl⟩
        · rfl
      | cons s2 rest2 =>
        rw [hm] at hOK2 hNT2
        obtain ⟨h2s, h2ch, h2rest⟩ := (SegsOK_cons _ _ _ _ _ _).mp hOK2
        obtain ⟨h2nt, h2ntrest⟩ := (noTwoLits_cons _ _).mp hNT2
        cases s2 with
        | lit l2 =>
          have hres : mergeLits (Seg2.lit l :: rest) =
              Seg2.lit (l ++ l2) :: rest2 := by
            simp [mergeLits, hm]
          rw [hres]
          have hl_ne : l ≠ [] := by
            intro hx; subst hx; simp [segOKb] at hs
          have hl2_ne : l2 ≠ [] := by
            intro hx; subst hx; simp [segOKb] at h2s
          constructor
          · rw [SegsOK_cons]
            refine ⟨?_, ?_, h2rest⟩
            · simp only [segOKb, Bool.and_eq_true] at hs h2s ⊢
              constructor
              · have hne : (l ++ l2) ≠ [] := fun hx =>
                  hl_ne (List.append_eq_nil.mp hx).1
                simp only [Bool.not_eq_true']
                cases hie : (l ++ l2).isEmpty with
                | false => rfl
                | true => exact absurd (List.isEmpty_iff.mp hie) hne
              · rcases Bool.or_eq_true_iff.mp hs.2 with hq | hq
                · rw [Bool.or_eq_true_iff]; left; exact hq
                · rcases Bool.or_eq_true_iff.mp h2s.2 with hq2 | hq2
                  · rw [Bool.or_eq_true_iff]; left; exact hq2
                  · rw [Bool.or_eq_true_iff]; right
                    rw [List.all_append]
                    simp only [Bool.and_eq_true]
                    exact ⟨hq, hq2⟩
            · cases rest2 with
              | nil => rfl
              | cons b r3 =>
                have h2chb : boundOKb (Seg2.lit l2) b = true := h2ch
                obtain ⟨he1, he2, -, -⟩ := (boundOKb_eq _ _).mp h2chb
                show boundOKb (Seg2.lit (l ++ l2)) b = true
                rw [boundOKb_eq]
                have hlast : (l ++ l2).getLast? = l2.getLast? :=
                  List.getLast?_append_of_ne_nil l hl2_ne
                exact ⟨by
                    show needsb b ((l ++ l2).getLast?) = true
                    rw [hlast]; exact he1,
                  by
                    show needsb b ((l ++ l2).getLast?) = true
                    rw [hlast]; exact he2,
                  rfl, rfl⟩
          · rw [noTwoLits_cons]
            refine ⟨?_, h2ntrest⟩
            cases rest2 with
            | nil => rfl
            | cons b r3 =>
              have h2 : noTwoLitsR (Seg2.lit l2) b = true := h2nt
              show noTwoLitsR (Seg2.lit (l ++ l2)) b = true
              simp only [noTwoLitsR, Seg2.isLitB, Bool.true_and,
                Bool.not_eq_true'] at h2 ⊢
              exact h2
        | uuid u1 u2 =>
          have hres : mergeLits (Seg2.lit l :: rest) =
              Seg2.lit l :: Seg2.uuid u1 u2 :: rest2 := by
            simp [mergeLits, hm]
          rw [hres]
          refine ⟨?_, ?_⟩
          · rw [SegsOK_cons]
            refine ⟨hs, ?_, hOK2⟩
            show boundOKb (Seg2.lit l) (Seg2.uuid u1 u2) = true
            cases hr : rest with
            | nil => rw [hr] at hm; simp [mergeLits] at hm
            | cons t r2 =>
              rw [hr] at hch
              rcases mergeLits_head_shape t r2 with ⟨rest2x, hmx⟩ |
                ⟨ltx, l2x, rest2x, hltx, hmx, -⟩
              · rw [hr] at hm
                rw [hmx] at hm
                injection hm with hm1 hm2
                rw [← hm1]
                exact hch
              · rw [hr] at hm
                rw [hmx] at hm
                injection hm with hm1 hm2
                exact absurd hm1.symm (by simp)
          · rw [noTwoLits_cons]
            exact ⟨rfl, hNT2⟩
        | idrun d1 d2 =>
          have hres : mergeLits (Seg2.lit l :: rest) =
              Seg2.lit l :: Seg2.idrun d1 d2 :: rest2 := by
            simp [mergeLits, hm]
          rw [hres]
          refine ⟨?_, ?_⟩
          · rw [SegsOK_cons]
            refine ⟨hs, ?_, hOK2⟩
            show boundOKb (Seg2.lit l) (Seg2.idrun d1 d2) = true
            cases hr : rest with
            | nil => rw [hr] at hm; simp [mergeLits] at hm
            | cons t r2 =>
              rw [hr] at hch
              rcases mergeLits_head_shape t r2 with ⟨rest2x, hmx⟩ |
                ⟨ltx, l2x, rest2x, hltx, hmx, -⟩
              · rw [hr] at hm
                rw [hmx] at hm
                injection hm with hm1 hm2
                rw [← hm1]
                exact hch
              · rw [hr] at hm
                rw [hmx] at hm
                injection hm with hm1 hm2
                exact absurd hm1.symm (by simp)
          · rw [noTwoLits_cons]
            exact ⟨rfl, hNT2⟩
        | quoted q1 q2 =>
          have hres : mergeLits (Seg2.lit l :: rest) =
              Seg2.lit l :: Seg2.quoted q1 q2 :: rest2 := by
            simp [mergeLits, hm]
          rw [hres]
          refine ⟨?_, ?_⟩
          · rw [SegsOK_cons]
            refine ⟨hs, ?_, hOK2⟩
            show boundOKb (Seg2.lit l) (Seg2.quoted q1 q2) = true
            cases hr : rest with
            | nil => rw [hr] at hm; simp [mergeLits] at hm
            | cons t r2 =>
              rw [hr] at hch
              rcases mergeLits_head_shape t r2 with ⟨rest2x, hmx⟩ |
                ⟨ltx, l2x, rest2x, hltx, hmx, -⟩
              · rw [hr] at hm
                rw [hmx] at hm
                injection hm with hm1 hm2
                rw [← hm1]
                exact hch
              · rw [hr] at hm
                rw [hmx] at hm
                injection hm with hm1 hm2
                exact absurd hm1.symm (by simp)
          · rw [noTwoLits_cons]
            exact ⟨rfl, hNT2⟩
        | tstamp t1 t2 =>
          have hres : mergeLits (Seg2.lit l :: rest) =
              Seg2.lit l :: Seg2.tstamp t1 t2 :: rest2 := by
            simp [mergeLits, hm]
          rw [hres]
          refine ⟨?_, ?_⟩
          · rw [SegsOK_cons]
            refine ⟨hs, ?_, hOK2⟩
            show boundOKb (Seg2.lit l) (Seg2.tstamp t1 t2) = true
            cases hr : rest with
            | nil => rw [hr] at hm; simp [mergeLits] at hm
            | cons t r2 =>
              rw [hr] at hch
              rcases mergeLits_head_shape t r2 with ⟨rest2x, hmx⟩ |
                ⟨ltx, l2x, rest2x, hltx, hmx, -⟩
              · rw [hr] at hm
                rw [hmx] at hm
                injection hm with hm1 hm2
                rw [← hm1]
                exact hch
              · rw [hr] at hm
                rw [hmx] at hm
                injection hm with hm1 hm2
                exact absurd hm1.symm (by simp)
          · rw [noTwoLits_cons]
            exact ⟨rfl, hNT2⟩
        | ws w1 w2 =>
          have hres : mergeLits (Seg2.lit l :: rest) =
              Seg2.lit l :: Seg2.ws w1 w2 :: rest2 := by
            simp [mergeLits, hm]
          rw [hres]
          refine ⟨?_, ?_⟩
          · rw [SegsOK_cons]
            refine ⟨hs, ?_, hOK2⟩
            show boundOKb (Seg2.lit l) (Seg2.ws w1 w2) = true
            cases hr : rest with
            | nil => rw [hr] at hm; simp [mergeLits] at hm
            | cons t r2 =>
              rw [hr] at hch
              rcases mergeLits_head_shape t r2 with ⟨rest2x, hmx⟩ |
                ⟨ltx, l2x, rest2x, hltx, hmx, -⟩
              · rw [hr] at hm
                rw [hmx] at hm
                injection hm with hm1 hm2
                rw [← hm1]
                exact hch
              · rw [hr] at hm
                rw [hmx] at hm
                injection hm with hm1 hm2
                exact absurd hm1.symm (by simp)
          · rw [noTwoLits_cons]
            exact ⟨rfl, hNT2⟩

theorem segsOK_render_nil (aU aI aQ aT : Bool) (segs : List Seg2)
    (h : SegsOK aU aI aQ aT segs = true) (hr : renderMsg1 segs = []) :
    segs = [] := by
  cases segs with
  | nil => rfl
  | cons s rest =>
    exfalso
    obtain ⟨hs, -, -⟩ := (SegsOK_cons _ _ _ _ _ _).mp h
    rw [renderMsg1_cons] at hr
    exact segRender1_ne_nil _ _ _ _ s hs (List.append_eq_nil.mp hr).1

theorem renderMsg1_head (s : Seg2) (rest : List Seg2)
    (hne : s.render1 ≠ []) :
    (renderMsg1 (s :: rest)).head? = s.render1.head? := by
  rw [renderMsg1_cons]
  exact head?_append_of_ne_nil _ _ hne

theorem renderMsg2_head (s : Seg2) (rest : List Seg2)
    (hne : s.render2 ≠ []) :
    (renderMsg2 (s :: rest)).head? = s.render2.head? := by
  rw [renderMsg2_cons]
  exact head?_append_of_ne_nil _ _ hne

theorem scanRun_head_or (f : Matcher)
    (hstrong : ∀ p s e r, f p s = some (e, r) →
      r ≠ [] ∧ strongSepOpt r.head? = true)
    (p : Option Char) (l : List Char) (hl : l ≠ []) :
    (scanRun f p l).head? = l.head? ∨
      strongSepOpt (scanRun f p l).head? = true := by
  cases l with
  | nil => exact absurd rfl hl
  | cons c cs =>
    cases hm : f p (c :: cs) with
    | none =>
      left
      rw [scanRun_head_copy f p c cs hm]
      rfl
    | some er =>
      obtain ⟨e, r⟩ := er
      right
      obtain ⟨hrne, hstr⟩ := hstrong _ _ _ _ hm
      unfold scanRun
      simp only [List.length_cons, scanRepl, hm]
      rw [head?_append_of_ne_nil _ _ hrne]
      exact hstr

theorem optWord_some (c : Char) : optWord (some c) = isWordChar c := rfl

theorem all_ne_quote_of_segOK (aU aI aT : Bool) (l : List Char)
    (hs : segOKb aU aI true aT (Seg2.lit l) = true) :
    ∀ c ∈ l, (fun c => !(c = '"')) c = true := by
  simp only [segOKb, Bool.and_eq_true] at hs
  have h2 := hs.2
  simp only [Bool.not_true, Bool.false_or] at h2
  exact fun c hc => List.all_eq_true.mp h2 c hc

theorem needsb_nonlit_sep (t : Seg2) (o : Option Char)
    (hlit : t.isLitB = false) (h : needsb t o = true) : sepOpt o = true := by
  cases t with
  | lit l => simp [Seg2.isLitB] at hlit
  | uuid u1 u2 => exact h
  | idrun d1 d2 => exact h
  | quoted q1 q2 => exact h
  | tstamp t1 t2 => exact h
  | ws w1 w2 =>
    simp only [needsb, Bool.and_eq_true] at h
    exact h.1

theorem pass_inert_assemble (f : Matcher)
    (aU aI aQ aT bU bI bQ bT : Bool)
    (s : Seg2) (rest rest2 : List Seg2) (p1 p2 : Option Char)
    (hsb : segOKb bU bI bQ bT s = true)
    (hch : chainHead boundOKb s rest = true)
    (hrest : SegsOK aU aI aQ aT rest = true)
    (hOK2 : SegsOK bU bI bQ bT rest2 = true)
    (e1 : scanRun f (prevAfter s.render1 p1) (renderMsg1 rest) =
      renderMsg1 rest2)
    (e2 : scanRun f (prevAfter s.render2 p2) (renderMsg2 rest) =
      renderMsg2 rest2)
    (hneeds2 : ∀ p, needsFirst rest p = true → needsFirst rest2 p = true)
    (hh1 : (renderMsg1 rest2).head? = (renderMsg1 rest).head? ∨
      strongSepOpt (renderMsg1 rest2).head? = true)
    (hh2 : (renderMsg2 rest2).head? = (renderMsg2 rest).head? ∨
      strongSepOpt (renderMsg2 rest2).head? = true)
    (hinert1 : ∀ i q, i < s.render1.length →
      f q (s.render1.drop i ++ renderMsg1 rest) = none)
    (hinert2 : ∀ i q, i < s.render2.length →
      f q (s.render2.drop i ++ renderMsg2 rest) = none) :
    scanRun f p1 (renderMsg1 (s :: rest)) = renderMsg1 (s :: rest2) ∧
    scanRun f p2 (renderMsg2 (s :: rest)) = renderMsg2 (s :: rest2) ∧
    SegsOK bU bI bQ bT (s :: rest2) = true ∧
    (∀ p, needsFirst (s :: rest) p = true →
      needsFirst (s :: rest2) p = true) ∧
    ((renderMsg1 (s :: rest2)).head? = (renderMsg1 (s :: rest)).head? ∨
      strongSepOpt (renderMsg1 (s :: rest2)).head? = true) ∧
    ((renderMsg2 (s :: rest2)).head? = (renderMsg2 (s :: rest)).head? ∨
      strongSepOpt (renderMsg2 (s :: rest2)).head? = true) := by
  have hr1ne : s.render1 ≠ [] := segRender1_ne_nil _ _ _ _ s hsb
  have hr2ne : s.render2 ≠ [] := segRender2_ne_nil _ _ _ _ s hsb
  refine ⟨?_, ?_, ?_, ?_, ?_, ?_⟩
  · rw [renderMsg1_cons, renderMsg1_cons,
      scanRun_inert_block f s.render1 (renderMsg1 rest) hinert1 p1, e1]
  · rw [renderMsg2_cons, renderMsg2_cons,
      scanRun_inert_block f s.render2 (renderMsg2 rest) hinert2 p2, e2]
  · rw [SegsOK_cons]
    refine ⟨hsb, ?_, hOK2⟩
    cases hr2 : rest2 with
    | nil => rfl
    | cons b2 r3 =>
      have hrestne : rest ≠ [] := by
        intro hx
        subst hx
        rw [renderMsg1_nil, scanRun_nil] at e1
        have := segsOK_render_nil _ _ _ _ rest2 hOK2 e1.symm
        rw [hr2] at this
        simp at this
      obtain ⟨t, r2, ht⟩ := List.exists_cons_of_ne_nil hrestne
      subst ht
      have hcht : boundOKb s t = true := hch
      obtain ⟨hc1, hc2, hc3, hc4⟩ := (boundOKb_eq _ _).mp hcht
      show boundOKb s b2 = true
      rw [boundOKb_eq]
      have hb2OK : segOKb bU bI bQ bT b2 = true := by
        rw [hr2] at hOK2
        exact ((SegsOK_cons _ _ _ _ _ _).mp hOK2).1
      have htOK : segOKb aU aI aQ aT t = true :=
        ((SegsOK_cons _ _ _ _ _ _).mp hrest).1
      refine ⟨?_, ?_, ?_, ?_⟩
      · have := hneeds2 s.render1.getLast? (by exact hc1)
        rw [hr2] at this
        exact this
      · have := hneeds2 s.render2.getLast? (by exact hc2)
        rw [hr2] at this
        exact this
      · have hb2h : b2.render1.head? = (renderMsg1 rest2).head? := by
          rw [hr2, renderMsg1_head b2 r3
            (segRender1_ne_nil _ _ _ _ b2 hb2OK)]
        rcases hh1 with hpres | hstr
        · rw [hb2h, hpres, renderMsg1_head t r2
            (segRender1_ne_nil _ _ _ _ t htOK)]
          exact hc3
        · rw [hb2h]
          exact needsb_strongSep s _ hstr
      · have hb2h : b2.render2.head? = (renderMsg2 rest2).head? := by
          rw [hr2, renderMsg2_head b2 r3
            (segRender2_ne_nil _ _ _ _ b2 hb2OK)]
        rcases hh2 with hpres | hstr
        · rw [hb2h, hpres, renderMsg2_head t r2
            (segRender2_ne_nil _ _ _ _ t htOK)]
          exact hc4
        · rw [hb2h]
          exact needsb_strongSep s _ hstr
  · intro p hp
    exact hp
  · left
    rw [renderMsg1_head s rest2 hr1ne, renderMsg1_head s rest hr1ne]
  · left
    rw [renderMsg2_head s rest2 hr2ne, renderMsg2_head s rest hr2ne]

theorem pass_match_assemble (f : Matcher) (hb : MatchLenLe f)
    (bU bI bQ bT : Bool)
    (s : Seg2) (repl : List Char) (rest rest2 : List Seg2)
    (p1 p2 : Option Char)
    (hr1ne : s.render1 ≠ []) (hr2ne : s.render2 ≠ [])
    (hreplOK : segOKb bU bI bQ bT (Seg2.lit repl) = true)
    (hreplH : strongSepOpt repl.head? = true)
    (hreplL : strongSepOpt repl.getLast? = true)
    (hOK2 : SegsOK bU bI bQ bT rest2 = true)
    (e1 : scanRun f (prevAfter s.render1 p1) (renderMsg1 rest) =
      renderMsg1 rest2)
    (e2 : scanRun f (prevAfter s.render2 p2) (renderMsg2 rest) =
      renderMsg2 rest2)
    (hmatch1 : f p1 (s.render1 ++ renderMsg1 rest) =
      some (s.render1.length - 1, repl))
    (hmatch2 : f p2 (s.render2 ++ renderMsg2 rest) =
      some (s.render2.length - 1, repl)) :
    scanRun f p1 (renderMsg1 (s :: rest)) =
      renderMsg1 (Seg2.lit repl :: rest2) ∧
    scanRun f p2 (renderMsg2 (s :: rest)) =
      renderMsg2 (Seg2.lit repl :: rest2) ∧
    SegsOK bU bI bQ bT (Seg2.lit repl :: rest2) = true ∧
    (∀ p, needsFirst (s :: rest) p = true →
      needsFirst (Seg2.lit repl :: rest2) p = true) ∧
    ((renderMsg1 (Seg2.lit repl :: rest2)).head? =
        (renderMsg1 (s :: rest)).head? ∨
      strongSepOpt (renderMsg1 (Seg2.lit repl :: rest2)).head? = true) ∧
    ((renderMsg2 (Seg2.lit repl :: rest2)).head? =
        (renderMsg2 (s :: rest)).head? ∨
      strongSepOpt (renderMsg2 (Seg2.lit repl :: rest2)).head? = true) := by
  have hreplne : repl ≠ [] := by
    intro hx
    subst hx
    simp [segOKb] at hreplOK
  refine ⟨?_, ?_, ?_, ?_, ?_, ?_⟩
  · rw [renderMsg1_cons, renderMsg1_cons,
      scanRun_match_block f hb s.render1 (renderMsg1 rest) repl p1 hr1ne
        hmatch1, e1]
    rfl
  · rw [renderMsg2_cons, renderMsg2_cons,
      scanRun_match_block f hb s.render2 (renderMsg2 rest) repl p2 hr2ne
        hmatch2, e2]
    rfl
  · rw [SegsOK_cons]
    refine ⟨hreplOK, ?_, hOK2⟩
    cases hr2 : rest2 with
    | nil => rfl
    | cons b2 r3 =>
      show boundOKb (Seg2.lit repl) b2 = true
      rw [boundOKb_eq]
      exact ⟨needsb_strongSep b2 _ hreplL, needsb_strongSep b2 _ hreplL,
        rfl, rfl⟩
  · intro p _
    rfl
  · right
    rw [renderMsg1_head (Seg2.lit repl) rest2 hreplne]
    exact hreplH
  · right
    rw [renderMsg2_head (Seg2.lit repl) rest2 hreplne]
    exact hreplH

theorem pass_lit_assemble (f : Matcher) (hb : MatchLenLe f)
    (aU aI aQ aT bU bI bQ bT : Bool)
    (l : List Char) (rest rest2 : List Seg2) (p1 p2 : Option Char)
    (hw : optWord p1 = optWord p2)
    (hcongr : ∀ p q s, optWord p = optWord q → f p s = f q s)
    (hreplS : ∀ p s e r, f p s = some (e, r) →
      r ≠ [] ∧ strongSepOpt r.head? = true)
    (hreplq : bQ = true → ∀ p s e r, f p s = some (e, r) →
      ∀ c ∈ r, (fun c => !(c = '"')) c = true)
    (hstart : ∀ (q : Option Char) (x : List Char) (z : Char),
      sepChar z = true → f q (z :: x) = none)
    (hend : ∀ (q : Option Char) s e r, f q s = some (e, r) →
      sepChar (s.getD e 'A') = false)
    (hlne : l ≠ [])
    (hlq : bQ = true → ∀ c ∈ l, (fun c => !(c = '"')) c = true)
    (hz : ∀ z, l.getLast? = some z → sepChar z = true ∨ rest = [])
    (hch : chainHead boundOKb (Seg2.lit l) rest = true)
    (hrest : SegsOK aU aI aQ aT rest = true)
    (hOK2 : SegsOK bU bI bQ bT rest2 = true)
    (e1 : scanRun f (prevAfter l p1) (renderMsg1 rest) = renderMsg1 rest2)
    (e2 : scanRun f (prevAfter l p2) (renderMsg2 rest) = renderMsg2 rest2)
    (hneeds2 : ∀ p, needsFirst rest p = true → needsFirst rest2 p = true)
    (hloc1 : ∀ i q, i < l.length →
      f q (l.drop i ++ renderMsg1 rest) = f q (l.drop i))
    (hloc2 : ∀ i q, i < l.length →
      f q (l.drop i ++ renderMsg2 rest) = f q (l.drop i)) :
    scanRun f p1 (renderMsg1 (Seg2.lit l :: rest)) =
      renderMsg1 (Seg2.lit (scanRun f p1 l) :: rest2) ∧
    scanRun f p2 (renderMsg2 (Seg2.lit l :: rest)) =
      renderMsg2 (Seg2.lit (scanRun f p1 l) :: rest2) ∧
    SegsOK bU bI bQ bT (Seg2.lit (scanRun f p1 l) :: rest2) = true ∧
    (∀ p, needsFirst (Seg2.lit l :: rest) p = true →
      needsFirst (Seg2.lit (scanRun f p1 l) :: rest2) p = true) ∧
    ((renderMsg1 (Seg2.lit (scanRun f p1 l) :: rest2)).head? =
        (renderMsg1 (Seg2.lit l :: rest)).head? ∨
      strongSepOpt
        (renderMsg1 (Seg2.lit (scanRun f p1 l) :: rest2)).head? = true) ∧
    ((renderMsg2 (Seg2.lit (scanRun f p1 l) :: rest2)).head? =
        (renderMsg2 (Seg2.lit l :: rest)).head? ∨
      strongSepOpt
        (renderMsg2 (Seg2.lit (scanRun f p1 l) :: rest2)).head? = true) := by
  have hrne : ∀ (p : Option Char) (s : List Char) (e : Nat) (r : List Char),
      f p s = some (e, r) → r ≠ [] :=
    fun p s e r hm => (hreplS p s e r hm).1
  have houtne : scanRun f p1 l ≠ [] := scanRun_ne_nil f hrne p1 l hlne
  have hout2 : scanRun f p2 l = scanRun f p1 l :=
    scanRun_congr f hcongr p2 p1 l hw.symm
  refine ⟨?_, ?_, ?_, ?_, ?_, ?_⟩
  · rw [renderMsg1_cons, renderMsg1_cons]
    show scanRun f p1 (l ++ renderMsg1 rest) = _
    rw [scanRun_append_local f hb l.length l (renderMsg1 rest) (le_refl _)
      hloc1 p1, e1]
    rfl
  · rw [renderMsg2_cons, renderMsg2_cons]
    show scanRun f p2 (l ++ renderMsg2 rest) = _
    rw [scanRun_append_local f hb l.length l (renderMsg2 rest) (le_refl _)
      hloc2 p2, e2, hout2]
    rfl
  · rw [SegsOK_cons]
    refine ⟨?_, ?_, hOK2⟩
    · show (!(scanRun f p1 l).isEmpty &&
        (!bQ || (scanRun f p1 l).all fun c => !(c = '"'))) = true
      simp only [Bool.and_eq_true, Bool.or_eq_true_iff]
      constructor
      · cases hie : (scanRun f p1 l).isEmpty with
        | false => rfl
        | true => exact absurd (List.isEmpty_iff.mp hie) houtne
      · cases hbq : bQ with
        | false => left; rfl
        | true =>
          right
          rw [List.all_eq_true]
          exact fun c hc => scanRun_all f hb _ (hreplq hbq) l.length l
            (le_refl _) (hlq hbq) p1 c hc
    · cases hr2 : rest2 with
      | nil => rfl
      | cons b2 r3 =>
        have hrestne : rest ≠ [] := by
          intro hx
          subst hx
          rw [renderMsg1_nil, scanRun_nil] at e1
          have := segsOK_render_nil _ _ _ _ rest2 hOK2 e1.symm
          rw [hr2] at this
          simp at this
        cases hlast : l.getLast? with
        | none => exact absurd (List.getLast?_eq_none.mp hlast) hlne
        | some z =>
          have hsepz : sepChar z = true := by
            rcases hz z hlast with h | h
            · exact h
            · exact absurd h hrestne
          have houtlast : (scanRun f p1 l).getLast? = some z := by
            refine scanRun_last f hb z hrne
              (fun q x => hstart q x z hsepz)
              (fun q s e r hm heq => ?_) l.length l (le_refl _) hlast p1
            have := hend q s e r hm
            rw [heq, hsepz] at this
            simp at this
          obtain ⟨t, r2, ht⟩ := List.exists_cons_of_ne_nil hrestne
          subst ht
          have hcht : boundOKb (Seg2.lit l) t = true := hch
          obtain ⟨hc1, hc2, -, -⟩ := (boundOKb_eq _ _).mp hcht
          show boundOKb (Seg2.lit (scanRun f p1 l)) b2 = true
          rw [boundOKb_eq]
          refine ⟨?_, ?_, rfl, rfl⟩
          · show needsb b2 ((scanRun f p1 l).getLast?) = true
            rw [houtlast]
            have := hneeds2 (some z) (by
              show needsb t (some z) = true
              have : (Seg2.lit l).render1.getLast? = some z := hlast
              rw [← this]
              exact hc1)
            rw [hr2] at this
            exact this
          · show needsb b2 ((scanRun f p1 l).getLast?) = true
            rw [houtlast]
            have := hneeds2 (some z) (by
              show needsb t (some z) = true
              have : (Seg2.lit l).render2.getLast? = some z := hlast
              rw [← this]
              exact hc2)
            rw [hr2] at this
            exact this
  · intro p _
    rfl
  · rcases scanRun_head_or f hreplS p1 l hlne with hpres | hstr
    · left
      rw [renderMsg1_head (Seg2.lit (scanRun f p1 l)) rest2
        (by exact houtne), renderMsg1_head (Seg2.lit l) rest
        (by exact hlne)]
      exact hpres
    · right
      rw [renderMsg1_head (Seg2.lit (scanRun f p1 l)) rest2
        (by exact houtne)]
      exact hstr
  · rcases scanRun_head_or f hreplS p1 l hlne with hpres | hstr
    · left
      rw [renderMsg2_head (Seg2.lit (scanRun f p1 l)) rest2
        (by exact houtne), renderMsg2_head (Seg2.lit l) rest
        (by exact hlne)]
      exact hpres
    · right
      rw [renderMsg2_head (Seg2.lit (scanRun f p1 l)) rest2
        (by exact houtne)]
      exact hstr

theorem restHead1_sep (aU aI aQ aT : Bool) (s : Seg2) (rest : List Seg2)
    (hslit : s.isLitB = false)
    (hch : chainHead boundOKb s rest = true)
    (hrest : SegsOK aU aI aQ aT rest = true) :
    sepOpt (renderMsg1 rest).head? = true := by
  cases rest with
  | nil => rfl
  | cons t r2 =>
    have hcht : boundOKb s t = true := hch
    obtain ⟨-, -, hc3, -⟩ := (boundOKb_eq _ _).mp hcht
    have htOK := ((SegsOK_cons _ _ _ _ _ _).mp hrest).1
    rw [renderMsg1_head t r2 (segRender1_ne_nil _ _ _ _ t htOK)]
    exact needsb_nonlit_sep s _ hslit hc3

theorem restHead2_sep (aU aI aQ aT : Bool) (s : Seg2) (rest : List Seg2)
    (hslit : s.isLitB = false)
    (hch : chainHead boundOKb s rest = true)
    (hrest : SegsOK aU aI aQ aT rest = true) :
    sepOpt (renderMsg2 rest).head? = true := by
  cases rest with
  | nil => rfl
  | cons t r2 =>
    have hcht : boundOKb s t = true := hch
    obtain ⟨-, -, -, hc4⟩ := (boundOKb_eq _ _).mp hcht
    have htOK := ((SegsOK_cons _ _ _ _ _ _).mp hrest).1
    rw [renderMsg2_head t r2 (segRender2_ne_nil _ _ _ _ t htOK)]
    exact needsb_nonlit_sep s _ hslit hc4

theorem last_mem (l : List Char) (hne : l ≠ []) :
    ∃ c, l.getLast? = some c ∧ c ∈ l := by
  cases hl : l.getLast? with
  | none => exact absurd (List.getLast?_eq_none.mp hl) hne
  | some c => exact ⟨c, rfl, List.mem_of_mem_getLast? hl⟩

theorem quoted_render_last (q : List Char) :
    ('"' :: (q ++ ['"'])).getLast? = some '"' := by
  rw [getLast?_cons_of_ne_nil _ _ (by simp), List.getLast?_concat]

theorem uuidTry_replS (p : Option Char) (s : List Char) (e : Nat)
    (r : List Char) (h : uuidTry p s = some (e, r)) :
    r ≠ [] ∧ strongSepOpt r.head? = true := by
  obtain ⟨-, hr⟩ := uuidTry_repl p s e r h
  subst hr
  exact ⟨by decide, by decide⟩

theorem uuidTry_replQ (p : Option Char) (s : List Char) (e : Nat)
    (r : List Char) (h : uuidTry p s = some (e, r)) :
    ∀ c ∈ r, (fun c => !(c = '"')) c = true := by
  obtain ⟨-, hr⟩ := uuidTry_repl p s e r h
  subst hr
  exact List.all_eq_true.mp (by decide)

theorem uuidTry_startSep (q : Option Char) (x : List Char) (z : Char)
    (hz : sepChar z = true) : uuidTry q (z :: x) = none :=
  uuidTry_none_head q z x (sep_not_hex z hz)

theorem uuidTry_endSep (q : Option Char) (s : List Char) (e : Nat)
    (r : List Char) (h : uuidTry q s = some (e, r)) :
    sepChar (s.getD e 'A') = false := by
  cases hsc : sepChar (s.getD e 'A') with
  | false => rfl
  | true =>
    have h1 := sep_not_hex _ hsc
    have h2 := uuidTry_end q s e r h
    rw [h1] at h2
    exact h2.symm

theorem idrun_all_digit (d : List Char) (h : idrunShape d = true) :
    ∀ c ∈ d, c.isDigit = true := by
  simp only [idrunShape, Bool.and_eq_true] at h
  exact fun c hc => List.all_eq_true.mp h.1 c hc

theorem idrun_len (d : List Char) (h : idrunShape d = true) :
    5 ≤ d.length := by
  simp only [idrunShape, Bool.and_eq_true, decide_eq_true_eq] at h
  exact h.2

theorem idrun_ne_nil (d : List Char) (h : idrunShape d = true) : d ≠ [] := by
  intro hx
  subst hx
  have := idrun_len [] h
  simp at this

theorem quotedShape_no_dash (q : List Char) (h : quotedShape q = true) :
    ∀ c ∈ q, c ≠ '-' := by
  simp only [quotedShape, Bool.and_eq_true] at h
  intro c hc
  have := List.all_eq_true.mp h.1.1 c hc
  simp only [Bool.and_eq_true, Bool.not_eq_true', decide_eq_false_iff_not]
    at this
  exact this.2

theorem quotedShape_no_quote (q : List Char) (h : quotedShape q = true) :
    ∀ c ∈ q, c ≠ '"' := by
  simp only [quotedShape, Bool.and_eq_true] at h
  intro c hc
  have := List.all_eq_true.mp h.1.1 c hc
  simp only [Bool.and_eq_true, Bool.not_eq_true', decide_eq_false_iff_not]
    at this
  exact this.1

theorem quotedShape_any_digit (q : List Char) (h : quotedShape q = true) :
    q.any Char.isDigit = true := by
  simp only [quotedShape, Bool.and_eq_true] at h
  exact h.1.2

theorem quotedShape_short (q : List Char) (h : quotedShape q = true) :
    digitRunsShort q = true := by
  simp only [quotedShape, Bool.and_eq_true] at h
  exact h.2

theorem ws_ne_nil (w : List Char) (h : wsShape w = true) : w ≠ [] := by
  simp only [wsShape, Bool.and_eq_true, Bool.not_eq_true'] at h
  exact fun hx => by
    subst hx
    simp at h

theorem ws_all_white (w : List Char) (h : wsShape w = true) :
    ∀ c ∈ w, jsIsWhite c = true := by
  simp only [wsShape, Bool.and_eq_true] at h
  exact fun c hc => List.all_eq_true.mp h.2 c hc

theorem lastWord_of_all_digit (d : List Char) (hne : d ≠ [])
    (hall : ∀ c ∈ d, c.isDigit = true) :
    ∃ c, d.getLast? = some c ∧ isWordChar c = true := by
  obtain ⟨c, hl, hm⟩ := last_mem d hne
  exact ⟨c, hl, isWordChar_of_isDigit c (hall c hm)⟩

theorem pass1_pair :
    ∀ (segs : List Seg2) (p1 p2 : Option Char),
      SegsOK true true true true segs = true →
      noTwoLits segs = true →
      optWord p1 = optWord p2 →
      ∃ segs2,
        scanRun uuidTry p1 (renderMsg1 segs) = renderMsg1 segs2 ∧
        scanRun uuidTry p2 (renderMsg2 segs) = renderMsg2 segs2 ∧
        SegsOK false true true true segs2 = true ∧
        (∀ p, needsFirst segs p = true → needsFirst segs2 p = true) ∧
        ((renderMsg1 segs2).head? = (renderMsg1 segs).head? ∨
          strongSepOpt (renderMsg1 segs2).head? = true) ∧
        ((renderMsg2 segs2).head? = (renderMsg2 segs).head? ∨
          strongSepOpt (renderMsg2 segs2).head? = true) := by
  intro segs
  induction segs with
  | nil =>
    intro p1 p2 _ _ _
    exact ⟨[], by rw [renderMsg1_nil, scanRun_nil],
      by rw [renderMsg2_nil, scanRun_nil], rfl,
      fun p h => h, Or.inl rfl, Or.inl rfl⟩
  | cons s rest ih =>
    intro p1 p2 hOK hNT hw
    obtain ⟨hs0, hch, hrest⟩ := (SegsOK_cons _ _ _ _ _ _).mp hOK
    obtain ⟨hnt1, hntrest⟩ := (noTwoLits_cons _ _).mp hNT
    cases s with
    | uuid u1 u2 =>
      have hs := hs0
      simp only [segOKb, Bool.and_eq_true] at hs
      obtain ⟨⟨-, h1⟩, h2⟩ := hs
      have hu1ne : u1 ≠ [] := by
        intro hx; subst hx; exact absurd h1 (by decide)
      have hu2ne : u2 ≠ [] := by
        intro hx; subst hx; exact absurd h2 (by decide)
      obtain ⟨c1, hlast1, hw1⟩ := uuidShape_last_word u1 h1
      obtain ⟨c2, hlast2, hw2⟩ := uuidShape_last_word u2 h2
      have hweq : optWord (prevAfter (Seg2.uuid u1 u2).render1 p1) =
          optWord (prevAfter (Seg2.uuid u1 u2).render2 p2) := by
        show optWord (prevAfter u1 p1) = optWord (prevAfter u2 p2)
        rw [prevAfter_ne_nil u1 p1 hu1ne, prevAfter_ne_nil u2 p2 hu2ne,
          hlast1, hlast2, optWord_some, optWord_some, hw1, hw2]
      obtain ⟨rest2, e1, e2, hOK2, hneeds2, hh1, hh2⟩ :=
        ih _ _ hrest hntrest hweq
      have hres := pass_match_assemble uuidTry uuidTry_len
        false true true true (Seg2.uuid u1 u2) "<uuid>".data rest rest2 p1 p2
        (by exact hu1ne) (by exact hu2ne) (by decide) (by decide) (by decide)
        hOK2 e1 e2
        (by exact uuidTry_match u1 (renderMsg1 rest) h1 p1)
        (by exact uuidTry_match u2 (renderMsg2 rest) h2 p2)
      exact ⟨Seg2.lit "<uuid>".data :: rest2, hres.1, hres.2.1, hres.2.2.1,
        hres.2.2.2.1, hres.2.2.2.2.1, hres.2.2.2.2.2⟩
    | idrun d1 d2 =>
      have hs := hs0
      simp only [segOKb, Bool.and_eq_true] at hs
      obtain ⟨⟨-, h1⟩, h2⟩ := hs
      have hd1ne := idrun_ne_nil d1 h1
      have hd2ne := idrun_ne_nil d2 h2
      have hB1 : sepOpt (renderMsg1 rest).head? = true :=
        restHead1_sep true true true true (Seg2.idrun d1 d2) rest rfl hch
          hrest
      have hB2 : sepOpt (renderMsg2 rest).head? = true :=
        restHead2_sep true true true true (Seg2.idrun d1 d2) rest rfl hch
          hrest
      obtain ⟨c1, hlast1, hw1⟩ :=
        lastWord_of_all_digit d1 hd1ne (idrun_all_digit d1 h1)
      obtain ⟨c2, hlast2, hw2⟩ :=
        lastWord_of_all_digit d2 hd2ne (idrun_all_digit d2 h2)
      have hweq : optWord (prevAfter (Seg2.idrun d1 d2).render1 p1) =
          optWord (prevAfter (Seg2.idrun d1 d2).render2 p2) := by
        show optWord (prevAfter d1 p1) = optWord (prevAfter d2 p2)
        rw [prevAfter_ne_nil d1 p1 hd1ne, prevAfter_ne_nil d2 p2 hd2ne,
          hlast1, hlast2, optWord_some, optWord_some, hw1, hw2]
      obtain ⟨rest2, e1, e2, hOK2, hneeds2, hh1, hh2⟩ :=
        ih _ _ hrest hntrest hweq
      have hres := pass_inert_assemble uuidTry
        true true true true false true true true
        (Seg2.idrun d1 d2) rest rest2 p1 p2 (by exact hs0) hch hrest hOK2
        e1 e2 hneeds2 hh1 hh2
        (fun i q hi => uuidInert_digits d1 (renderMsg1 rest)
          (idrun_all_digit d1 h1) hB1 i hi q)
        (fun i q hi => uuidInert_digits d2 (renderMsg2 rest)
          (idrun_all_digit d2 h2) hB2 i hi q)
      exact ⟨Seg2.idrun d1 d2 :: rest2, hres.1, hres.2.1, hres.2.2.1,
        hres.2.2.2.1, hres.2.2.2.2.1, hres.2.2.2.2.2⟩
    | quoted q1 q2 =>
      have hs := hs0
      simp only [segOKb, Bool.and_eq_true] at hs
      obtain ⟨⟨-, h1⟩, h2⟩ := hs
      have hweq : optWord (prevAfter (Seg2.quoted q1 q2).render1 p1) =
          optWord (prevAfter (Seg2.quoted q1 q2).render2 p2) := by
        show optWord (prevAfter ('"' :: (q1 ++ ['"'])) p1) =
          optWord (prevAfter ('"' :: (q2 ++ ['"'])) p2)
        rw [prevAfter_ne_nil _ p1 (by simp), prevAfter_ne_nil _ p2 (by simp),
          quoted_render_last, quoted_render_last]
      obtain ⟨rest2, e1, e2, hOK2, hneeds2, hh1, hh2⟩ :=
        ih _ _ hrest hntrest hweq
      have hres := pass_inert_assemble uuidTry
        true true true true false true true true
        (Seg2.quoted q1 q2) rest rest2 p1 p2 (by exact hs0) hch hrest hOK2
        e1 e2 hneeds2 hh1 hh2
        (fun i q hi => uuidInert_quoted q1 (renderMsg1 rest)
          (quotedShape_no_dash q1 h1) i hi q)
        (fun i q hi => uuidInert_quoted q2 (renderMsg2 rest)
          (quotedShape_no_dash q2 h2) i hi q)
      exact ⟨Seg2.quoted q1 q2 :: rest2, hres.1, hres.2.1, hres.2.2.1,
        hres.2.2.2.1, hres.2.2.2.2.1, hres.2.2.2.2.2⟩
    | tstamp t1 t2 =>
      have hs := hs0
      simp only [segOKb, Bool.and_eq_true] at hs
      obtain ⟨⟨-, h1⟩, h2⟩ := hs
      have ht1ne : t1 ≠ [] := by
        intro hx; subst hx; exact absurd h1 (by decide)
      have ht2ne : t2 ≠ [] := by
        intro hx; subst hx; exact absurd h2 (by decide)
      have hB1 : sepOpt (renderMsg1 rest).head? = true :=
        restHead1_sep true true true true (Seg2.tstamp t1 t2) rest rfl hch
          hrest
      have hB2 : sepOpt (renderMsg2 rest).head? = true :=
        restHead2_sep true true true true (Seg2.tstamp t1 t2) rest rfl hch
          hrest
      obtain ⟨c1, hlast1, hd1⟩ := tsStructb_last t1 h1
      obtain ⟨c2, hlast2, hd2⟩ := tsStructb_last t2 h2
      have hweq : optWord (prevAfter (Seg2.tstamp t1 t2).render1 p1) =
          optWord (prevAfter (Seg2.tstamp t1 t2).render2 p2) := by
        show optWord (prevAfter t1 p1) = optWord (prevAfter t2 p2)
        rw [prevAfter_ne_nil t1 p1 ht1ne, prevAfter_ne_nil t2 p2 ht2ne,
          hlast1, hlast2, optWord_some, optWord_some,
          isWordChar_of_isDigit c1 hd1, isWordChar_of_isDigit c2 hd2]
      obtain ⟨rest2, e1, e2, hOK2, hneeds2, hh1, hh2⟩ :=
        ih _ _ hrest hntrest hweq
      have hres := pass_inert_assemble uuidTry
        true true true true false true true true
        (Seg2.tstamp t1 t2) rest rest2 p1 p2 (by exact hs0) hch hrest hOK2
        e1 e2 hneeds2 hh1 hh2
        (fun i q hi => tsInert_uuid t1 (renderMsg1 rest) h1 hB1 i hi q)
        (fun i q hi => tsInert_uuid t2 (renderMsg2 rest) h2 hB2 i hi q)
      exact ⟨Seg2.tstamp t1 t2 :: rest2, hres.1, hres.2.1, hres.2.2.1,
        hres.2.2.2.1, hres.2.2.2.2.1, hres.2.2.2.2.2⟩
    | ws w1 w2 =>
      have hs := hs0
      simp only [segOKb, Bool.and_eq_true] at hs
      obtain ⟨h1, h2⟩ := hs
      have hw1ne := ws_ne_nil w1 h1
      have hw2ne := ws_ne_nil w2 h2
      obtain ⟨c1, hlast1, hm1⟩ := last_mem w1 hw1ne
      obtain ⟨c2, hlast2, hm2⟩ := last_mem w2 hw2ne
      have hweq : optWord (prevAfter (Seg2.ws w1 w2).render1 p1) =
          optWord (prevAfter (Seg2.ws w1 w2).render2 p2) := by
        show optWord (prevAfter w1 p1) = optWord (prevAfter w2 p2)
        rw [prevAfter_ne_nil w1 p1 hw1ne, prevAfter_ne_nil w2 p2 hw2ne,
          hlast1, hlast2, optWord_some, optWord_some,
          white_not_word c1 (ws_all_white w1 h1 c1 hm1),
          white_not_word c2 (ws_all_white w2 h2 c2 hm2)]
      obtain ⟨rest2, e1, e2, hOK2, hneeds2, hh1, hh2⟩ :=
        ih _ _ hrest hntrest hweq
      have hres := pass_inert_assemble uuidTry
        true true true true false true true true
        (Seg2.ws w1 w2) rest rest2 p1 p2 (by exact hs0) hch hrest hOK2
        e1 e2 hneeds2 hh1 hh2
        (fun i q hi => headInert uuidTry jsIsWhite
          (fun q' c x hc => uuidTry_none_head q' c x (white_not_hex c hc))
          w1 (renderMsg1 rest) (ws_all_white w1 h1) i hi q)
        (fun i q hi => headInert uuidTry jsIsWhite
          (fun q' c x hc => uuidTry_none_head q' c x (white_not_hex c hc))
          w2 (renderMsg2 rest) (ws_all_white w2 h2) i hi q)
      exact ⟨Seg2.ws w1 w2 :: rest2, hres.1, hres.2.1, hres.2.2.1,
        hres.2.2.2.1, hres.2.2.2.2.1, hres.2.2.2.2.2⟩
    | lit l =>
      have hlne : l ≠ [] := by
        intro hx; subst hx; simp [segOKb] at hs0
      have hzfact : ∀ z', l.getLast? = some z' →
          sepChar z' = true ∨ rest = [] := by
        cases rest with
        | nil => exact fun z' _ => Or.inr rfl
        | cons t r2 =>
          intro z' hz'
          left
          have htlit : t.isLitB = false := by
            have h := hnt1
            simp only [chainHead, noTwoLitsR, Seg2.isLitB, Bool.true_and,
              Bool.not_eq_true'] at h
            exact h
          have hcht : boundOKb (Seg2.lit l) t = true := hch
          obtain ⟨hc1, -, -, -⟩ := (boundOKb_eq _ _).mp hcht
          have hsep := needsb_nonlit_sep t _ htlit hc1
          rw [show (Seg2.lit l).render1.getLast? = some z' from hz'] at hsep
          simpa [sepOpt] using hsep
      have hloc1 : ∀ i q, i < l.length →
          uuidTry q (l.drop i ++ renderMsg1 rest) = uuidTry q (l.drop i) := by
        intro i q hi
        obtain ⟨z', hz', -⟩ := last_mem l hlne
        rcases hzfact z' hz' with hsep | hrnil
        · exact uuidTry_local (l.drop i) _ z'
            (by rw [getLast?_drop_of_lt l i hi]; exact hz')
            (sep_not_hex z' hsep) (sep_ne_dash z' hsep) q
        · rw [hrnil, renderMsg1_nil, List.append_nil]
      have hloc2 : ∀ i q, i < l.length →
          uuidTry q (l.drop i ++ renderMsg2 rest) = uuidTry q (l.drop i) := by
        intro i q hi
        obtain ⟨z', hz', -⟩ := last_mem l hlne
        rcases hzfact z' hz' with hsep | hrnil
        · exact uuidTry_local (l.drop i) _ z'
            (by rw [getLast?_drop_of_lt l i hi]; exact hz')
            (sep_not_hex z' hsep) (sep_ne_dash z' hsep) q
        · rw [hrnil, renderMsg2_nil, List.append_nil]
      have hweq : optWord (prevAfter l p1) = optWord (prevAfter l p2) := by
        rw [prevAfter_ne_nil l p1 hlne, prevAfter_ne_nil l p2 hlne]
      obtain ⟨rest2, e1, e2, hOK2, hneeds2, hh1, hh2⟩ :=
        ih _ _ hrest hntrest hweq
      have hres := pass_lit_assemble uuidTry uuidTry_len
        true true true true false true true true l rest rest2 p1 p2 hw
        (fun p q s' _ => uuidTry_congr p q s')
        uuidTry_replS (fun _ => uuidTry_replQ) uuidTry_startSep
        uuidTry_endSep hlne
        (fun _ => all_ne_quote_of_segOK true true true l hs0)
        hzfact hch hrest hOK2 e1 e2 hneeds2 hloc1 hloc2
      exact ⟨Seg2.lit (scanRun uuidTry p1 l) :: rest2, hres.1, hres.2.1,
        hres.2.2.1, hres.2.2.2.1, hres.2.2.2.2.1, hres.2.2.2.2.2⟩

theorem needsFirst_next1 (s : Seg2) (rest : List Seg2)
    (hch : chainHead boundOKb s rest = true) (hne : s.render1 ≠ [])
    (p1 : Option Char) :
    needsFirst rest (prevAfter s.render1 p1) = true := by
  cases rest with
  | nil => rfl
  | cons t r2 =>
    have hcht : boundOKb s t = true := hch
    obtain ⟨hc1, -, -, -⟩ := (boundOKb_eq _ _).mp hcht
    show needsb t (prevAfter s.render1 p1) = true
    rw [prevAfter_ne_nil _ _ hne]
    exact hc1

theorem needsFirst_next2 (s : Seg2) (rest : List Seg2)
    (hch : chainHead boundOKb s rest = true) (hne : s.render2 ≠ [])
    (p2 : Option Char) :
    needsFirst rest (prevAfter s.render2 p2) = true := by
  cases rest with
  | nil => rfl
  | cons t r2 =>
    have hcht : boundOKb s t = true := hch
    obtain ⟨-, hc2, -, -⟩ := (boundOKb_eq _ _).mp hcht
    show needsb t (prevAfter s.render2 p2) = true
    rw [prevAfter_ne_nil _ _ hne]
    exact hc2

theorem nonWordOpt_of_sepOpt (o : Option Char) (h : sepOpt o = true) :
    nonWordOpt o = true := by
  cases o with
  | none => rfl
  | some c =>
    simp only [nonWordOpt]
    rw [sep_not_word c (by simpa [sepOpt] using h)]
    rfl

theorem optWord_false_of_sepOpt (o : Option Char) (h : sepOpt o = true) :
    optWord o = false := by
  cases o with
  | none => rfl
  | some c =>
    rw [optWord_some]
    exact sep_not_word c (by simpa [sepOpt] using h)

theorem idTry_replS (p : Option Char) (s : List Char) (e : Nat)
    (r : List Char) (h : idTry p s = some (e, r)) :
    r ≠ [] ∧ strongSepOpt r.head? = true := by
  obtain ⟨-, -, hr⟩ := idTry_repl p s e r h
  subst hr
  exact ⟨by decide, by decide⟩

theorem idTry_replQ (p : Option Char) (s : List Char) (e : Nat)
    (r : List Char) (h : idTry p s = some (e, r)) :
    ∀ c ∈ r, (fun c => !(c = '"')) c = true := by
  obtain ⟨-, -, hr⟩ := idTry_repl p s e r h
  subst hr
  exact List.all_eq_true.mp (by decide)

theorem idTry_startSep (q : Option Char) (x : List Char) (z : Char)
    (hz : sepChar z = true) : idTry q (z :: x) = none :=
  idTry_none_head q z x (sep_not_digit z hz)

theorem idTry_endSep (q : Option Char) (s : List Char) (e : Nat)
    (r : List Char) (h : idTry q s = some (e, r)) :
    sepChar (s.getD e 'A') = false := by
  cases hsc : sepChar (s.getD e 'A') with
  | false => rfl
  | true =>
    have h1 := sep_not_digit _ hsc
    have h2 := idTry_end q s e r h
    rw [h1] at h2
    exact h2.symm

theorem pass2_pair :
    ∀ (segs : List Seg2) (p1 p2 : Option Char),
      SegsOK false true true true segs = true →
      noTwoLits segs = true →
      optWord p1 = optWord p2 →
      needsFirst segs p1 = true →
      needsFirst segs p2 = true →
      ∃ segs2,
        scanRun idTry p1 (renderMsg1 segs) = renderMsg1 segs2 ∧
        scanRun idTry p2 (renderMsg2 segs) = renderMsg2 segs2 ∧
        SegsOK false false true true segs2 = true ∧
        (∀ p, needsFirst segs p = true → needsFirst segs2 p = true) ∧
        ((renderMsg1 segs2).head? = (renderMsg1 segs).head? ∨
          strongSepOpt (renderMsg1 segs2).head? = true) ∧
        ((renderMsg2 segs2).head? = (renderMsg2 segs).head? ∨
          strongSepOpt (renderMsg2 segs2).head? = true) := by
  intro segs
  induction segs with
  | nil =>
    intro p1 p2 _ _ _ _ _
    exact ⟨[], by rw [renderMsg1_nil, scanRun_nil],
      by rw [renderMsg2_nil, scanRun_nil], rfl,
      fun p h => h, Or.inl rfl, Or.inl rfl⟩
  | cons s rest ih =>
    intro p1 p2 hOK hNT hw hf1 hf2
    obtain ⟨hs0, hch, hrest⟩ := (SegsOK_cons _ _ _ _ _ _).mp hOK
    obtain ⟨hnt1, hntrest⟩ := (noTwoLits_cons _ _).mp hNT
    cases s with
    | uuid u1 u2 =>
      exfalso
      simp [segOKb] at hs0
    | idrun d1 d2 =>
      have hs := hs0
      simp only [segOKb, Bool.and_eq_true] at hs
      obtain ⟨⟨-, h1⟩, h2⟩ := hs
      have hd1ne := idrun_ne_nil d1 h1
      have hd2ne := idrun_ne_nil d2 h2
      have hB1 : sepOpt (renderMsg1 rest).head? = true :=
        restHead1_sep false true true true (Seg2.idrun d1 d2) rest rfl hch
          hrest
      have hB2 : sepOpt (renderMsg2 rest).head? = true :=
        restHead2_sep false true true true (Seg2.idrun d1 d2) rest rfl hch
          hrest
      obtain ⟨c1, hlast1, hw1⟩ :=
        lastWord_of_all_digit d1 hd1ne (idrun_all_digit d1 h1)
      obtain ⟨c2, hlast2, hw2⟩ :=
        lastWord_of_all_digit d2 hd2ne (idrun_all_digit d2 h2)
      have hweq : optWord (prevAfter (Seg2.idrun d1 d2).render1 p1) =
          optWord (prevAfter (Seg2.idrun d1 d2).render2 p2) := by
        show optWord (prevAfter d1 p1) = optWord (prevAfter d2 p2)
        rw [prevAfter_ne_nil d1 p1 hd1ne, prevAfter_ne_nil d2 p2 hd2ne,
          hlast1, hlast2, optWord_some, optWord_some, hw1, hw2]
      obtain ⟨rest2, e1, e2, hOK2, hneeds2, hh1, hh2⟩ :=
        ih _ _ hrest hntrest hweq
          (needsFirst_next1 _ rest hch (by exact hd1ne) p1)
          (needsFirst_next2 _ rest hch (by exact hd2ne) p2)
      have hmt1 := idTry_match d1 (renderMsg1 rest) (idrun_all_digit d1 h1)
        (idrun_len d1 h1) (nonWordOpt_of_sepOpt _ hB1) p1
        (optWord_false_of_sepOpt p1 (by exact hf1))
      have hmt2 := idTry_match d2 (renderMsg2 rest) (idrun_all_digit d2 h2)
        (idrun_len d2 h2) (nonWordOpt_of_sepOpt _ hB2) p2
        (optWord_false_of_sepOpt p2 (by exact hf2))
      have hres := pass_match_assemble idTry idTry_len
        false false true true (Seg2.idrun d1 d2) "<id>".data rest rest2 p1 p2
        (by exact hd1ne) (by exact hd2ne) (by decide) (by decide) (by decide)
        hOK2 e1 e2 (by exact hmt1) (by exact hmt2)
      exact ⟨Seg2.lit "<id>".data :: rest2, hres.1, hres.2.1, hres.2.2.1,
        hres.2.2.2.1, hres.2.2.2.2.1, hres.2.2.2.2.2⟩
    | quoted q1 q2 =>
      have hs := hs0
      simp only [segOKb, Bool.and_eq_true] at hs
      obtain ⟨⟨-, h1⟩, h2⟩ := hs
      have hweq : optWord (prevAfter (Seg2.quoted q1 q2).render1 p1) =
          optWord (prevAfter (Seg2.quoted q1 q2).render2 p2) := by
        show optWord (prevAfter ('"' :: (q1 ++ ['"'])) p1) =
          optWord (prevAfter ('"' :: (q2 ++ ['"'])) p2)
        rw [prevAfter_ne_nil _ p1 (by simp), prevAfter_ne_nil _ p2 (by simp),
          quoted_render_last, quoted_render_last]
      obtain ⟨rest2, e1, e2, hOK2, hneeds2, hh1, hh2⟩ :=
        ih _ _ hrest hntrest hweq
          (needsFirst_next1 _ rest hch (by simp [Seg2.render1]) p1)
          (needsFirst_next2 _ rest hch (by simp [Seg2.render2]) p2)
      have hres := pass_inert_assemble idTry
        false true true true false false true true
        (Seg2.quoted q1 q2) rest rest2 p1 p2 (by exact hs0) hch hrest hOK2
        e1 e2 hneeds2 hh1 hh2
        (fun i q hi => idInert_quoted q1 (renderMsg1 rest)
          (quotedShape_short q1 h1) i hi q)
        (fun i q hi => idInert_quoted q2 (renderMsg2 rest)
          (quotedShape_short q2 h2) i hi q)
      exact ⟨Seg2.quoted q1 q2 :: rest2, hres.1, hres.2.1, hres.2.2.1,
        hres.2.2.2.1, hres.2.2.2.2.1, hres.2.2.2.2.2⟩
    | tstamp t1 t2 =>
      have hs := hs0
      simp only [segOKb, Bool.and_eq_true] at hs
      obtain ⟨⟨-, h1⟩, h2⟩ := hs
      have ht1ne : t1 ≠ [] := by
        intro hx; subst hx; exact absurd h1 (by decide)
      have ht2ne : t2 ≠ [] := by
        intro hx; subst hx; exact absurd h2 (by decide)
      have hB1 : sepOpt (renderMsg1 rest).head? = true :=
        restHead1_sep false true true true (Seg2.tstamp t1 t2) rest rfl hch
          hrest
      have hB2 : sepOpt (renderMsg2 rest).head? = true :=
        restHead2_sep false true true true (Seg2.tstamp t1 t2) rest rfl hch
          hrest
      obtain ⟨c1, hlast1, hd1⟩ := tsStructb_last t1 h1
      obtain ⟨c2, hlast2, hd2⟩ := tsStructb_last t2 h2
      have hweq : optWord (prevAfter (Seg2.tstamp t1 t2).render1 p1) =
          optWord (prevAfter (Seg2.tstamp t1 t2).render2 p2) := by
        show optWord (prevAfter t1 p1) = optWord (prevAfter t2 p2)
        rw [prevAfter_ne_nil t1 p1 ht1ne, prevAfter_ne_nil t2 p2 ht2ne,
          hlast1, hlast2, optWord_some, optWord_some,
          isWordChar_of_isDigit c1 hd1, isWordChar_of_isDigit c2 hd2]
      obtain ⟨rest2, e1, e2, hOK2, hneeds2, hh1, hh2⟩ :=
        ih _ _ hrest hntrest hweq
          (needsFirst_next1 _ rest hch (by exact ht1ne) p1)
          (needsFirst_next2 _ rest hch (by exact ht2ne) p2)
      have hres := pass_inert_assemble idTry
        false true true true false false true true
        (Seg2.tstamp t1 t2) rest rest2 p1 p2 (by exact hs0) hch hrest hOK2
        e1 e2 hneeds2 hh1 hh2
        (fun i q hi => tsInert_id t1 (renderMsg1 rest) h1 hB1 i hi q)
        (fun i q hi => tsInert_id t2 (renderMsg2 rest) h2 hB2 i hi q)
      exact ⟨Seg2.tstamp t1 t2 :: rest2, hres.1, hres.2.1, hres.2.2.1,
        hres.2.2.2.1, hres.2.2.2.2.1, hres.2.2.2.2.2⟩
    | ws w1 w2 =>
      have hs := hs0
      simp only [segOKb, Bool.and_eq_true] at hs
      obtain ⟨h1, h2⟩ := hs
      have hw1ne := ws_ne_nil w1 h1
      have hw2ne := ws_ne_nil w2 h2
      obtain ⟨c1, hlast1, hm1⟩ := last_mem w1 hw1ne
      obtain ⟨c2, hlast2, hm2⟩ := last_mem w2 hw2ne
      have hweq : optWord (prevAfter (Seg2.ws w1 w2).render1 p1) =
          optWord (prevAfter (Seg2.ws w1 w2).render2 p2) := by
        show optWord (prevAfter w1 p1) = optWord (prevAfter w2 p2)
        rw [prevAfter_ne_nil w1 p1 hw1ne, prevAfter_ne_nil w2 p2 hw2ne,
          hlast1, hlast2, optWord_some, optWord_some,
          white_not_word c1 (ws_all_white w1 h1 c1 hm1),
          white_not_word c2 (ws_all_white w2 h2 c2 hm2)]
      obtain ⟨rest2, e1, e2, hOK2, hneeds2, hh1, hh2⟩ :=
        ih _ _ hrest hntrest hweq
          (needsFirst_next1 _ rest hch (by exact hw1ne) p1)
          (needsFirst_next2 _ rest hch (by exact hw2ne) p2)
      have hres := pass_inert_assemble idTry
        false true true true false false true true
        (Seg2.ws w1 w2) rest rest2 p1 p2 (by exact hs0) hch hrest hOK2
        e1 e2 hneeds2 hh1 hh2
        (fun i q hi => headInert idTry jsIsWhite
          (fun q' c x hc => idTry_none_head q' c x (white_not_digit c hc))
          w1 (renderMsg1 rest) (ws_all_white w1 h1) i hi q)
        (fun i q hi => headInert idTry jsIsWhite
          (fun q' c x hc => idTry_none_head q' c x (white_not_digit c hc))
          w2 (renderMsg2 rest) (ws_all_white w2 h2) i hi q)
      exact ⟨Seg2.ws w1 w2 :: rest2, hres.1, hres.2.1, hres.2.2.1,
        hres.2.2.2.1, hres.2.2.2.2.1, hres.2.2.2.2.2⟩
    | lit l =>
      have hlne : l ≠ [] := by
        intro hx; subst hx; simp [segOKb] at hs0
      have hzfact : ∀ z', l.getLast? = some z' →
          sepChar z' = true ∨ rest = [] := by
        cases rest with
        | nil => exact fun z' _ => Or.inr rfl
        | cons t r2 =>
          intro z' hz'
          left
          have htlit : t.isLitB = false := by
            have h := hnt1
            simp only [chainHead, noTwoLitsR, Seg2.isLitB, Bool.true_and,
              Bool.not_eq_true'] at h
            exact h
          have hcht : boundOKb (Seg2.lit l) t = true := hch
          obtain ⟨hc1, -, -, -⟩ := (boundOKb_eq _ _).mp hcht
          have hsep := needsb_nonlit_sep t _ htlit hc1
          rw [show (Seg2.lit l).render1.getLast? = some z' from hz'] at hsep
          simpa [sepOpt] using hsep
      have hloc1 : ∀ i q, i < l.length →
          idTry q (l.drop i ++ renderMsg1 rest) = idTry q (l.drop i) := by
        intro i q hi
        obtain ⟨z', hz', -⟩ := last_mem l hlne
        rcases hzfact z' hz' with hsep | hrnil
        · exact idTry_local (l.drop i) _ z'
            (by rw [getLast?_drop_of_lt l i hi]; exact hz')
            (sep_not_digit z' hsep) q
        · rw [hrnil, renderMsg1_nil, List.append_nil]
      have hloc2 : ∀ i q, i < l.length →
          idTry q (l.drop i ++ renderMsg2 rest) = idTry q (l.drop i) := by
        intro i q hi
        obtain ⟨z', hz', -⟩ := last_mem l hlne
        rcases hzfact z' hz' with hsep | hrnil
        · exact idTry_local (l.drop i) _ z'
            (by rw [getLast?_drop_of_lt l i hi]; exact hz')
            (sep_not_digit z' hsep) q
        · rw [hrnil, renderMsg2_nil, List.append_nil]
      have hweq : optWord (prevAfter l p1) = optWord (prevAfter l p2) := by
        rw [prevAfter_ne_nil l p1 hlne, prevAfter_ne_nil l p2 hlne]
      obtain ⟨rest2, e1, e2, hOK2, hneeds2, hh1, hh2⟩ :=
        ih _ _ hrest hntrest hweq
          (needsFirst_next1 _ rest hch (by exact hlne) p1)
          (needsFirst_next2 _ rest hch (by exact hlne) p2)
      have hres := pass_lit_assemble idTry idTry_len
        false true true true false false true true l rest rest2 p1 p2 hw
        idTry_congr
        idTry_replS (fun _ => idTry_replQ) idTry_startSep
        idTry_endSep hlne
        (fun _ => all_ne_quote_of_segOK false true true l hs0)
        hzfact hch hrest hOK2 e1 e2 hneeds2 hloc1 hloc2
      exact ⟨Seg2.lit (scanRun idTry p1 l) :: rest2, hres.1, hres.2.1,
        hres.2.2.1, hres.2.2.2.1, hres.2.2.2.2.1, hres.2.2.2.2.2⟩

theorem white_ne_quote (c : Char) (h : jsIsWhite c = true) : c ≠ '"' := by
  intro hx
  subst hx
  exact absurd h (by decide)

theorem quotedTry_replS (p : Option Char) (s : List Char) (e : Nat)
    (r : List Char) (h : quotedTry p s = some (e, r)) :
    r ≠ [] ∧ strongSepOpt r.head? = true := by
  have hr := quotedTry_repl p s e r h
  subst hr
  exact ⟨by decide, by decide⟩

theorem pass3_pair :
    ∀ (segs : List Seg2) (p1 p2 : Option Char),
      SegsOK false false true true segs = true →
      noTwoLits segs = true →
      optWord p1 = optWord p2 →
      ∃ segs2,
        scanRun quotedTry p1 (renderMsg1 segs) = renderMsg1 segs2 ∧
        scanRun quotedTry p2 (renderMsg2 segs) = renderMsg2 segs2 ∧
        SegsOK false false false true segs2 = true ∧
        (∀ p, needsFirst segs p = true → needsFirst segs2 p = true) ∧
        ((renderMsg1 segs2).head? = (renderMsg1 segs).head? ∨
          strongSepOpt (renderMsg1 segs2).head? = true) ∧
        ((renderMsg2 segs2).head? = (renderMsg2 segs).head? ∨
          strongSepOpt (renderMsg2 segs2).head? = true) := by
  intro segs
  induction segs with
  | nil =>
    intro p1 p2 _ _ _
    exact ⟨[], by rw [renderMsg1_nil, scanRun_nil],
      by rw [renderMsg2_nil, scanRun_nil], rfl,
      fun p h => h, Or.inl rfl, Or.inl rfl⟩
  | cons s rest ih =>
    intro p1 p2 hOK hNT hw
    obtain ⟨hs0, hch, hrest⟩ := (SegsOK_cons _ _ _ _ _ _).mp hOK
    obtain ⟨hnt1, hntrest⟩ := (noTwoLits_cons _ _).mp hNT
    cases s with
    | uuid u1 u2 =>
      exfalso
      simp [segOKb] at hs0
    | idrun d1 d2 =>
      exfalso
      simp [segOKb] at hs0
    | quoted q1 q2 =>
      have hs := hs0
      simp only [segOKb, Bool.and_eq_true] at hs
      obtain ⟨⟨-, h1⟩, h2⟩ := hs
      have hweq : optWord (prevAfter (Seg2.quoted q1 q2).render1 p1) =
          optWord (prevAfter (Seg2.quoted q1 q2).render2 p2) := by
        show optWord (prevAfter ('"' :: (q1 ++ ['"'])) p1) =
          optWord (prevAfter ('"' :: (q2 ++ ['"'])) p2)
        rw [prevAfter_ne_nil _ p1 (by simp), prevAfter_ne_nil _ p2 (by simp),
          quoted_render_last, quoted_render_last]
      obtain ⟨rest2, e1, e2, hOK2, hneeds2, hh1, hh2⟩ :=
        ih _ _ hrest hntrest hweq
      have hmt1 : quotedTry p1
          ((Seg2.quoted q1 q2).render1 ++ renderMsg1 rest) =
          some ((Seg2.quoted q1 q2).render1.length - 1,
            "\x22<dynamic>\x22".data) := by
        rw [show (Seg2.quoted q1 q2).render1 = '"' :: (q1 ++ ['"'])
          from rfl]
        rw [quotedTry_match q1 (renderMsg1 rest)
          (quotedShape_no_quote q1 h1) (quotedShape_any_digit q1 h1) p1]
        congr 2
        simp
      have hmt2 : quotedTry p2
          ((Seg2.quoted q1 q2).render2 ++ renderMsg2 rest) =
          some ((Seg2.quoted q1 q2).render2.length - 1,
            "\x22<dynamic>\x22".data) := by
        rw [show (Seg2.quoted q1 q2).render2 = '"' :: (q2 ++ ['"'])
          from rfl]
        rw [quotedTry_match q2 (renderMsg2 rest)
          (quotedShape_no_quote q2 h2) (quotedShape_any_digit q2 h2) p2]
        congr 2
        simp
      have hres := pass_match_assemble quotedTry quotedTry_len
        false false false true (Seg2.quoted q1 q2)
        "\x22<dynamic>\x22".data rest rest2 p1 p2
        (by simp [Seg2.render1]) (by simp [Seg2.render2])
        (by decide) (by decide) (by decide)
        hOK2 e1 e2 hmt1 hmt2
      exact ⟨Seg2.lit "\x22<dynamic>\x22".data :: rest2, hres.1, hres.2.1,
        hres.2.2.1, hres.2.2.2.1, hres.2.2.2.2.1, hres.2.2.2.2.2⟩
    | tstamp t1 t2 =>
      have hs := hs0
      simp only [segOKb, Bool.and_eq_true] at hs
      obtain ⟨⟨-, h1⟩, h2⟩ := hs
      have ht1ne : t1 ≠ [] := by
        intro hx; subst hx; exact absurd h1 (by decide)
      have ht2ne : t2 ≠ [] := by
        intro hx; subst hx; exact absurd h2 (by decide)
      obtain ⟨c1, hlast1, hd1⟩ := tsStructb_last t1 h1
      obtain ⟨c2, hlast2, hd2⟩ := tsStructb_last t2 h2
      have hweq : optWord (prevAfter (Seg2.tstamp t1 t2).render1 p1) =
          optWord (prevAfter (Seg2.tstamp t1 t2).render2 p2) := by
        show optWord (prevAfter t1 p1) = optWord (prevAfter t2 p2)
        rw [prevAfter_ne_nil t1 p1 ht1ne, prevAfter_ne_nil t2 p2 ht2ne,
          hlast1, hlast2, optWord_some, optWord_some,
          isWordChar_of_isDigit c1 hd1, isWordChar_of_isDigit c2 hd2]
      obtain ⟨rest2, e1, e2, hOK2, hneeds2, hh1, hh2⟩ :=
        ih _ _ hrest hntrest hweq
      have hres := pass_inert_assemble quotedTry
        false false true true false false false true
        (Seg2.tstamp t1 t2) rest rest2 p1 p2 (by exact hs0) hch hrest hOK2
        e1 e2 hneeds2 hh1 hh2
        (fun i q hi => by
          obtain ⟨c, cs, hd, hm⟩ := drop_head_mem t1 i hi
          rw [show (Seg2.tstamp t1 t2).render1 = t1 from rfl] at *
          rw [hd, List.cons_append]
          exact quotedTry_none_head q c _ (tsStructb_noquote t1 h1 c hm))
        (fun i q hi => by
          obtain ⟨c, cs, hd, hm⟩ := drop_head_mem t2 i hi
          rw [show (Seg2.tstamp t1 t2).render2 = t2 from rfl] at *
          rw [hd, List.cons_append]
          exact quotedTry_none_head q c _ (tsStructb_noquote t2 h2 c hm))
      exact ⟨Seg2.tstamp t1 t2 :: rest2, hres.1, hres.2.1, hres.2.2.1,
        hres.2.2.2.1, hres.2.2.2.2.1, hres.2.2.2.2.2⟩
    | ws w1 w2 =>
      have hs := hs0
      simp only [segOKb, Bool.and_eq_true] at hs
      obtain ⟨h1, h2⟩ := hs
      have hw1ne := ws_ne_nil w1 h1
      have hw2ne := ws_ne_nil w2 h2
      obtain ⟨c1, hlast1, hm1⟩ := last_mem w1 hw1ne
      obtain ⟨c2, hlast2, hm2⟩ := last_mem w2 hw2ne
      have hweq : optWord (prevAfter (Seg2.ws w1 w2).render1 p1) =
          optWord (prevAfter (Seg2.ws w1 w2).render2 p2) := by
        show optWord (prevAfter w1 p1) = optWord (prevAfter w2 p2)
        rw [prevAfter_ne_nil w1 p1 hw1ne, prevAfter_ne_nil w2 p2 hw2ne,
          hlast1, hlast2, optWord_some, optWord_some,
          white_not_word c1 (ws_all_white w1 h1 c1 hm1),
          white_not_word c2 (ws_all_white w2 h2 c2 hm2)]
      obtain ⟨rest2, e1, e2, hOK2, hneeds2, hh1, hh2⟩ :=
        ih _ _ hrest hntrest hweq
      have hres := pass_inert_assemble quotedTry
        false false true true false false false true
        (Seg2.ws w1 w2) rest rest2 p1 p2 (by exact hs0) hch hrest hOK2
        e1 e2 hneeds2 hh1 hh2
        (fun i q hi => headInert quotedTry jsIsWhite
          (fun q' c x hc => quotedTry_none_head q' c x (white_ne_quote c hc))
          w1 (renderMsg1 rest) (ws_all_white w1 h1) i hi q)
        (fun i q hi => headInert quotedTry jsIsWhite
          (fun q' c x hc => quotedTry_none_head q' c x (white_ne_quote c hc))
          w2 (renderMsg2 rest) (ws_all_white w2 h2) i hi q)
      exact ⟨Seg2.ws w1 w2 :: rest2, hres.1, hres.2.1, hres.2.2.1,
        hres.2.2.2.1, hres.2.2.2.2.1, hres.2.2.2.2.2⟩
    | lit l =>
      have hlne : l ≠ [] := by
        intro hx; subst hx; simp [segOKb] at hs0
      have hlq : ∀ c ∈ l, c ≠ '"' := by
        have := all_ne_quote_of_segOK false false true l hs0
        intro c hc
        have h1 := this c hc
        simpa using h1
      have hsb : segOKb false false false true (Seg2.lit l) = true := by
        simp only [segOKb, Bool.and_eq_true] at hs0 ⊢
        exact ⟨hs0.1, by simp⟩
      have hweq : optWord (prevAfter l p1) = optWord (prevAfter l p2) := by
        rw [prevAfter_ne_nil l p1 hlne, prevAfter_ne_nil l p2 hlne]
      obtain ⟨rest2, e1, e2, hOK2, hneeds2, hh1, hh2⟩ :=
        ih _ _ hrest hntrest hweq
      have hres := pass_inert_assemble quotedTry
        false false true true false false false true
        (Seg2.lit l) rest rest2 p1 p2 hsb hch hrest hOK2
        e1 e2 hneeds2 hh1 hh2
        (fun i q hi => by
          obtain ⟨c, cs, hd, hm⟩ := drop_head_mem l i hi
          rw [show (Seg2.lit l).render1 = l from rfl] at *
          rw [hd, List.cons_append]
          exact quotedTry_none_head q c _ (hlq c hm))
        (fun i q hi => by
          obtain ⟨c, cs, hd, hm⟩ := drop_head_mem l i hi
          rw [show (Seg2.lit l).render2 = l from rfl] at *
          rw [hd, List.cons_append]
          exact quotedTry_none_head q c _ (hlq c hm))
      exact ⟨Seg2.lit l :: rest2, hres.1, hres.2.1, hres.2.2.1,
        hres.2.2.2.1, hres.2.2.2.2.1, hres.2.2.2.2.2⟩

theorem timeTry_replS (p : Option Char) (s : List Char) (e : Nat)
    (r : List Char) (h : timeTry p s = some (e, r)) :
    r ≠ [] ∧ strongSepOpt r.head? = true := by
  obtain ⟨-, hr⟩ := timeTry_repl p s e r h
  subst hr
  exact ⟨by decide, by decide⟩

theorem timeTry_startSep (q : Option Char) (x : List Char) (z : Char)
    (hz : sepChar z = true) : timeTry q (z :: x) = none :=
  timeTry_none_head q z x (sep_not_digit z hz)

theorem timeTry_endSep (q : Option Char) (s : List Char) (e : Nat)
    (r : List Char) (h : timeTry q s = some (e, r)) :
    sepChar (s.getD e 'A') = false := by
  cases hsc : sepChar (s.getD e 'A') with
  | false => rfl
  | true =>
    have h1 := sep_not_digit _ hsc
    have h2 := timeTry_end q s e r h
    rw [h1] at h2
    exact h2.symm

theorem pass4_pair :
    ∀ (segs : List Seg2) (p1 p2 : Option Char),
      SegsOK false false false true segs = true →
      noTwoLits segs = true →
      optWord p1 = optWord p2 →
      ∃ segs2,
        scanRun timeTry p1 (renderMsg1 segs) = renderMsg1 segs2 ∧
        scanRun timeTry p2 (renderMsg2 segs) = renderMsg2 segs2 ∧
        SegsOK false false false false segs2 = true ∧
        (∀ p, needsFirst segs p = true → needsFirst segs2 p = true) ∧
        ((renderMsg1 segs2).head? = (renderMsg1 segs).head? ∨
          strongSepOpt (renderMsg1 segs2).head? = true) ∧
        ((renderMsg2 segs2).head? = (renderMsg2 segs).head? ∨
          strongSepOpt (renderMsg2 segs2).head? = true) := by
  intro segs
  induction segs with
  | nil =>
    intro p1 p2 _ _ _
    exact ⟨[], by rw [renderMsg1_nil, scanRun_nil],
      by rw [renderMsg2_nil, scanRun_nil], rfl,
      fun p h => h, Or.inl rfl, Or.inl rfl⟩
  | cons s rest ih =>
    intro p1 p2 hOK hNT hw
    obtain ⟨hs0, hch, hrest⟩ := (SegsOK_cons _ _ _ _ _ _).mp hOK
    obtain ⟨hnt1, hntrest⟩ := (noTwoLits_cons _ _).mp hNT
    cases s with
    | uuid u1 u2 =>
      exfalso
      simp [segOKb] at hs0
    | idrun d1 d2 =>
      exfalso
      simp [segOKb] at hs0
    | quoted q1 q2 =>
      exfalso
      simp [segOKb] at hs0
    | tstamp t1 t2 =>
      have hs := hs0
      simp only [segOKb, Bool.and_eq_true] at hs
      obtain ⟨⟨-, h1⟩, h2⟩ := hs
      have ht1ne : t1 ≠ [] := by
        intro hx; subst hx; exact absurd h1 (by decide)
      have ht2ne : t2 ≠ [] := by
        intro hx; subst hx; exact absurd h2 (by decide)
      obtain ⟨c1, hlast1, hd1⟩ := tsStructb_last t1 h1
      obtain ⟨c2, hlast2, hd2⟩ := tsStructb_last t2 h2
      have hweq : optWord (prevAfter (Seg2.tstamp t1 t2).render1 p1) =
          optWord (prevAfter (Seg2.tstamp t1 t2).render2 p2) := by
        show optWord (prevAfter t1 p1) = optWord (prevAfter t2 p2)
        rw [prevAfter_ne_nil t1 p1 ht1ne, prevAfter_ne_nil t2 p2 ht2ne,
          hlast1, hlast2, optWord_some, optWord_some,
          isWordChar_of_isDigit c1 hd1, isWordChar_of_isDigit c2 hd2]
      obtain ⟨rest2, e1, e2, hOK2, hneeds2, hh1, hh2⟩ :=
        ih _ _ hrest hntrest hweq
      have hmt1 := timeTry_match_t t1 (renderMsg1 rest) h1 p1
      have hmt2 := timeTry_match_t t2 (renderMsg2 rest) h2 p2
      have hres := pass_match_assemble timeTry timeTry_len
        false false false false (Seg2.tstamp t1 t2)
        "<timestamp>".data rest rest2 p1 p2
        (by exact ht1ne) (by exact ht2ne)
        (by decide) (by decide) (by decide)
        hOK2 e1 e2 (by exact hmt1) (by exact hmt2)
      exact ⟨Seg2.lit "<timestamp>".data :: rest2, hres.1, hres.2.1,
        hres.2.2.1, hres.2.2.2.1, hres.2.2.2.2.1, hres.2.2.2.2.2⟩
    | ws w1 w2 =>
      have hs := hs0
      simp only [segOKb, Bool.and_eq_true] at hs
      obtain ⟨h1, h2⟩ := hs
      have hw1ne := ws_ne_nil w1 h1
      have hw2ne := ws_ne_nil w2 h2
      obtain ⟨c1, hlast1, hm1⟩ := last_mem w1 hw1ne
      obtain ⟨c2, hlast2, hm2⟩ := last_mem w2 hw2ne
      have hweq : optWord (prevAfter (Seg2.ws w1 w2).render1 p1) =
          optWord (prevAfter (Seg2.ws w1 w2).render2 p2) := by
        show optWord (prevAfter w1 p1) = optWord (prevAfter w2 p2)
        rw [prevAfter_ne_nil w1 p1 hw1ne, prevAfter_ne_nil w2 p2 hw2ne,
          hlast1, hlast2, optWord_some, optWord_some,
          white_not_word c1 (ws_all_white w1 h1 c1 hm1),
          white_not_word c2 (ws_all_white w2 h2 c2 hm2)]
      obtain ⟨rest2, e1, e2, hOK2, hneeds2, hh1, hh2⟩ :=
        ih _ _ hrest hntrest hweq
      have hres := pass_inert_assemble timeTry
        false false false true false false false false
        (Seg2.ws w1 w2) rest rest2 p1 p2 (by exact hs0) hch hrest hOK2
        e1 e2 hneeds2 hh1 hh2
        (fun i q hi => headInert timeTry jsIsWhite
          (fun q' c x hc => timeTry_none_head q' c x (white_not_digit c hc))
          w1 (renderMsg1 rest) (ws_all_white w1 h1) i hi q)
        (fun i q hi => headInert timeTry jsIsWhite
          (fun q' c x hc => timeTry_none_head q' c x (white_not_digit c hc))
          w2 (renderMsg2 rest) (ws_all_white w2 h2) i hi q)
      exact ⟨Seg2.ws w1 w2 :: rest2, hres.1, hres.2.1, hres.2.2.1,
        hres.2.2.2.1, hres.2.2.2.2.1, hres.2.2.2.2.2⟩
    | lit l =>
      have hlne : l ≠ [] := by
        intro hx; subst hx; simp [segOKb] at hs0
      have hzfact : ∀ z', l.getLast? = some z' →
          sepChar z' = true ∨ rest = [] := by
        cases rest with
        | nil => exact fun z' _ => Or.inr rfl
        | cons t r2 =>
          intro z' hz'
          left
          have htlit : t.isLitB = false := by
            have h := hnt1
            simp only [chainHead, noTwoLitsR, Seg2.isLitB, Bool.true_and,
              Bool.not_eq_true'] at h
            exact h
          have hcht : boundOKb (Seg2.lit l) t = true := hch
          obtain ⟨hc1, -, -, -⟩ := (boundOKb_eq _ _).mp hcht
          have hsep := needsb_nonlit_sep t _ htlit hc1
          rw [show (Seg2.lit l).render1.getLast? = some z' from hz'] at hsep
          simpa [sepOpt] using hsep
      have hloc1 : ∀ i q, i < l.length →
          timeTry q (l.drop i ++ renderMsg1 rest) = timeTry q (l.drop i) := by
        intro i q hi
        obtain ⟨z', hz', -⟩ := last_mem l hlne
        rcases hzfact z' hz' with hsep | hrnil
        · exact timeTry_local (l.drop i) _ z'
            (by rw [getLast?_drop_of_lt l i hi]; exact hz')
            (sep_not_digit z' hsep) (sep_ne_dash z' hsep)
            (sep_ne_colon z' hsep) (sep_ne_T z' hsep) q
        · rw [hrnil, renderMsg1_nil, List.append_nil]
      have hloc2 : ∀ i q, i < l.length →
          timeTry q (l.drop i ++ renderMsg2 rest) = timeTry q (l.drop i) := by
        intro i q hi
        obtain ⟨z', hz', -⟩ := last_mem l hlne
        rcases hzfact z' hz' with hsep | hrnil
        · exact timeTry_local (l.drop i) _ z'
            (by rw [getLast?_drop_of_lt l i hi]; exact hz')
            (sep_not_digit z' hsep) (sep_ne_dash z' hsep)
            (sep_ne_colon z' hsep) (sep_ne_T z' hsep) q
        · rw [hrnil, renderMsg2_nil, List.append_nil]
      have hweq : optWord (prevAfter l p1) = optWord (prevAfter l p2) := by
        rw [prevAfter_ne_nil l p1 hlne, prevAfter_ne_nil l p2 hlne]
      obtain ⟨rest2, e1, e2, hOK2, hneeds2, hh1, hh2⟩ :=
        ih _ _ hrest hntrest hweq
      have hres := pass_lit_assemble timeTry timeTry_len
        false false false true false false false false l rest rest2 p1 p2 hw
        (fun p q s' _ => timeTry_congr p q s')
        timeTry_replS (fun h => absurd h Bool.false_ne_true)
        timeTry_startSep timeTry_endSep hlne
        (fun h => absurd h Bool.false_ne_true)
        hzfact hch hrest hOK2 e1 e2 hneeds2 hloc1 hloc2
      exact ⟨Seg2.lit (scanRun timeTry p1 l) :: rest2, hres.1, hres.2.1,
        hres.2.2.1, hres.2.2.2.1, hres.2.2.2.2.1, hres.2.2.2.2.2⟩

theorem scanRun_congr_free (f : Matcher)
    (hf : ∀ p q s, f p s = f q s)
    (p q : Option Char) (s : List Char) :
    scanRun f p s = scanRun f q s := by
  cases s with
  | nil => rfl
  | cons c cs =>
    unfold scanRun
    simp only [List.length_cons, scanRepl]
    rw [hf p q]

theorem pass5_pair :
    ∀ (segs : List Seg2) (p1 p2 : Option Char),
      SegsOK false false false false segs = true →
      noTwoLits segs = true →
      scanRun wsTry p1 (renderMsg1 segs) =
        scanRun wsTry p2 (renderMsg2 segs) := by
  intro segs
  induction segs with
  | nil =>
    intro p1 p2 _ _
    rw [renderMsg1_nil, renderMsg2_nil, scanRun_nil, scanRun_nil]
  | cons s rest ih =>
    intro p1 p2 hOK hNT
    obtain ⟨hs0, hch, hrest⟩ := (SegsOK_cons _ _ _ _ _ _).mp hOK
    obtain ⟨hnt1, hntrest⟩ := (noTwoLits_cons _ _).mp hNT
    cases s with
    | uuid u1 u2 => exact absurd hs0 (by simp [segOKb])
    | idrun d1 d2 => exact absurd hs0 (by simp [segOKb])
    | quoted q1 q2 => exact absurd hs0 (by simp [segOKb])
    | tstamp t1 t2 => exact absurd hs0 (by simp [segOKb])
    | ws w1 w2 =>
      have hs := hs0
      simp only [segOKb, Bool.and_eq_true] at hs
      obtain ⟨h1, h2⟩ := hs
      have hw1ne := ws_ne_nil w1 h1
      have hw2ne := ws_ne_nil w2 h2
      have hB1 : nonWsOpt (renderMsg1 rest).head? = true := by
        cases rest with
        | nil => rfl
        | cons t r2 =>
          have hcht : boundOKb (Seg2.ws w1 w2) t = true := hch
          obtain ⟨-, -, hc3, -⟩ := (boundOKb_eq _ _).mp hcht
          have htOK := ((SegsOK_cons _ _ _ _ _ _).mp hrest).1
          rw [renderMsg1_head t r2 (segRender1_ne_nil _ _ _ _ t htOK)]
          simp only [needsb, Bool.and_eq_true] at hc3
          exact hc3.2
      have hB2 : nonWsOpt (renderMsg2 rest).head? = true := by
        cases rest with
        | nil => rfl
        | cons t r2 =>
          have hcht : boundOKb (Seg2.ws w1 w2) t = true := hch
          obtain ⟨-, -, -, hc4⟩ := (boundOKb_eq _ _).mp hcht
          have htOK := ((SegsOK_cons _ _ _ _ _ _).mp hrest).1
          rw [renderMsg2_head t r2 (segRender2_ne_nil _ _ _ _ t htOK)]
          simp only [needsb, Bool.and_eq_true] at hc4
          exact hc4.2
      rw [renderMsg1_cons, renderMsg2_cons]
      show scanRun wsTry p1 (w1 ++ renderMsg1 rest) =
        scanRun wsTry p2 (w2 ++ renderMsg2 rest)
      rw [scanRun_match_block wsTry wsTry_len w1 (renderMsg1 rest) [' '] p1
        hw1ne (wsTry_match w1 (renderMsg1 rest) (ws_all_white w1 h1) hw1ne
          hB1 p1)]
      rw [scanRun_match_block wsTry wsTry_len w2 (renderMsg2 rest) [' '] p2
        hw2ne (wsTry_match w2 (renderMsg2 rest) (ws_all_white w2 h2) hw2ne
          hB2 p2)]
      rw [ih (prevAfter w1 p1) (prevAfter w2 p2) hrest hntrest]
    | lit l =>
      have hlne : l ≠ [] := by
        intro hx; subst hx; simp [segOKb] at hs0
      have hzw : ∀ z', l.getLast? = some z' →
          jsIsWhite z' = false ∨ rest = [] := by
        cases rest with
        | nil => exact fun z' _ => Or.inr rfl
        | cons t r2 =>
          intro z' hz'
          left
          have htlit : t.isLitB = false := by
            have h := hnt1
            simp only [chainHead, noTwoLitsR, Seg2.isLitB, Bool.true_and,
              Bool.not_eq_true'] at h
            exact h
          have hcht : boundOKb (Seg2.lit l) t = true := hch
          obtain ⟨hc1, -, -, -⟩ := (boundOKb_eq _ _).mp hcht
          have htOK := ((SegsOK_cons _ _ _ _ _ _).mp hrest).1
          cases t with
          | lit l2 => simp [Seg2.isLitB] at htlit
          | uuid u1 u2 => exact absurd htOK (by simp [segOKb])
          | idrun d1 d2 => exact absurd htOK (by simp [segOKb])
          | quoted q1 q2 => exact absurd htOK (by simp [segOKb])
          | tstamp t1 t2 => exact absurd htOK (by simp [segOKb])
          | ws wa wb =>
            have : needsb (Seg2.ws wa wb)
                ((Seg2.lit l).render1.getLast?) = true := hc1
            rw [show (Seg2.lit l).render1.getLast? = some z' from hz']
              at this
            simp only [needsb, Bool.and_eq_true, nonWsOpt,
              Bool.not_eq_true'] at this
            exact this.2
      have hloc1 : ∀ i q, i < l.length →
          wsTry q (l.drop i ++ renderMsg1 rest) = wsTry q (l.drop i) := by
        intro i q hi
        obtain ⟨z', hz', -⟩ := last_mem l hlne
        rcases hzw z' hz' with hnw | hrnil
        · exact wsTry_local (l.drop i) _ z'
            (by rw [getLast?_drop_of_lt l i hi]; exact hz') hnw q
        · rw [hrnil, renderMsg1_nil, List.append_nil]
      have hloc2 : ∀ i q, i < l.length →
          wsTry q (l.drop i ++ renderMsg2 rest) = wsTry q (l.drop i) := by
        intro i q hi
        obtain ⟨z', hz', -⟩ := last_mem l hlne
        rcases hzw z' hz' with hnw | hrnil
        · exact wsTry_local (l.drop i) _ z'
            (by rw [getLast?_drop_of_lt l i hi]; exact hz') hnw q
        · rw [hrnil, renderMsg2_nil, List.append_nil]
      rw [renderMsg1_cons, renderMsg2_cons]
      show scanRun wsTry p1 (l ++ renderMsg1 rest) =
        scanRun wsTry p2 (l ++ renderMsg2 rest)
      rw [scanRun_append_local wsTry wsTry_len l.length l (renderMsg1 rest)
        (le_refl _) hloc1 p1]
      rw [scanRun_append_local wsTry wsTry_len l.length l (renderMsg2 rest)
        (le_refl _) hloc2 p2]
      rw [scanRun_congr_free wsTry wsTry_congr p1 p2 l]
      rw [ih (prevAfter l p1) (prevAfter l p2) hrest hntrest]

theorem needsFirst_none (segs : List Seg2) : needsFirst segs none = true := by
  cases segs with
  | nil => rfl
  | cons s rest =>
    cases s with
    | lit l => rfl
    | uuid u1 u2 => rfl
    | idrun d1 d2 => rfl
    | quoted q1 q2 => rfl
    | tstamp t1 t2 => rfl
    | ws w1 w2 => rfl

theorem normalizeMessage_pair (segs : List Seg2)
    (h : SegsOK true true true true segs = true) :
    normalizeMessage (String.mk (renderMsg1 segs)) =
    normalizeMessage (String.mk (renderMsg2 segs)) := by
  obtain ⟨hOK0, hNT0⟩ := mergeLits_ok true true true true segs h
  obtain ⟨s1, e11, e12, hOK1, -, -, -⟩ :=
    pass1_pair (mergeLits segs) none none hOK0 hNT0 rfl
  obtain ⟨hOK1m, hNT1m⟩ := mergeLits_ok _ _ _ _ s1 hOK1
  obtain ⟨s2, e21, e22, hOK2, -, -, -⟩ :=
    pass2_pair (mergeLits s1) none none hOK1m hNT1m rfl
      (needsFirst_none _) (needsFirst_none _)
  obtain ⟨hOK2m, hNT2m⟩ := mergeLits_ok _ _ _ _ s2 hOK2
  obtain ⟨s3, e31, e32, hOK3, -, -, -⟩ :=
    pass3_pair (mergeLits s2) none none hOK2m hNT2m rfl
  obtain ⟨hOK3m, hNT3m⟩ := mergeLits_ok _ _ _ _ s3 hOK3
  obtain ⟨s4, e41, e42, hOK4, -, -, -⟩ :=
    pass4_pair (mergeLits s3) none none hOK3m hNT3m rfl
  obtain ⟨hOK4m, hNT4m⟩ := mergeLits_ok _ _ _ _ s4 hOK4
  have e5 := pass5_pair (mergeLits s4) none none hOK4m hNT4m
  have c11 : runPass uuidTry (renderMsg1 segs) = renderMsg1 s1 := by
    show scanRun uuidTry none (renderMsg1 segs) = renderMsg1 s1
    rw [← mergeLits_render1 segs]
    exact e11
  have c12 : runPass uuidTry (renderMsg2 segs) = renderMsg2 s1 := by
    show scanRun uuidTry none (renderMsg2 segs) = renderMsg2 s1
    rw [← mergeLits_render2 segs]
    exact e12
  have c21 : runPass idTry (renderMsg1 s1) = renderMsg1 s2 := by
    show scanRun idTry none (renderMsg1 s1) = renderMsg1 s2
    rw [← mergeLits_render1 s1]
    exact e21
  have c22 : runPass idTry (renderMsg2 s1) = renderMsg2 s2 := by
    show scanRun idTry none (renderMsg2 s1) = renderMsg2 s2
    rw [← mergeLits_render2 s1]
    exact e22
  have c31 : runPass quotedTry (renderMsg1 s2) = renderMsg1 s3 := by
    show scanRun quotedTry none (renderMsg1 s2) = renderMsg1 s3
    rw [← mergeLits_render1 s2]
    exact e31
  have c32 : runPass quotedTry (renderMsg2 s2) = renderMsg2 s3 := by
    show scanRun quotedTry none (renderMsg2 s2) = renderMsg2 s3
    rw [← mergeLits_render2 s2]
    exact e32
  have c41 : runPass timeTry (renderMsg1 s3) = renderMsg1 s4 := by
    show scanRun timeTry none (renderMsg1 s3) = renderMsg1 s4
    rw [← mergeLits_render1 s3]
    exact e41
  have c42 : runPass timeTry (renderMsg2 s3) = renderMsg2 s4 := by
    show scanRun timeTry none (renderMsg2 s3) = renderMsg2 s4
    rw [← mergeLits_render2 s3]
    exact e42
  have c51 : runPass wsTry (renderMsg1 s4) = runPass wsTry (renderMsg2 s4)
      := by
    show scanRun wsTry none (renderMsg1 s4) =
      scanRun wsTry none (renderMsg2 s4)
    rw [← mergeLits_render1 s4, ← mergeLits_render2 s4]
    exact e5
  unfold normalizeMessage
  rw [show (String.mk (renderMsg1 segs)).data = renderMsg1 segs from rfl,
    show (String.mk (renderMsg2 segs)).data = renderMsg2 segs from rfl,
    c11, c21, c31, c41, c51, ← c42, ← c32, ← c22, ← c12]

/-- **C9 (amended).**  Two error messages that differ only in embedded
dynamic values — UUIDs, digit runs of five or more, quoted digit-bearing
strings, ISO timestamps, or whitespace runs — produce the same fingerprint
for the same error type and stack, provided each dynamic segment is
delimited in both messages by characters that are not letters, digits,
underscores, hyphens or colons (or by the message boundary), whitespace
runs are additionally delimited by non-whitespace, the shared static text
contains no double quote, and quoted payloads contain no hyphen and no
run of five or more digits.  (The delimitation proviso is necessary: the
claim as stated fails for a digit run embedded in a word, because the
word boundaries of the numeric-run regex reject such runs.) -/
theorem C9_delimited_dynamic_segments_fingerprint_stable
    (ty st : Option String) (segs : List Seg2)
    (h : SegsOK true true true true segs = true) :
    generateFingerprint ty (String.mk (renderMsg1 segs)) st =
    generateFingerprint ty (String.mk (renderMsg2 segs)) st := by
  unfold generateFingerprint
  rw [normalizeMessage_pair segs h]

theorem C9_delimited_dynamic_segments_fingerprint_stable_witness :
    SegsOK true true true true
      [Seg2.lit "User ".data, Seg2.idrun "12345".data "99999".data,
        Seg2.lit " not found".data] = true ∧
    generateFingerprint none (String.mk (renderMsg1
      [Seg2.lit "User ".data, Seg2.idrun "12345".data "99999".data,
        Seg2.lit " not found".data])) none =
    generateFingerprint none (String.mk (renderMsg2
      [Seg2.lit "User ".data, Seg2.idrun "12345".data "99999".data,
        Seg2.lit " not found".data])) none :=
  ⟨by decide, C9_delimited_dynamic_segments_fingerprint_stable none none
    [Seg2.lit "User ".data, Seg2.idrun "12345".data "99999".data,
      Seg2.lit " not found".data] (by decide)⟩
